import Mathlib

/-!
# Command stream and relocation table of the radeon GEM backend

A shallow embedding of `libdrm/radeon/radeon_cs_gem.c`.

* Storage obtained from `calloc`/`realloc` is a list with one element per cell; its
  length is the allocated size. An access outside the allocation has no defined
  result: every operation returns `Option`, and `none` is such a memory fault.
* Whether an allocation request succeeds is decided by the environment; each
  operation takes the outcome of each request it can make as a `Bool`.
* `unsigned` and `uint32_t` values are natural numbers; arithmetic on them is reduced
  modulo `U32`. The properties that need it assume that a counter read from the state
  is a 32-bit value; they assume nothing on the arguments of a call.
* Calls to the buffer-object collaborator (`radeon_bo_ref`, `radeon_bo_unref`) and to
  the submission channel (`drmCommandWriteRead`) are recorded in the state, in order.
-/

namespace RadeonCsGem

/-! ## Constants -/

/-- Number of values of a 32-bit unsigned integer (`uint32_t`, `unsigned`). -/
def U32 : Nat := 4294967296

/-- Value of `EINVAL` in `errno.h`. -/
def EINVAL : Int := 22

/-- Value of `ENOMEM` in `errno.h`. -/
def ENOMEM : Int := 12

/-- Modelled from the spec: the CPU-memory-domain value. The constant is defined in
`radeon_drm.h`, outside this file, as `0x1`. -/
def RADEON_GEM_DOMAIN_CPU : Nat := 1

/-- Modelled from the spec: the tag of the relocation-stream chunk, defined in
`radeon_drm.h`, outside this file, as `0x01`. -/
def RADEON_CHUNK_ID_RELOCS : Nat := 1

/-- Modelled from the spec: the tag of the instruction-stream chunk, defined in
`radeon_drm.h`, outside this file, as `0x02`. -/
def RADEON_CHUNK_ID_IB : Nat := 2

/-- Size in bytes of a pointer, `sizeof(struct radeon_bo*)`, on an LP64 platform. -/
def sizeof_ptr : Nat := 8

/-- The marker word that opens an in-stream relocation reference. -/
def RELOC_MARKER : Nat := 0xc0001000

/-! ## Data model -/

/-- Modelled from the spec: the buffer object of the buffer-object collaborator, with
its capabilities `handle` and `sizeBytes`. `struct radeon_bo` is declared in
`radeon_bo.h`, outside this file; the code reads `bo->handle` and `bo->size`. `addr`
identifies the object (its address). -/
structure radeon_bo where
  addr : Nat
  handle : Nat
  size : Nat
deriving DecidableEq, Repr

/-- A call to the buffer-object collaborator: `radeon_bo_ref(bo)` or
`radeon_bo_unref(p)`, where `p` is the pointer passed (`none` is `NULL`). -/
inductive bo_call where
  | ref (bo : radeon_bo)
  | unref (p : Option radeon_bo)
deriving DecidableEq, Repr

/-- Chunk descriptor `struct drm_radeon_cs_chunk`. The third member, `chunk_data`,
points at the storage of the stream it describes and is not represented. -/
structure drm_radeon_cs_chunk where
  chunk_id : Nat
  length_dw : Nat
deriving DecidableEq, Repr

/-- Submission descriptor `struct drm_radeon_cs2` as the channel sees it: the number
of chunks and the chunk descriptors its `chunks` array points at, in order. -/
structure drm_radeon_cs2 where
  num_chunks : Nat
  chunks : List drm_radeon_cs_chunk
deriving DecidableEq, Repr

/-- The stream `struct cs_gem`, its base `struct radeon_cs` inlined.
`packets`, `relocs` and `relocs_bo` are the three allocations (cells are words, words
and pointers); `bo_calls` and `submitted` record the calls made to the collaborators.
The base is declared in `radeon_cs.h`, outside this file: its counters `cdw`, `ndw`,
`crelocs` and `relocs_total_size` are `unsigned`, 32 bits wide like the locals
(`unsigned i`, `uint32_t tmp`, `uint32_t idx`) they are compared with and assigned
from. -/
structure cs_gem where
  packets : List Nat
  cdw : Nat
  ndw : Nat
  section_ : Nat
  crelocs : Nat
  relocs_total_size : Nat
  chunks0 : drm_radeon_cs_chunk
  chunks1 : drm_radeon_cs_chunk
  nrelocs : Nat
  relocs : List Nat
  relocs_bo : List (Option radeon_bo)
  bo_calls : List bo_call
  submitted : List drm_radeon_cs2
deriving DecidableEq, Repr

/-- Result of `realloc` to `n` cells when it succeeds: the cells that exist in both
blocks keep their contents; the contents of added cells are indeterminate and shown
as `fill`. -/
def realloc {α : Type} (fill : α) (block : List α) (n : Nat) : List α :=
  block.take n ++ List.replicate (n - block.length) fill

/-! ## cs_gem_create -/

/-- Outcomes of the four `calloc` requests of `cs_gem_create`. -/
structure create_allocs where
  csg_ok : Bool
  packets_ok : Bool
  relocs_bo_ok : Bool
  relocs_ok : Bool
deriving DecidableEq, Repr

/-- The function `cs_gem_create`; `none` is the `NULL` result. -/
def cs_gem_create (a : create_allocs) (ndw : Nat) : Option cs_gem :=
  if ndw > 64 * 1024 / 4 then none
  else if a.csg_ok = false then none
  else if a.packets_ok = false then none
  else if a.relocs_bo_ok = false then none
  else if a.relocs_ok = false then none
  else some {
    packets := List.replicate (64 * 1024 / 4) 0
    cdw := 0
    ndw := 64 * 1024 / 4
    section_ := 0
    crelocs := 0
    relocs_total_size := 0
    chunks0 := { chunk_id := RADEON_CHUNK_ID_IB, length_dw := 0 }
    chunks1 := { chunk_id := RADEON_CHUNK_ID_RELOCS, length_dw := 0 }
    nrelocs := 4096 / (4 * 4)
    relocs := List.replicate (4096 / 4) 0
    relocs_bo := List.replicate (4096 / (4 * 4) * sizeof_ptr / sizeof_ptr) none
    bo_calls := []
    submitted := [] }

/-! ## cs_gem_write_dword -/

/-- The stream after `cs->packets[cs->cdw++] = dword` and the increment of the chunk
length (lines 123-124 of `cs_gem_write_dword`), when index `cdw` is inside `packets`. -/
def cs_gem_stored (cs : cs_gem) (dword : Nat) : cs_gem :=
  { cs with
    packets := cs.packets.set cs.cdw dword
    cdw := (cs.cdw + 1) % U32
    chunks0 := { cs.chunks0 with length_dw := (cs.chunks0.length_dw + 1) % U32 } }

/-- Lines 123-125 of `cs_gem_write_dword`: the store of the word, a memory fault when
index `cdw` is outside `packets`. -/
def cs_gem_store_dword (cs : cs_gem) (dword : Nat) : Option (cs_gem × Int) :=
  if cs.cdw < cs.packets.length then some (cs_gem_stored cs dword, 0) else none

/-- The function `cs_gem_write_dword`. `realloc_ok` is the outcome of its `realloc`
request, should it make one. -/
def cs_gem_write_dword (realloc_ok : Bool) (cs : cs_gem) (dword : Nat) :
    Option (cs_gem × Int) :=
  if cs.cdw ≥ cs.ndw then
    let tmp := ((cs.cdw + 1 + 0x3FF) % U32) &&& 0xFFFFFC00
    if realloc_ok = false then some (cs, -ENOMEM)
    else
      cs_gem_store_dword
        { cs with packets := realloc 0 cs.packets ((4 * tmp) % U32 / 4), ndw := tmp } dword
  else cs_gem_store_dword cs dword

/-! ## cs_gem_write_reloc -/

/-- Outcomes of the allocation requests `cs_gem_write_reloc` can make: the two
`realloc` of the table growth and the one of each of its two `cs_gem_write_dword`. -/
structure reloc_allocs where
  relocs_bo_ok : Bool
  relocs_ok : Bool
  dword0_ok : Bool
  dword1_ok : Bool
deriving DecidableEq, Repr

/-- The search loop of `cs_gem_write_reloc` (lines 162-165), with `n` iterations left
at index `i`: the word offset `idx` of the first record whose handle is `handle`. -/
def cs_gem_find (relocs : List Nat) (handle : Nat) : Nat → Nat → Option (Option Nat)
  | 0, _ => some none
  | n + 1, i =>
    match relocs[(i * 6) % U32]? with
    | none => none
    | some h =>
      if h = handle then some (some ((i * 6) % U32))
      else cs_gem_find relocs handle n (i + 1)

/-- The two calls `cs_gem_write_dword(cs, 0xc0001000); cs_gem_write_dword(cs, idx);`
whose return values `cs_gem_write_reloc` ignores. -/
def cs_gem_write_packet (a : reloc_allocs) (cs : cs_gem) (idx : Nat) : Option cs_gem :=
  match cs_gem_write_dword a.dword0_ok cs RELOC_MARKER with
  | none => none
  | some (cs1, _) =>
    match cs_gem_write_dword a.dword1_ok cs1 idx with
    | none => none
    | some (cs2, _) => some cs2

/-- Lines 178-188 of `cs_gem_write_reloc`: the update of the record at word offset
`idx`, whose fields before the update are `so eo rd wd fl`. -/
def cs_gem_merge_record (relocs : List Nat) (idx so eo rd wd fl : Nat)
    (start_offset end_offset read_domain write_domain flags : Nat) : List Nat :=
  let r1 := relocs.set (idx + 3) (rd ||| read_domain)
  let r2 := r1.set (idx + 4) (wd ||| write_domain)
  let r3 := if start_offset < so then r2.set (idx + 1) start_offset else r2
  let r4 := if end_offset > eo then r3.set (idx + 2) end_offset else r3
  r4.set (idx + 5) (fl ||| (flags &&& fl))

/-- Lines 166-192 of `cs_gem_write_reloc`: the record at word offset `idx` has the
handle of the buffer. -/
def cs_gem_merge (a : reloc_allocs) (cs : cs_gem) (idx : Nat)
    (start_offset end_offset read_domain write_domain flags : Nat) :
    Option (cs_gem × Int) :=
  match cs.relocs[idx + 3]? with
  | none => none
  | some rd =>
    if rd ≠ 0 ∧ read_domain = 0 then some (cs, -EINVAL)
    else
      match cs.relocs[idx + 4]? with
      | none => none
      | some wd =>
        if wd ≠ 0 ∧ write_domain = 0 then some (cs, -EINVAL)
        else
          match cs.relocs[idx + 1]?, cs.relocs[idx + 2]?, cs.relocs[idx + 5]? with
          | some so, some eo, some fl =>
            match cs_gem_write_packet a
                { cs with
                  relocs := cs_gem_merge_record cs.relocs idx so eo rd wd fl
                    start_offset end_offset read_domain write_domain flags } idx with
            | none => none
            | some cs2 => some (cs2, 0)
          | _, _, _ => none

/-- Lines 196-213 of `cs_gem_write_reloc`: growth of the table by one entry when it
is full. The result code is `0` or `-ENOMEM`. -/
def cs_gem_grow (a : reloc_allocs) (cs : cs_gem) : cs_gem × Int :=
  if cs.crelocs ≥ cs.nrelocs then
    if a.relocs_bo_ok = false then (cs, -ENOMEM)
    else
      let cs1 := { cs with
        relocs_bo := realloc none cs.relocs_bo
          ((((cs.nrelocs + 1) % U32) * sizeof_ptr) % U32 / sizeof_ptr) }
      if a.relocs_ok = false then (cs1, -ENOMEM)
      else
        ({ cs1 with
            relocs := realloc 0 cs1.relocs (((cs.nrelocs + 1) * 6 * 4) % U32 / 4)
            nrelocs := (cs.nrelocs + 1) % U32 }, 0)
  else (cs, 0)

/-- Lines 214-225 of `cs_gem_write_reloc`: the new entry, written at word offset
`idx` of a table that has room for it. -/
def cs_gem_set_entry (cs : cs_gem) (bo : radeon_bo) (idx : Nat)
    (start_offset end_offset read_domain write_domain flags : Nat) : cs_gem :=
  { cs with
    relocs_bo := cs.relocs_bo.set cs.crelocs (some bo)
    crelocs := (cs.crelocs + 1) % U32
    relocs :=
      (((((cs.relocs.set idx bo.handle).set (idx + 1) start_offset).set (idx + 2)
        end_offset).set (idx + 3) read_domain).set (idx + 4) write_domain).set (idx + 5)
        flags
    chunks1 := { cs.chunks1 with length_dw := (cs.chunks1.length_dw + 6) % U32 }
    bo_calls := cs.bo_calls ++ [bo_call.ref bo]
    relocs_total_size := (cs.relocs_total_size + bo.size) % U32 }

/-- Lines 214-228 of `cs_gem_write_reloc`: the new entry and its in-stream
reference. -/
def cs_gem_append (a : reloc_allocs) (cs : cs_gem) (bo : radeon_bo)
    (start_offset end_offset read_domain write_domain flags : Nat) :
    Option (cs_gem × Int) :=
  let idx := (cs.crelocs * 6) % U32
  if cs.crelocs < cs.relocs_bo.length ∧ idx + 5 < cs.relocs.length then
    match cs_gem_write_packet a
        (cs_gem_set_entry cs bo idx start_offset end_offset read_domain write_domain flags)
        idx with
    | none => none
    | some cs2 => some (cs2, 0)
  else none

/-- Lines 161-228 of `cs_gem_write_reloc`: what the function does once the
arguments have passed its checks. -/
def cs_gem_reference (a : reloc_allocs) (cs : cs_gem) (bo : radeon_bo)
    (start_offset end_offset read_domain write_domain flags : Nat) :
    Option (cs_gem × Int) :=
  match cs_gem_find cs.relocs bo.handle cs.crelocs 0 with
  | none => none
  | some (some idx) =>
    cs_gem_merge a cs idx start_offset end_offset read_domain write_domain flags
  | some none =>
    if (cs_gem_grow a cs).2 = 0 then
      cs_gem_append a (cs_gem_grow a cs).1 bo start_offset end_offset read_domain
        write_domain flags
    else some (cs_gem_grow a cs)

/-- The function `cs_gem_write_reloc`. -/
def cs_gem_write_reloc (a : reloc_allocs) (cs : cs_gem) (bo : radeon_bo)
    (start_offset end_offset read_domain write_domain flags : Nat) :
    Option (cs_gem × Int) :=
  if (read_domain ≠ 0 ∧ write_domain ≠ 0) ∨ (read_domain = 0 ∧ write_domain = 0) then
    some (cs, -EINVAL)
  else if read_domain = RADEON_GEM_DOMAIN_CPU then some (cs, -EINVAL)
  else if write_domain = RADEON_GEM_DOMAIN_CPU then some (cs, -EINVAL)
  else if end_offset > bo.size then some (cs, -EINVAL)
  else if start_offset > end_offset then some (cs, -EINVAL)
  else cs_gem_reference a cs bo start_offset end_offset read_domain write_domain flags

/-! ## cs_gem_emit, cs_gem_erase, cs_gem_need_flush -/

/-- The release loop of `cs_gem_emit` (lines 267-270), with `n` iterations left at
index `i`. -/
def cs_gem_emit_unref : Nat → Nat → cs_gem → Option cs_gem
  | 0, _, cs => some cs
  | n + 1, i, cs =>
    match cs.relocs_bo[i]? with
    | none => none
    | some p =>
      cs_gem_emit_unref n (i + 1)
        { cs with
          bo_calls := cs.bo_calls ++ [bo_call.unref p]
          relocs_bo := cs.relocs_bo.set i none }

/-- The function `cs_gem_emit`; `r` is the result of `drmCommandWriteRead`. -/
def cs_gem_emit (r : Int) (cs : cs_gem) : Option (cs_gem × Int) :=
  let c0 : drm_radeon_cs_chunk := { cs.chunks0 with length_dw := cs.cdw }
  let cs1 := { cs with
    chunks0 := c0
    submitted := cs.submitted ++ [{ num_chunks := 2, chunks := [c0, cs.chunks1] }] }
  match cs_gem_emit_unref cs.crelocs 0 cs1 with
  | none => none
  | some cs2 => some (cs2, r)

/-- The release loop of `cs_gem_erase` (lines 291-296), with `n` iterations left at
index `i`. -/
def cs_gem_erase_unref : Nat → Nat → cs_gem → Option cs_gem
  | 0, _, cs => some cs
  | n + 1, i, cs =>
    match cs.relocs_bo[i]? with
    | none => none
    | some none => cs_gem_erase_unref n (i + 1) cs
    | some (some bo) =>
      cs_gem_erase_unref n (i + 1)
        { cs with
          bo_calls := cs.bo_calls ++ [bo_call.unref (some bo)]
          relocs_bo := cs.relocs_bo.set i none }

/-- The function `cs_gem_erase`. The pointer `csg->relocs_bo` it tests is never
`NULL` in a stream that `cs_gem_create` returned. -/
def cs_gem_erase (cs : cs_gem) : Option (cs_gem × Int) :=
  match cs_gem_erase_unref cs.crelocs 0 cs with
  | none => none
  | some cs1 =>
    some ({ cs1 with
            relocs_total_size := 0
            cdw := 0
            section_ := 0
            crelocs := 0
            chunks0 := { cs1.chunks0 with length_dw := 0 }
            chunks1 := { cs1.chunks1 with length_dw := 0 } }, 0)

/-- The function `cs_gem_need_flush`: the stream after the call and the result. -/
def cs_gem_need_flush (cs : cs_gem) : cs_gem × Int :=
  (cs, if cs.relocs_total_size > 32 * 1024 * 1024 then 1 else 0)

/-! ## cs_gem_destroy -/

/-- The function `cs_gem_destroy`: it frees the reference array, the table, the words
and the stream itself, and makes no other call. The stream does not exist after the
call; what remains is the record of the calls made to the buffer-object collaborator
up to the end of the call, and the result code. -/
def cs_gem_destroy (cs : cs_gem) : List bo_call × Int :=
  (cs.bo_calls, 0)

/-! ## cs_gem_print -/

/-- Packet type of a register write. -/
def PACKET_TYPE0 : Nat := 0

/-- Packet type 1. -/
def PACKET_TYPE1 : Nat := 1

/-- Packet type 2. -/
def PACKET_TYPE2 : Nat := 2

/-- Packet type of an opcode packet. -/
def PACKET_TYPE3 : Nat := 3

/-- Opcode `PACKET3_NOP`. -/
def PACKET3_NOP : Nat := 0x10

/-- Opcode `PACKET3_SET_SCISSORS`, which the decoder does not name. -/
def PACKET3_SET_SCISSORS : Nat := 0x1E

/-- Opcode `PACKET3_3D_DRAW_VBUF`. -/
def PACKET3_3D_DRAW_VBUF : Nat := 0x28

/-- Opcode `PACKET3_3D_DRAW_IMMD`. -/
def PACKET3_3D_DRAW_IMMD : Nat := 0x29

/-- Opcode `PACKET3_3D_DRAW_INDX`. -/
def PACKET3_3D_DRAW_INDX : Nat := 0x2A

/-- Opcode `PACKET3_3D_LOAD_VBPNTR`. -/
def PACKET3_3D_LOAD_VBPNTR : Nat := 0x2F

/-- Opcode `PACKET3_INDX_BUFFER`. -/
def PACKET3_INDX_BUFFER : Nat := 0x33

/-- Opcode `PACKET3_3D_DRAW_VBUF_2`. -/
def PACKET3_3D_DRAW_VBUF_2 : Nat := 0x34

/-- Opcode `PACKET3_3D_DRAW_IMMD_2`. -/
def PACKET3_3D_DRAW_IMMD_2 : Nat := 0x35

/-- Opcode `PACKET3_3D_DRAW_INDX_2`. -/
def PACKET3_3D_DRAW_INDX_2 : Nat := 0x36

/-- The macro `CP_PACKET_GET_TYPE(h)`, `(((h) >> 30) & 3)`. -/
def CP_PACKET_GET_TYPE (h : Nat) : Nat := (h >>> 30) &&& 3

/-- The macro `CP_PACKET_GET_COUNT(h)`, `(((h) >> 16) & 0x3FFF)`. -/
def CP_PACKET_GET_COUNT (h : Nat) : Nat := (h >>> 16) &&& 0x3FFF

/-- The macro `CP_PACKET0_GET_REG(h)`, `(((h) & 0x1FFF) << 2)`. -/
def CP_PACKET0_GET_REG (h : Nat) : Nat := ((h &&& 0x1FFF) <<< 2) % U32

/-- The macro `CP_PACKET0_GET_ONE_REG_WR(h)`, `(((h) >> 15) & 1)`. -/
def CP_PACKET0_GET_ONE_REG_WR (h : Nat) : Nat := (h >>> 15) &&& 1

/-- The macro `CP_PACKET3_GET_OPCODE(h)`, `(((h) >> 8) & 0xFF)`. -/
def CP_PACKET3_GET_OPCODE (h : Nat) : Nat := (h >>> 8) &&& 0xFF

/-- One line of the output of `cs_gem_print`: one `fprintf` call, with the values of
its arguments. Every format string of the function ends in its only newline. -/
inductive print_line where
  /-- The line `"Pkt0 at %d (%d dwords):"`. -/
  | pkt0 (i : Nat) (dwords : Nat)
  /-- The line `"    0x%08X -> 0x%04X"`. -/
  | reg_write (dword : Nat) (reg : Nat)
  /-- The line `"Pkt3 at %d :"`. -/
  | pkt3 (i : Nat)
  /-- The line that names the opcode, `"    PACKET3_NOP:"` and the like. -/
  | opcode_name (text : String)
  /-- The line `"        0x%08X"`. -/
  | body (dword : Nat)
  /-- The line `"Unknow opcode 0x%02X at %d"`. -/
  | unknow_opcode (opcode : Nat) (i : Nat)
  /-- The line `"Unknow packet 0x%08X at %d"`. -/
  | unknow_packet (dword : Nat) (i : Nat)
deriving DecidableEq, Repr

/-- The loop of lines 348-351, with `n` iterations left: every word is attributed to the
register `reg`. The result is the index `i` after the loop and the output. A read
outside the storage is a memory fault. -/
def cs_gem_print_one_reg (packets : List Nat) (reg : Nat) :
    Nat → Nat → List print_line → Option (Nat × List print_line)
  | 0, i, out => some (i, out)
  | n + 1, i, out =>
    match packets[i]? with
    | none => none
    | some dword =>
      cs_gem_print_one_reg packets reg n (i + 1) (out ++ [print_line.reg_write dword reg])

/-- The loop of lines 353-357, with `n` iterations left: `reg` advances by 4 after every
word. -/
def cs_gem_print_regs (packets : List Nat) :
    Nat → Nat → Nat → List print_line → Option (Nat × List print_line)
  | 0, i, _, out => some (i, out)
  | n + 1, i, reg, out =>
    match packets[i]? with
    | none => none
    | some dword =>
      cs_gem_print_regs packets n (i + 1) ((reg + 4) % U32)
        (out ++ [print_line.reg_write dword reg])

/-- The loop of lines 395-397, with `n` iterations left: the words of an opcode
packet. -/
def cs_gem_print_body (packets : List Nat) :
    Nat → Nat → List print_line → Option (Nat × List print_line)
  | 0, i, out => some (i, out)
  | n + 1, i, out =>
    match packets[i]? with
    | none => none
    | some dword => cs_gem_print_body packets n (i + 1) (out ++ [print_line.body dword])

/-- The inner `switch` of lines 363-394: the line that names the opcode, `none` for
the `default` case. -/
def cs_gem_print_opcode (opcode : Nat) : Option String :=
  if opcode = PACKET3_NOP then some "    PACKET3_NOP:"
  else if opcode = PACKET3_3D_DRAW_VBUF then some "    PACKET3_3D_DRAW_VBUF:"
  else if opcode = PACKET3_3D_DRAW_IMMD then some "    PACKET3_3D_DRAW_IMMD:"
  else if opcode = PACKET3_3D_DRAW_INDX then some "    PACKET3_3D_DRAW_INDX:"
  else if opcode = PACKET3_3D_LOAD_VBPNTR then some "    PACKET3_3D_LOAD_VBPNTR:"
  else if opcode = PACKET3_INDX_BUFFER then some "    PACKET3_INDX_BUFFER:"
  else if opcode = PACKET3_3D_DRAW_VBUF_2 then some "    PACKET3_3D_DRAW_VBUF_2:"
  else if opcode = PACKET3_3D_DRAW_IMMD_2 then some "    PACKET3_3D_DRAW_IMMD_2:"
  else if opcode = PACKET3_3D_DRAW_INDX_2 then some "    PACKET3_3D_DRAW_INDX_2:"
  else none

/-- The words of a type-0 packet (lines 347-358): one of the two loops, chosen by the
flag of the header `h`, over `cnt + 1` words from index `i`. -/
def cs_gem_print_packet0 (packets : List Nat) (h cnt i : Nat) (out : List print_line) :
    Option (Nat × List print_line) :=
  if CP_PACKET0_GET_ONE_REG_WR h ≠ 0 then
    cs_gem_print_one_reg packets (CP_PACKET0_GET_REG h) (cnt + 1) i out
  else cs_gem_print_regs packets (cnt + 1) i (CP_PACKET0_GET_REG h) out

-- The equations of the loop below are generated with a deeper recursion limit than
-- the default.
set_option maxRecDepth 4096

set_option linter.unusedVariables false in
/-- The loop of `cs_gem_print` (lines 341-405) at index `i`, `out` being the lines
written so far. The result is the output of the function; `none` is a memory fault, a
read outside the storage `packets`. The indices `i` and `j` of the source are `int`:
they do not overflow on a storage of fewer than 2^31 words, and `cs_gem_write_dword`
builds none of 2^30 words or more. -/
def cs_gem_print_loop (packets : List Nat) (cdw : Nat) (i : Nat) (out : List print_line) :
    Option (List print_line) :=
  if i < cdw then
    match packets[i]? with
    | none => none
    | some h =>
      let cnt := CP_PACKET_GET_COUNT h
      if CP_PACKET_GET_TYPE h = PACKET_TYPE0 then
        match hb : cs_gem_print_packet0 packets h cnt (i + 1)
            (out ++ [print_line.pkt0 i (cnt + 1)]) with
        | none => none
        | some (i1, out1) => cs_gem_print_loop packets cdw i1 out1
      else if CP_PACKET_GET_TYPE h = PACKET_TYPE3 then
        let opcode := CP_PACKET3_GET_OPCODE h
        match cs_gem_print_opcode opcode with
        | none =>
          some (out ++ [print_line.pkt3 i] ++ [print_line.unknow_opcode opcode (i + 1)])
        | some text =>
          match hb : cs_gem_print_body packets (cnt + 1) (i + 1)
              (out ++ [print_line.pkt3 i] ++ [print_line.opcode_name text]) with
          | none => none
          | some (i1, out1) => cs_gem_print_loop packets cdw i1 out1
      else some (out ++ [print_line.unknow_packet h i])
  else some out
termination_by cdw - i
decreasing_by
  all_goals simp_wf
  · have key : ∀ (reg n j : Nat) (o : List print_line) (q : Nat × List print_line),
        (cs_gem_print_one_reg packets reg n j o = some q → j ≤ q.1) ∧
        (cs_gem_print_regs packets n j reg o = some q → j ≤ q.1) := by
      intro reg n
      induction n generalizing reg with
      | zero =>
        intro j o q
        constructor <;> intro e
        · unfold cs_gem_print_one_reg at e
          simp only [Option.some.injEq] at e
          rw [← e]
        · unfold cs_gem_print_regs at e
          simp only [Option.some.injEq] at e
          rw [← e]
      | succ n ih =>
        intro j o q
        constructor <;> intro e
        · unfold cs_gem_print_one_reg at e
          split at e
          · exact absurd e (by simp)
          · exact Nat.le_trans (Nat.le_succ j) ((ih reg (j + 1) _ q).1 e)
        · unfold cs_gem_print_regs at e
          split at e
          · exact absurd e (by simp)
          · exact Nat.le_trans (Nat.le_succ j) ((ih _ (j + 1) _ q).2 e)
    have hle : i + 1 ≤ i1 := by
      unfold cs_gem_print_packet0 at hb
      split at hb
      · exact (key _ _ _ _ (i1, out1)).1 hb
      · exact (key _ _ _ _ (i1, out1)).2 hb
    omega
  · have key : ∀ (n j : Nat) (o : List print_line) (q : Nat × List print_line),
        cs_gem_print_body packets n j o = some q → j ≤ q.1 := by
      intro n
      induction n with
      | zero =>
        intro j o q e
        unfold cs_gem_print_body at e
        simp only [Option.some.injEq] at e
        rw [← e]
      | succ n ih =>
        intro j o q e
        unfold cs_gem_print_body at e
        split at e
        · exact absurd e (by simp)
        · exact Nat.le_trans (Nat.le_succ j) (ih (j + 1) _ q e)
    have hle : i + 1 ≤ i1 := key _ _ _ (i1, out1) hb
    omega

/-- The function `cs_gem_print`: the lines it writes to `file`. -/
def cs_gem_print (cs : cs_gem) : Option (List print_line) :=
  cs_gem_print_loop cs.packets cs.cdw 0 []

/-! ## Runs -/

/-- A call on a stream, with the outcomes of the requests the call makes to the
environment. -/
inductive cs_call where
  | write_dword (realloc_ok : Bool) (dword : Nat)
  | write_reloc (a : reloc_allocs) (bo : radeon_bo)
      (start_offset end_offset read_domain write_domain flags : Nat)
  | emit (r : Int)
  | erase
deriving DecidableEq, Repr

/-- Dispatch of a call to its function. -/
def cs_gem_call (cs : cs_gem) : cs_call → Option (cs_gem × Int)
  | cs_call.write_dword ok dword => cs_gem_write_dword ok cs dword
  | cs_call.write_reloc a bo so eo rd wd fl => cs_gem_write_reloc a cs bo so eo rd wd fl
  | cs_call.emit r => cs_gem_emit r cs
  | cs_call.erase => cs_gem_erase cs

/-- The stream after a sequence of calls, whatever they returned; `none` when a call
ran into a memory fault. -/
def cs_gem_run (cs : cs_gem) : List cs_call → Option cs_gem
  | [] => some cs
  | c :: cs_calls =>
    match cs_gem_call cs c with
    | none => none
    | some (cs1, _) => cs_gem_run cs1 cs_calls

/-- States reachable from `cs_gem_create` by calls. -/
inductive reachable : cs_gem → Prop where
  | create (a : create_allocs) (ndw : Nat) (cs : cs_gem) :
      cs_gem_create a ndw = some cs → reachable cs
  | call (cs : cs_gem) (c : cs_call) (cs1 : cs_gem) (r : Int) :
      reachable cs → cs_gem_call cs c = some (cs1, r) → reachable cs1


/-! ## Vocabulary of the properties -/

/-! ### Well-formed streams -/

/-- The words written to the stream so far. -/
def words (cs : cs_gem) : List Nat := cs.packets.take cs.cdw

/-- The written words lie inside the storage `packets`, and `ndw` is a 32-bit value. -/
def stream_ok (cs : cs_gem) : Prop :=
  cs.cdw ≤ cs.packets.length ∧ cs.ndw < U32

/-- Handles of the entries of the table, in table order. -/
def handles (cs : cs_gem) : List Nat :=
  (List.range cs.crelocs).map (fun i => cs.relocs.getD (6 * i) 0)

/-- The records in use lie inside the storage `relocs`, whose size in words is a 32-bit
value. -/
def table_ok (cs : cs_gem) : Prop :=
  6 * cs.crelocs ≤ cs.relocs.length ∧ cs.relocs.length < U32

/-- Representation invariant of a stream: the records of the table lie inside its
storage, the written words inside theirs, and no two entries have the same handle. -/
def inv (cs : cs_gem) : Prop :=
  table_ok cs ∧ stream_ok cs ∧ (handles cs).Nodup

/-- The sizes of the table of a stream that `cs_gem_create` returned and that calls
have used without a memory fault: the storage of the records is the 1024 words (4096
bytes) allocated at creation, the capacity `nrelocs` and the reference array are
those of creation, and at most 170 records are in use. -/
def creation_sized (cs : cs_gem) : Prop :=
  cs.nrelocs = 256 ∧ cs.relocs.length = 1024 ∧ cs.relocs_bo.length = 256 ∧ cs.crelocs ≤ 170

/-- The capacity of the buffer: the written words are within the capacity `ndw`, which
is the size of the storage `packets` and a multiple of 1024 words. -/
def capacity_ok (cs : cs_gem) : Prop :=
  cs.cdw ≤ cs.ndw ∧ cs.ndw = cs.packets.length ∧ cs.ndw % 1024 = 0 ∧ cs.ndw < U32

/-- The two chunk descriptors of a stream: chunk 0 is tagged instruction stream, chunk 1
is tagged relocation stream and its length is six words per entry of the table. -/
def chunks_ok (cs : cs_gem) : Prop :=
  cs.chunks0.chunk_id = RADEON_CHUNK_ID_IB ∧ cs.chunks1.chunk_id = RADEON_CHUNK_ID_RELOCS ∧
    cs.chunks1.length_dw = 6 * cs.crelocs

/-! ### The cases of cs_gem_write_reloc -/

/-- The argument checks of `cs_gem_write_reloc` (lines 141-160) reject the call. -/
def reloc_invalid (bo : radeon_bo) (start_offset end_offset read_domain write_domain : Nat) :
    Prop :=
  (read_domain ≠ 0 ∧ write_domain ≠ 0) ∨ (read_domain = 0 ∧ write_domain = 0) ∨
    read_domain = RADEON_GEM_DOMAIN_CPU ∨ write_domain = RADEON_GEM_DOMAIN_CPU ∨
    end_offset > bo.size ∨ start_offset > end_offset

instance (bo : radeon_bo) (so eo rd wd : Nat) : Decidable (reloc_invalid bo so eo rd wd) := by
  unfold reloc_invalid
  infer_instance

/-- Entry `j` is the first entry of the table whose handle is `h`. -/
def first_match (cs : cs_gem) (h j : Nat) : Prop :=
  j < cs.crelocs ∧ cs.relocs[6 * j]? = some h ∧
    ∀ k, k < j → cs.relocs[6 * k]? ≠ some h

/-- The domains of the call conflict with the record at word offset `idx`
(lines 172-177). -/
def reloc_conflict (relocs : List Nat) (idx read_domain write_domain : Nat) : Prop :=
  (relocs.getD (idx + 3) 0 ≠ 0 ∧ read_domain = 0) ∨
    (relocs.getD (idx + 4) 0 ≠ 0 ∧ write_domain = 0)

instance (relocs : List Nat) (idx rd wd : Nat) : Decidable (reloc_conflict relocs idx rd wd) := by
  unfold reloc_conflict
  infer_instance

/-- The storage of the table after the merge of a call into the record at word offset `idx`
(lines 178-188), the fields of the record read from the storage. -/
def merged (relocs : List Nat) (idx so eo rd wd fl : Nat) : List Nat :=
  cs_gem_merge_record relocs idx (relocs.getD (idx + 1) 0) (relocs.getD (idx + 2) 0)
    (relocs.getD (idx + 3) 0) (relocs.getD (idx + 4) 0) (relocs.getD (idx + 5) 0)
    so eo rd wd fl

/-! ### Parts of the state that a call leaves unchanged -/

/-- The fields of a stream that `cs_gem_write_dword` never writes: the table, its
counters, the reference array and the records of the calls to the collaborators. -/
def table_view (cs : cs_gem) :
    List Nat × Nat × Nat × List (Option radeon_bo) × List bo_call × Nat ×
      drm_radeon_cs_chunk × List drm_radeon_cs2 × Nat :=
  (cs.relocs, cs.crelocs, cs.nrelocs, cs.relocs_bo, cs.bo_calls, cs.relocs_total_size,
    cs.chunks1, cs.submitted, cs.section_)

/-- The fields of a stream that the representation invariant reads. -/
def inv_view (cs : cs_gem) : List Nat × Nat × List Nat × Nat × Nat :=
  (cs.relocs, cs.crelocs, cs.packets, cs.cdw, cs.ndw)

/-- The fields the release loops of `cs_gem_emit` and `cs_gem_erase` leave unchanged,
and the size of the reference array. -/
def unref_view (cs : cs_gem) :
    List Nat × Nat × Nat × Nat × Nat × Nat × drm_radeon_cs_chunk × drm_radeon_cs_chunk ×
      Nat × List Nat × List drm_radeon_cs2 × Nat :=
  (cs.packets, cs.cdw, cs.ndw, cs.section_, cs.crelocs, cs.relocs_total_size, cs.chunks0,
    cs.chunks1, cs.nrelocs, cs.relocs, cs.submitted, cs.relocs_bo.length)

/-! ### Sequences of calls that all return 0 -/

/-- One call of `cs_gem_write_reloc`: the outcomes of its allocation requests and its
arguments. -/
structure reloc_request where
  a : reloc_allocs
  bo : radeon_bo
  start_offset : Nat
  end_offset : Nat
  read_domain : Nat
  write_domain : Nat
  flags : Nat
deriving DecidableEq, Repr

/-- The stream after the calls of the list, made in order, when each of them returned
0; `none` when one of them did not. -/
def cs_gem_register_all (cs : cs_gem) : List reloc_request → Option cs_gem
  | [] => some cs
  | q :: qs =>
    match cs_gem_write_reloc q.a cs q.bo q.start_offset q.end_offset q.read_domain
        q.write_domain q.flags with
    | none => none
    | some (cs1, r) => if r = 0 then cs_gem_register_all cs1 qs else none

/-- The buffers of a list that bring a new handle: those whose handle is not in `seen`
and not the handle of an earlier buffer of the list. -/
def first_buffers (seen : List Nat) : List radeon_bo → List radeon_bo
  | [] => []
  | bo :: bos =>
    if bo.handle ∈ seen then first_buffers seen bos
    else bo :: first_buffers (seen ++ [bo.handle]) bos

/-- The stream after the words of the list were appended in order, each with the
outcome of its allocation request, when each call returned 0; `none` when one of them
did not. -/
def cs_gem_write_dwords (cs : cs_gem) : List (Bool × Nat) → Option cs_gem
  | [] => some cs
  | w :: ws =>
    match cs_gem_write_dword w.1 cs w.2 with
    | none => none
    | some (cs1, r) => if r = 0 then cs_gem_write_dwords cs1 ws else none

/-! ### Concrete streams and calls -/

/-- Every allocation request of a `cs_gem_write_reloc` call succeeds. -/
def all_ok : reloc_allocs :=
  { relocs_bo_ok := true, relocs_ok := true, dword0_ok := true, dword1_ok := true }

/-- The stream `cs_gem_create` returns when its four allocations succeed. -/
def fresh_stream : cs_gem :=
  { packets := List.replicate 16384 0
    cdw := 0
    ndw := 16384
    section_ := 0
    crelocs := 0
    relocs_total_size := 0
    chunks0 := { chunk_id := RADEON_CHUNK_ID_IB, length_dw := 0 }
    chunks1 := { chunk_id := RADEON_CHUNK_ID_RELOCS, length_dw := 0 }
    nrelocs := 256
    relocs := List.replicate 1024 0
    relocs_bo := List.replicate 256 none
    bo_calls := []
    submitted := [] }

/-- Registration number `i` of a run that registers buffers with the distinct handles
`1, 2, 3, ...`, each of 4096 bytes, for reading in domain `0x2`. -/
def registration (i : Nat) : cs_call :=
  cs_call.write_reloc all_ok { addr := 1000 + i, handle := i + 1, size := 4096 } 0 16 2 0 0

/-- The first `n` registrations of that run. -/
def registrations (n : Nat) : List cs_call := (List.range n).map registration

/-- A stream with the storage `cs_gem_create` allocated, whose table holds one entry
for each handle of `hs`, in order, and whose words are two per entry. -/
def filled (hs : List Nat) (cs : cs_gem) : Prop :=
  cs.crelocs = hs.length ∧ cs.nrelocs = 256 ∧ cs.relocs.length = 1024 ∧
    cs.relocs_bo.length = 256 ∧ handles cs = hs ∧ cs.cdw = 2 * hs.length ∧ cs.ndw = 16384 ∧
    cs.packets.length = 16384

/-- A buffer of 4096 bytes with handle 1. -/
def buffer_one : radeon_bo := { addr := 1000, handle := 1, size := 4096 }

/-- The fresh stream after `buffer_one` has been registered for reading in domain
`0x2` with the range 0..16. -/
def stream_one : cs_gem :=
  cs_gem_stored
    (cs_gem_stored (cs_gem_set_entry fresh_stream buffer_one 0 0 16 2 0 0) RELOC_MARKER) 0

/-- The stream `stream_one` after `buffer_one` has been registered a second time, for
reading in domain `0x4` with the range 8..32 and flags 5. -/
def stream_one_merged : cs_gem :=
  cs_gem_stored
    (cs_gem_stored { stream_one with relocs := merged stream_one.relocs 0 8 32 4 0 5 }
      RELOC_MARKER) 0

/-- A buffer of 8192 bytes with handle 2. -/
def buffer_two : radeon_bo := { addr := 1001, handle := 2, size := 8192 }

/-- The stream `stream_one` after `buffer_two` has been registered for writing in
domain `0x4` with the range 16..32 and flags 5. -/
def stream_two : cs_gem :=
  cs_gem_stored
    (cs_gem_stored (cs_gem_set_entry stream_one buffer_two 6 16 32 0 4 5) RELOC_MARKER) 6

/-- The stream `stream_two` after `buffer_two` has been registered a second time, for
writing in domain `0x2` with the range 0..64 and flags 3. -/
def stream_two_merged : cs_gem :=
  cs_gem_stored
    (cs_gem_stored { stream_two with relocs := merged stream_two.relocs 6 0 64 0 2 3 }
      RELOC_MARKER) 6

/-- Registration of `buffer_one`, then of `buffer_one` again. -/
def small_requests : List reloc_request :=
  [{ a := all_ok, bo := buffer_one, start_offset := 0, end_offset := 16, read_domain := 2,
     write_domain := 0, flags := 0 },
   { a := all_ok, bo := buffer_one, start_offset := 8, end_offset := 32, read_domain := 4,
     write_domain := 0, flags := 5 }]

/-- A buffer of 2 GiB with handle 1. -/
def big_one : radeon_bo := { addr := 2000, handle := 1, size := 2147483648 }

/-- A buffer of 2 GiB with handle 2. -/
def big_two : radeon_bo := { addr := 2001, handle := 2, size := 2147483648 }

/-- Registration of `big_one`, then of `big_two`, for reading in domain `0x2`. -/
def big_requests : List reloc_request :=
  [{ a := all_ok, bo := big_one, start_offset := 0, end_offset := 16, read_domain := 2,
     write_domain := 0, flags := 0 },
   { a := all_ok, bo := big_two, start_offset := 0, end_offset := 16, read_domain := 2,
     write_domain := 0, flags := 0 }]

/-- A stream whose 16384 words of storage are all written. -/
def full_stream : cs_gem :=
  { fresh_stream with
    cdw := 16384
    chunks0 := { chunk_id := RADEON_CHUNK_ID_IB, length_dw := 16384 } }

/-- The stream `full_stream` after the word 9 has been appended: the storage has
grown to 17408 words. -/
def grown_stream : cs_gem :=
  cs_gem_stored
    { full_stream with packets := realloc 0 full_stream.packets 17408, ndw := 17408 } 9

/-- The fresh stream after `n` words 0 have been appended to it. -/
def zeros_stream (n : Nat) : cs_gem :=
  { fresh_stream with
    cdw := n
    chunks0 := { chunk_id := RADEON_CHUNK_ID_IB, length_dw := n } }

/-- The fresh stream after the word `0x3FFF0000` has been appended: a type-0 header
with the count `0x3FFF`, which announces 16384 words. -/
def header_stream : cs_gem := cs_gem_stored fresh_stream 0x3FFF0000

/-- The stream after the words 0 and 7 were appended to the fresh stream, the stream
was erased, and the word 0 was appended: it holds one word, a type-0 header with the
count 0, and the word 7 of the erased batch is still in the storage behind it. -/
def stale_stream : cs_gem :=
  cs_gem_stored
    { cs_gem_stored (cs_gem_stored fresh_stream 0) 7 with
      relocs_total_size := 0
      cdw := 0
      section_ := 0
      crelocs := 0
      chunks0 := { chunk_id := RADEON_CHUNK_ID_IB, length_dw := 0 }
      chunks1 := { chunk_id := RADEON_CHUNK_ID_RELOCS, length_dw := 0 } } 0

/-- The stream `stream_one` after words 0 have been appended to it, up to `n` words in
all. -/
def padded_stream (n : Nat) : cs_gem :=
  { stream_one with
    cdw := n
    chunks0 := { chunk_id := RADEON_CHUNK_ID_IB, length_dw := n } }

/-- A `cs_gem_write_reloc` call whose two appends both find no memory. -/
def no_memory : reloc_allocs :=
  { relocs_bo_ok := true, relocs_ok := true, dword0_ok := false, dword1_ok := false }

/-- A `cs_gem_write_reloc` call whose first append finds no memory and whose second
append finds some. -/
def memory_late : reloc_allocs :=
  { relocs_bo_ok := true, relocs_ok := true, dword0_ok := false, dword1_ok := true }

/-! # Properties -/

/-! ## Lists, storage and result codes -/

/-- A successful `realloc` keeps the first `k` cells when both blocks have them. -/
theorem take_realloc {α : Type} (fill : α) (l : List α) (n k : Nat)
    (h1 : k ≤ l.length) (h2 : k ≤ n) : (realloc fill l n).take k = l.take k := by
  unfold realloc
  rw [List.take_append_of_le_length (by simp; omega), List.take_take]
  congr 1
  omega

/-- A successful `realloc` keeps the cell at index `i` when both blocks have it. -/
theorem getElem?_realloc {α : Type} (fill : α) (l : List α) (n i : Nat)
    (h1 : i < l.length) (h2 : i < n) : (realloc fill l n)[i]? = l[i]? := by
  unfold realloc
  rw [List.getElem?_append_left (by simp; omega), List.getElem?_take]
  simp [h2]

/-- After a successful `realloc` to `n` cells the block has `n` cells. -/
theorem length_realloc {α : Type} (fill : α) (l : List α) (n : Nat) :
    (realloc fill l n).length = n := by
  unfold realloc
  simp
  omega

/-- Writing cell `k` of a block turns its first `k` cells into its first `k + 1`. -/
theorem take_set_same {α : Type} (l : List α) (k : Nat) (w : α) (h : k < l.length) :
    (l.set k w).take (k + 1) = l.take k ++ [w] := by
  apply List.ext_getElem?
  intro i
  rw [List.getElem?_take, List.getElem?_set]
  by_cases h1 : i < k
  · rw [List.getElem?_append_left (by simp; omega), List.getElem?_take]
    simp [h1, show i < k + 1 by omega, show ¬ k = i by omega]
  · by_cases h2 : i = k
    · subst h2
      rw [List.getElem?_append_right (by simp)]
      simp [h, Nat.min_eq_left (Nat.le_of_lt h)]
    · rw [List.getElem?_append_right (by simp; omega)]
      simp [show ¬ i < k + 1 by omega]
      omega

/-- Lists that agree below index `n` have the same first `n` elements. -/
theorem take_congr {α : Type} (l1 l2 : List α) (n : Nat)
    (h : ∀ p, p < n → l1[p]? = l2[p]?) : l1.take n = l2.take n := by
  apply List.ext_getElem?
  intro p
  rw [List.getElem?_take, List.getElem?_take]
  split
  · rename_i hp; exact h p hp
  · rfl

theorem getD_of_getElem? (l : List Nat) (i v : Nat) (h : l[i]? = some v) : l.getD i 0 = v := by
  rw [List.getD_eq_getElem?_getD, h]
  rfl

/-- Absorption: the bits of `f & e` are bits of `e`. -/
theorem or_and_self (e f : Nat) : e ||| (f &&& e) = e := by
  apply Nat.eq_of_testBit_eq
  intro i
  rw [Nat.testBit_or, Nat.testBit_and]
  cases e.testBit i <;> cases f.testBit i <;> rfl

/-- Clearing the ten low bits of a 32-bit value rounds it down to a multiple of 1024. -/
theorem and_mask (x : Nat) (hx : x < U32) : x &&& 0xFFFFFC00 = x / 1024 * 1024 := by
  have hM : (0xFFFFFC00 : Nat) = 2 ^ 10 * (2 ^ 22 - 1) := by decide
  have h1024 : (1024 : Nat) = 2 ^ 10 := by decide
  apply Nat.eq_of_testBit_eq
  intro i
  rw [Nat.testBit_and, hM, Nat.mul_comm (x / 1024), h1024, Nat.testBit_mul_pow_two,
    Nat.testBit_mul_pow_two, Nat.testBit_two_pow_sub_one, ← Nat.shiftRight_eq_div_pow,
    Nat.testBit_shiftRight]
  by_cases h10 : 10 ≤ i
  · by_cases h32 : i < 32
    · simp [h10, show i - 10 < 22 by omega, show 10 + (i - 10) = i by omega]
    · have hxi : x.testBit i = false := by
        apply Nat.testBit_lt_two_pow
        calc x < U32 := hx
          _ = 2 ^ 32 := by decide
          _ ≤ 2 ^ i := Nat.pow_le_pow_right (by decide) (by omega)
      simp [h10, hxi, show 10 + (i - 10) = i by omega]
  · simp [h10]

/-- The capacity the growth of `cs_gem_write_dword` computes (line 114). -/
theorem grown_capacity (cdw : Nat) :
    ((cdw + 1 + 0x3FF) % U32) &&& 0xFFFFFC00 = (cdw + 1 + 0x3FF) % U32 / 1024 * 1024 :=
  and_mask _ (Nat.mod_lt _ (by unfold U32; omega))

/-- The three result codes are distinct. -/
theorem errno_ne : (0 : Int) ≠ -EINVAL ∧ -ENOMEM ≠ -EINVAL ∧ (0 : Int) ≠ -ENOMEM := by
  unfold EINVAL ENOMEM
  decide

/-! ## Appending words -/

theorem store_dword_view (cs cs1 : cs_gem) (w : Nat) (r : Int)
    (h : cs_gem_store_dword cs w = some (cs1, r)) : table_view cs1 = table_view cs := by
  unfold cs_gem_store_dword at h
  split at h
  · simp only [Option.some.injEq, Prod.mk.injEq] at h
    obtain ⟨h1, _⟩ := h
    subst h1
    rfl
  · simp at h

/-- The function `cs_gem_write_dword` writes none of the fields of `table_view`. -/
theorem write_dword_view (ok : Bool) (cs cs1 : cs_gem) (w : Nat) (r : Int)
    (h : cs_gem_write_dword ok cs w = some (cs1, r)) : table_view cs1 = table_view cs := by
  unfold cs_gem_write_dword at h
  split at h
  · split at h
    · simp only [Option.some.injEq, Prod.mk.injEq] at h
      rw [← h.1]
    · exact (store_dword_view _ _ _ _ h).trans rfl
  · exact store_dword_view _ _ _ _ h

/-- The in-stream reference writes none of the fields of `table_view`. -/
theorem write_packet_view (a : reloc_allocs) (cs cs2 : cs_gem) (idx : Nat)
    (h : cs_gem_write_packet a cs idx = some cs2) : table_view cs2 = table_view cs := by
  unfold cs_gem_write_packet at h
  split at h
  · simp at h
  · rename_i cs1 r1 h1
    split at h
    · simp at h
    · rename_i cs3 r2 h2
      simp only [Option.some.injEq] at h
      subst h
      exact (write_dword_view _ _ _ _ _ h2).trans (write_dword_view _ _ _ _ _ h1)

theorem relocs_of_view (cs cs1 : cs_gem) (h : table_view cs1 = table_view cs) :
    cs1.relocs = cs.relocs ∧ cs1.crelocs = cs.crelocs ∧ cs1.relocs_bo = cs.relocs_bo ∧
      cs1.bo_calls = cs.bo_calls ∧ cs1.relocs_total_size = cs.relocs_total_size ∧
      cs1.chunks1 = cs.chunks1 ∧ cs1.nrelocs = cs.nrelocs := by
  unfold table_view at h
  simp only [Prod.mk.injEq] at h
  obtain ⟨h1, h2, h3, h4, h5, h6, h7, _⟩ := h
  exact ⟨h1, h2, h4, h5, h6, h7, h3⟩

theorem store_dword_spec (cs cs1 : cs_gem) (w : Nat) (r : Int)
    (h : cs_gem_store_dword cs w = some (cs1, r)) (hk : cs.cdw + 1 < U32) :
    r = 0 ∧ cs.cdw < cs.packets.length ∧ cs1.cdw = cs.cdw + 1 ∧
      cs1.packets = cs.packets.set cs.cdw w ∧ cs1.ndw = cs.ndw ∧
      table_view cs1 = table_view cs := by
  unfold cs_gem_store_dword at h
  split at h
  · rename_i hlt
    simp only [Option.some.injEq, Prod.mk.injEq] at h
    obtain ⟨h1, h2⟩ := h
    subst h1
    refine ⟨h2.symm, hlt, ?_, rfl, rfl, rfl⟩
    exact Nat.mod_eq_of_lt hk
  · simp at h

theorem store_dword_bound (cs cs1 : cs_gem) (w : Nat) (r : Int)
    (h : cs_gem_store_dword cs w = some (cs1, r)) : cs.cdw < cs.packets.length := by
  unfold cs_gem_store_dword at h
  split at h
  · assumption
  · simp at h

/-- The two outcomes of a `cs_gem_write_dword` call that returns: `-ENOMEM` with the
stream unchanged (the storage was full and `realloc` failed), or 0 with the word
appended. -/
theorem write_dword_spec (ok : Bool) (cs cs1 : cs_gem) (w : Nat) (r : Int)
    (hs : stream_ok cs) (h : cs_gem_write_dword ok cs w = some (cs1, r)) :
    (r = -ENOMEM ∧ cs1 = cs ∧ ok = false ∧ cs.ndw ≤ cs.cdw) ∨
    (r = 0 ∧ (ok = true ∨ cs.cdw < cs.ndw) ∧ cs1.cdw = cs.cdw + 1 ∧
      words cs1 = words cs ++ [w] ∧ stream_ok cs1 ∧ table_view cs1 = table_view cs) := by
  obtain ⟨hs1, hs2⟩ := hs
  unfold cs_gem_write_dword at h
  split at h
  · rename_i hge
    split at h
    · rename_i hok
      simp only [Option.some.injEq, Prod.mk.injEq] at h
      exact Or.inl ⟨h.2.symm, h.1.symm, hok, hge⟩
    · rename_i hok
      right
      have hlen := length_realloc 0 cs.packets
        (4 * ((cs.cdw + 1 + 0x3FF) % U32 &&& 0xFFFFFC00) % U32 / 4)
      dsimp only at h
      have hlt := store_dword_bound _ _ _ _ h
      simp only at hlt
      have hU : U32 = 4294967296 := rfl
      have hb : cs.cdw + 1 < U32 := by
        rw [hlen] at hlt
        have := Nat.mod_lt (4 * ((cs.cdw + 1 + 0x3FF) % U32 &&& 0xFFFFFC00)) (show U32 > 0 by rw [hU]; omega)
        omega
      obtain ⟨e1, e2, e3, e4, e5, e6⟩ := store_dword_spec _ _ _ _ h hb
      simp only at e2 e3 e4 e5 e6
      refine ⟨e1, Or.inl (by simpa using hok), e3, ?_, ⟨?_, ?_⟩, e6.trans rfl⟩
      · unfold words
        rw [e3, e4, take_set_same _ _ _ e2, take_realloc _ _ _ _ hs1 (by omega)]
      · rw [e3, e4]; simp; omega
      · rw [e5]
        exact lt_of_le_of_lt Nat.and_le_left (Nat.mod_lt _ (by rw [hU]; omega))
  · rename_i hlt
    right
    have hb : cs.cdw + 1 < U32 := by omega
    obtain ⟨e1, e2, e3, e4, e5, e6⟩ := store_dword_spec _ _ _ _ h hb
    refine ⟨e1, Or.inr (by omega), e3, ?_, ⟨?_, ?_⟩, e6⟩
    · unfold words
      rw [e3, e4, take_set_same _ _ _ e2]
    · rw [e3, e4]; simp; omega
    · rw [e5]; exact hs2

/-- The in-stream reference on a well-formed stream: the table is untouched, and when
neither append runs out of memory the marker and `idx` are appended. -/
theorem write_packet_spec (a : reloc_allocs) (cs cs2 : cs_gem) (idx : Nat)
    (hs : stream_ok cs) (h : cs_gem_write_packet a cs idx = some cs2) :
    table_view cs2 = table_view cs ∧ stream_ok cs2 ∧
      (a.dword0_ok = true → a.dword1_ok = true →
        cs2.cdw = cs.cdw + 2 ∧ words cs2 = words cs ++ [RELOC_MARKER, idx]) := by
  unfold cs_gem_write_packet at h
  split at h
  · simp at h
  · rename_i cs1 r1 h1
    split at h
    · simp at h
    · rename_i cs3 r2 h2
      simp only [Option.some.injEq] at h
      subst h
      rcases write_dword_spec _ _ _ _ _ hs h1 with ⟨_, e1, f1, _⟩ | ⟨_, _, c1, w1, s1, v1⟩
      · subst e1
        rcases write_dword_spec _ _ _ _ _ hs h2 with ⟨_, e2, f2, _⟩ | ⟨_, _, c2, w2, s2, v2⟩
        · subst e2
          refine ⟨rfl, hs, ?_⟩
          intro g1; rw [g1] at f1; simp at f1
        · refine ⟨v2, s2, ?_⟩
          intro g1; rw [g1] at f1; simp at f1
      · rcases write_dword_spec _ _ _ _ _ s1 h2 with ⟨_, e2, f2, _⟩ | ⟨_, _, c2, w2, s2, v2⟩
        · subst e2
          refine ⟨v1, s1, ?_⟩
          intro _ g2; rw [g2] at f2; simp at f2
        · refine ⟨v2.trans v1, s2, ?_⟩
          intro _ _
          refine ⟨by omega, ?_⟩
          rw [w2, w1]; simp

/-- With room in the storage `cs_gem_write_dword` makes no allocation request and
returns 0. -/
theorem write_dword_room (ok : Bool) (cs : cs_gem) (w : Nat) (h1 : cs.cdw < cs.ndw)
    (h2 : cs.cdw < cs.packets.length) :
    cs_gem_write_dword ok cs w = some (cs_gem_stored cs w, 0) := by
  unfold cs_gem_write_dword
  rw [if_neg (by omega)]
  unfold cs_gem_store_dword
  rw [if_pos h2]

/-- With room for two words the in-stream reference is appended whatever the allocator
would answer. -/
theorem write_packet_room (a : reloc_allocs) (cs : cs_gem) (idx : Nat)
    (h1 : cs.cdw + 2 ≤ cs.ndw) (h2 : cs.ndw ≤ cs.packets.length) (h3 : cs.ndw < U32) :
    cs_gem_write_packet a cs idx =
      some (cs_gem_stored (cs_gem_stored cs RELOC_MARKER) idx) := by
  unfold cs_gem_write_packet
  rw [write_dword_room _ _ _ (by omega) (by omega)]
  dsimp only
  have hc : (cs_gem_stored cs RELOC_MARKER).cdw = cs.cdw + 1 := by
    show (cs.cdw + 1) % U32 = _
    exact Nat.mod_eq_of_lt (by omega)
  have hl : (cs_gem_stored cs RELOC_MARKER).packets.length = cs.packets.length := by
    show (cs.packets.set _ _).length = _
    simp
  have hn : (cs_gem_stored cs RELOC_MARKER).ndw = cs.ndw := rfl
  rw [write_dword_room _ _ _ (by rw [hc, hn]; omega) (by rw [hc, hl]; omega)]

theorem length_words (cs : cs_gem) (h : stream_ok cs) : (words cs).length = cs.cdw := by
  unfold words
  rw [List.length_take]
  exact Nat.min_eq_left h.1

theorem write_dword_ok (ok : Bool) (cs cs1 : cs_gem) (w : Nat) (hs : stream_ok cs)
    (h : cs_gem_write_dword ok cs w = some (cs1, 0)) :
    cs1.cdw = cs.cdw + 1 ∧ words cs1 = words cs ++ [w] ∧ stream_ok cs1 := by
  rcases write_dword_spec _ _ _ _ _ hs h with ⟨e, _⟩ | ⟨_, _, c, w1, s1, _⟩
  · exact absurd e errno_ne.2.2
  · exact ⟨c, w1, s1⟩

theorem write_dwords_ok (ws : List (Bool × Nat)) :
    ∀ (cs cs1 : cs_gem), stream_ok cs → cs_gem_write_dwords cs ws = some cs1 →
      cs1.cdw = cs.cdw + ws.length ∧ words cs1 = words cs ++ ws.map Prod.snd := by
  induction ws with
  | nil =>
    intro cs cs1 _ h
    simp only [cs_gem_write_dwords, Option.some.injEq] at h
    subst h
    simp
  | cons w ws ih =>
    intro cs cs1 hs h
    simp only [cs_gem_write_dwords] at h
    split at h
    · simp at h
    · rename_i cs2 r hc
      split at h
      · rename_i hr
        subst hr
        obtain ⟨c, w1, s1⟩ := write_dword_ok _ _ _ _ hs hc
        obtain ⟨c2, w2⟩ := ih cs2 cs1 s1 h
        refine ⟨by rw [c2, c, List.length_cons]; omega, ?_⟩
        rw [w2, w1, List.map_cons, List.append_assoc]
        rfl
      · simp at h

/-! ## The table and its handles -/

theorem mem_handles (cs : cs_gem) (h : Nat) :
    h ∈ handles cs ↔ ∃ i, i < cs.crelocs ∧ cs.relocs.getD (6 * i) 0 = h := by
  unfold handles
  simp

theorem handles_congr (cs cs1 : cs_gem) (hc : cs1.crelocs = cs.crelocs)
    (hr : ∀ i, i < cs.crelocs → cs1.relocs[6 * i]? = cs.relocs[6 * i]?) :
    handles cs1 = handles cs := by
  unfold handles
  rw [hc]
  apply List.map_congr_left
  intro i hi
  simp only [List.mem_range] at hi
  simp only [List.getD_eq_getElem?_getD, hr i hi]

theorem length_handles (cs : cs_gem) : (handles cs).length = cs.crelocs := by
  unfold handles
  simp

theorem getElem?_handles (cs : cs_gem) (k : Nat) (hk : k < cs.crelocs) :
    (handles cs)[k]? = some (cs.relocs.getD (6 * k) 0) := by
  unfold handles
  rw [List.getElem?_map, List.getElem?_range hk]
  rfl

theorem handle_of_getElem? (cs : cs_gem) (k h : Nat) (hr : cs.relocs[6 * k]? = some h) :
    cs.relocs.getD (6 * k) 0 = h := by
  rw [List.getD_eq_getElem?_getD, hr]
  rfl

theorem handles_of_view (cs cs1 : cs_gem) (h : table_view cs1 = table_view cs) :
    handles cs1 = handles cs := by
  unfold table_view at h
  simp only [Prod.mk.injEq] at h
  obtain ⟨h1, h2, _⟩ := h
  unfold handles
  rw [h1, h2]

theorem handles_of_inv_view (cs cs1 : cs_gem) (h : inv_view cs1 = inv_view cs) :
    handles cs1 = handles cs := by
  unfold inv_view at h
  simp only [Prod.mk.injEq] at h
  obtain ⟨h1, h2, _⟩ := h
  unfold handles
  rw [h1, h2]

theorem table_ok_of_view (cs cs1 : cs_gem) (h : table_view cs1 = table_view cs)
    (ht : table_ok cs) : table_ok cs1 := by
  unfold table_view at h
  simp only [Prod.mk.injEq] at h
  obtain ⟨h1, h2, _⟩ := h
  unfold table_ok at *
  rw [h1, h2]
  exact ht

theorem length_merge_record (relocs : List Nat) (idx a b c d e so eo rd wd fl : Nat) :
    (cs_gem_merge_record relocs idx a b c d e so eo rd wd fl).length = relocs.length := by
  unfold cs_gem_merge_record
  dsimp only
  split <;> split <;> simp

theorem getElem?_merge_record_other (relocs : List Nat) (idx a b c d e so eo rd wd fl p : Nat)
    (hp : p < idx + 1 ∨ idx + 5 < p) :
    (cs_gem_merge_record relocs idx a b c d e so eo rd wd fl)[p]? = relocs[p]? := by
  unfold cs_gem_merge_record
  dsimp only
  split <;> split <;>
    simp only [List.getElem?_set] <;>
    simp [show ¬ idx + 1 = p by omega, show ¬ idx + 2 = p by omega, show ¬ idx + 3 = p by omega,
      show ¬ idx + 4 = p by omega, show ¬ idx + 5 = p by omega]

theorem getElem?_merge_record (relocs : List Nat) (idx a b c d e so eo rd wd fl : Nat)
    (hb : idx + 5 < relocs.length)
    (h1 : relocs[idx + 1]? = some a) (h2 : relocs[idx + 2]? = some b) :
    let m := cs_gem_merge_record relocs idx a b c d e so eo rd wd fl
    m[idx + 1]? = some (min a so) ∧ m[idx + 2]? = some (max b eo) ∧
      m[idx + 3]? = some (c ||| rd) ∧ m[idx + 4]? = some (d ||| wd) ∧
      m[idx + 5]? = some (e ||| (fl &&& e)) := by
  intro m
  have l1 : idx + 1 < relocs.length := by omega
  have l2 : idx + 2 < relocs.length := by omega
  have l3 : idx + 3 < relocs.length := by omega
  have l4 : idx + 4 < relocs.length := by omega
  refine ⟨?_, ?_, ?_, ?_, ?_⟩
  · show (cs_gem_merge_record relocs idx a b c d e so eo rd wd fl)[idx + 1]? = _
    unfold cs_gem_merge_record
    dsimp only
    split <;> split <;> simp only [List.getElem?_set, List.length_set] <;>
      simp [l1, h1] <;> omega
  · show (cs_gem_merge_record relocs idx a b c d e so eo rd wd fl)[idx + 2]? = _
    unfold cs_gem_merge_record
    dsimp only
    split <;> split <;> simp only [List.getElem?_set, List.length_set] <;>
      simp [l2, h2] <;> omega
  · show (cs_gem_merge_record relocs idx a b c d e so eo rd wd fl)[idx + 3]? = _
    unfold cs_gem_merge_record
    dsimp only
    split <;> split <;> simp only [List.getElem?_set, List.length_set] <;>
      simp [l3]
  · show (cs_gem_merge_record relocs idx a b c d e so eo rd wd fl)[idx + 4]? = _
    unfold cs_gem_merge_record
    dsimp only
    split <;> split <;> simp only [List.getElem?_set, List.length_set] <;>
      simp [l4]
  · show (cs_gem_merge_record relocs idx a b c d e so eo rd wd fl)[idx + 5]? = _
    unfold cs_gem_merge_record
    dsimp only
    split <;> split <;> simp only [List.getElem?_set, List.length_set] <;>
      simp [hb]

theorem length_merged (relocs : List Nat) (idx so eo rd wd fl : Nat) :
    (merged relocs idx so eo rd wd fl).length = relocs.length :=
  length_merge_record _ _ _ _ _ _ _ _ _ _ _ _

theorem handles_merged (cs : cs_gem) (j so eo rd wd fl : Nat) :
    handles { cs with relocs := merged cs.relocs (6 * j) so eo rd wd fl } = handles cs := by
  refine handles_congr cs _ rfl ?_
  intro i _
  show (merged cs.relocs (6 * j) so eo rd wd fl)[6 * i]? = _
  unfold merged
  apply getElem?_merge_record_other
  omega

theorem length_set_entry (cs : cs_gem) (bo : radeon_bo) (idx so eo rd wd fl : Nat) :
    (cs_gem_set_entry cs bo idx so eo rd wd fl).relocs.length = cs.relocs.length := by
  unfold cs_gem_set_entry
  simp

theorem getElem?_set_entry_other (cs : cs_gem) (bo : radeon_bo) (idx so eo rd wd fl p : Nat)
    (hp : p < idx ∨ idx + 5 < p) :
    (cs_gem_set_entry cs bo idx so eo rd wd fl).relocs[p]? = cs.relocs[p]? := by
  unfold cs_gem_set_entry
  simp only [List.getElem?_set]
  simp [show ¬ idx = p by omega, show ¬ idx + 1 = p by omega, show ¬ idx + 2 = p by omega,
    show ¬ idx + 3 = p by omega, show ¬ idx + 4 = p by omega, show ¬ idx + 5 = p by omega]

theorem getElem?_set_entry (cs : cs_gem) (bo : radeon_bo) (idx so eo rd wd fl : Nat)
    (hb : idx + 5 < cs.relocs.length) :
    let r := (cs_gem_set_entry cs bo idx so eo rd wd fl).relocs
    r[idx]? = some bo.handle ∧ r[idx + 1]? = some so ∧ r[idx + 2]? = some eo ∧
      r[idx + 3]? = some rd ∧ r[idx + 4]? = some wd ∧ r[idx + 5]? = some fl := by
  intro r
  have l0 : idx < cs.relocs.length := by omega
  have l1 : idx + 1 < cs.relocs.length := by omega
  have l2 : idx + 2 < cs.relocs.length := by omega
  have l3 : idx + 3 < cs.relocs.length := by omega
  have l4 : idx + 4 < cs.relocs.length := by omega
  refine ⟨?_, ?_, ?_, ?_, ?_, ?_⟩ <;>
    · show (cs_gem_set_entry cs bo idx so eo rd wd fl).relocs[_]? = _
      unfold cs_gem_set_entry
      simp only [List.getElem?_set, List.length_set]
      simp [l0, l1, l2, l3, l4, hb]

theorem handles_set_entry (cs : cs_gem) (bo : radeon_bo) (so eo rd wd fl : Nat)
    (hb : 6 * cs.crelocs + 5 < cs.relocs.length) (hu : cs.relocs.length < U32) :
    handles (cs_gem_set_entry cs bo (6 * cs.crelocs) so eo rd wd fl) =
      handles cs ++ [bo.handle] := by
  have hc : (cs_gem_set_entry cs bo (6 * cs.crelocs) so eo rd wd fl).crelocs
      = cs.crelocs + 1 := by
    show (cs.crelocs + 1) % U32 = _
    exact Nat.mod_eq_of_lt (by omega)
  unfold handles
  rw [hc, List.range_succ, List.map_append]
  congr 1
  · apply List.map_congr_left
    intro i hi
    simp only [List.mem_range] at hi
    simp only [List.getD_eq_getElem?_getD]
    rw [getElem?_set_entry_other _ _ _ _ _ _ _ _ _ (by omega)]
  · simp only [List.map_cons, List.map_nil, List.getD_eq_getElem?_getD]
    rw [(getElem?_set_entry cs bo (6 * cs.crelocs) so eo rd wd fl hb).1]
    rfl

theorem first_match_unique (cs : cs_gem) (h j k : Nat) (hj : first_match cs h j)
    (hk : first_match cs h k) : j = k := by
  rcases Nat.lt_trichotomy j k with hlt | heq | hgt
  · exact absurd hj.2.1 (hk.2.2 j hlt)
  · exact heq
  · exact absurd hk.2.1 (hj.2.2 k hgt)

theorem mem_handles_of_first_match (cs : cs_gem) (h j : Nat) (hj : first_match cs h j) :
    h ∈ handles cs := by
  rw [mem_handles]
  exact ⟨j, hj.1, handle_of_getElem? _ _ _ hj.2.1⟩

theorem indexOf_first_match (cs : cs_gem) (h j : Nat) (hj : first_match cs h j) :
    (handles cs).indexOf h = j := by
  obtain ⟨j1, j2, j3⟩ := hj
  have hl := length_handles cs
  have hsplit : handles cs = (handles cs).take j ++ h :: (handles cs).drop (j + 1) := by
    have hget : (handles cs)[j]? = some h := by
      rw [getElem?_handles cs j j1, handle_of_getElem? cs j h j2]
    have hlt : j < (handles cs).length := by omega
    rw [List.getElem?_eq_getElem hlt] at hget
    simp only [Option.some.injEq] at hget
    rw [← hget]
    exact (List.take_append_drop j (handles cs)).symm.trans
      (by rw [List.drop_eq_getElem_cons hlt])
  have hnot : h ∉ (handles cs).take j := by
    intro hm
    rw [List.mem_take_iff_getElem] at hm
    obtain ⟨k, hk, he⟩ := hm
    have hk1 : k < j := by omega
    have hk2 : k < cs.crelocs := by omega
    have hg := getElem?_handles cs k hk2
    rw [List.getElem?_eq_getElem (by omega)] at hg
    simp only [Option.some.injEq] at hg
    apply j3 k hk1
    have hb : 6 * j < cs.relocs.length := by
      rcases List.getElem?_eq_some.mp j2 with ⟨hb, _⟩
      exact hb
    rw [he, List.getD_eq_getElem?_getD, List.getElem?_eq_getElem (by omega)] at hg
    rw [List.getElem?_eq_getElem (by omega)]
    simp only [Option.getD_some] at hg
    rw [← hg]
  rw [hsplit, List.indexOf_append_of_not_mem hnot, List.indexOf_cons_self]
  simp
  omega

theorem first_match_of_nodup (cs : cs_gem) (h i : Nat) (hn : (handles cs).Nodup)
    (hi : i < cs.crelocs) (hr : cs.relocs[6 * i]? = some h) : first_match cs h i := by
  refine ⟨hi, hr, ?_⟩
  intro k hk hk2
  have hl := length_handles cs
  have e1 := getElem?_handles cs k (by omega)
  have e2 := getElem?_handles cs i hi
  rw [handle_of_getElem? cs k h hk2] at e1
  rw [handle_of_getElem? cs i h hr] at e2
  rw [List.getElem?_eq_getElem (by omega)] at e1 e2
  simp only [Option.some.injEq] at e1 e2
  have := (List.Nodup.getElem_inj_iff hn).mp (e1.trans e2.symm)
  omega

/-- The search loop on records that lie inside the storage: it ends without a match, no
record of its range having the handle, or at the first record that has it. -/
theorem find_spec (relocs : List Nat) (h : Nat) (hlen : relocs.length < U32) :
    ∀ n i, 6 * (i + n) ≤ relocs.length →
      (cs_gem_find relocs h n i = some none ∧
          ∀ j, i ≤ j → j < i + n → relocs[6 * j]? ≠ some h) ∨
      (∃ j, i ≤ j ∧ j < i + n ∧ cs_gem_find relocs h n i = some (some (6 * j)) ∧
          relocs[6 * j]? = some h ∧ ∀ k, i ≤ k → k < j → relocs[6 * k]? ≠ some h) := by
  intro n
  induction n with
  | zero =>
    intro i _
    left
    refine ⟨rfl, ?_⟩
    intro j h1 h2
    omega
  | succ n ih =>
    intro i hb
    have hi : (i * 6) % U32 = 6 * i := by
      have : i * 6 < U32 := by omega
      rw [Nat.mod_eq_of_lt this]; omega
    have hin : 6 * i < relocs.length := by omega
    unfold cs_gem_find
    rw [hi, List.getElem?_eq_getElem hin]
    simp only
    by_cases he : relocs[6 * i] = h
    · right
      refine ⟨i, le_refl _, by omega, ?_, ?_, ?_⟩
      · simp [he]
      · rw [List.getElem?_eq_getElem hin, he]
      · intro k h1 h2; omega
    · rw [if_neg he]
      rcases ih (i + 1) (by omega) with ⟨h1, h2⟩ | ⟨j, h1, h2, h3, h4, h5⟩
      · left
        refine ⟨h1, ?_⟩
        intro j hj1 hj2
        by_cases hji : j = i
        · subst hji
          rw [List.getElem?_eq_getElem hin]
          simpa using he
        · exact h2 j (by omega) (by omega)
      · right
        refine ⟨j, by omega, by omega, h3, h4, ?_⟩
        intro k hk1 hk2
        by_cases hki : k = i
        · subst hki
          rw [List.getElem?_eq_getElem hin]
          simpa using he
        · exact h5 k (by omega) hk2

theorem find_of_not_mem (cs : cs_gem) (h : Nat) (ht : table_ok cs) (hn : h ∉ handles cs) :
    cs_gem_find cs.relocs h cs.crelocs 0 = some none := by
  obtain ⟨t1, t2⟩ := ht
  rcases find_spec cs.relocs h t2 cs.crelocs 0 (by omega) with ⟨f1, _⟩ | ⟨j, _, j2, _, f2, _⟩
  · exact f1
  · exfalso
    apply hn
    rw [mem_handles]
    refine ⟨j, by omega, ?_⟩
    rw [List.getD_eq_getElem?_getD, f2]
    rfl

theorem find_of_first_match (cs : cs_gem) (h j : Nat) (ht : table_ok cs)
    (hj : first_match cs h j) :
    cs_gem_find cs.relocs h cs.crelocs 0 = some (some (6 * j)) := by
  obtain ⟨t1, t2⟩ := ht
  obtain ⟨j1, j2, j3⟩ := hj
  rcases find_spec cs.relocs h t2 cs.crelocs 0 (by omega) with ⟨_, f2⟩ | ⟨k, _, k2, f1, f2, f3⟩
  · exact absurd j2 (f2 j (Nat.zero_le _) (by omega))
  · have : k = j := by
      rcases Nat.lt_trichotomy k j with hlt | heq | hgt
      · exact absurd f2 (j3 k hlt)
      · exact heq
      · exact absurd j2 (f3 j (Nat.zero_le _) hgt)
    rw [← this]
    exact f1

theorem first_match_of_mem (cs : cs_gem) (h : Nat) (ht : table_ok cs) (hm : h ∈ handles cs) :
    ∃ j, first_match cs h j := by
  obtain ⟨t1, t2⟩ := ht
  rcases find_spec cs.relocs h t2 cs.crelocs 0 (by omega) with ⟨_, f2⟩ | ⟨k, _, k2, f1, f2, f3⟩
  · exfalso
    rw [mem_handles] at hm
    obtain ⟨i, hi, he⟩ := hm
    apply f2 i (Nat.zero_le _) (by omega)
    rw [List.getD_eq_getElem?_getD, List.getElem?_eq_getElem (by omega)] at he
    rw [List.getElem?_eq_getElem (by omega)]
    simpa using he
  · exact ⟨k, by omega, f2, fun i hi => f3 i (Nat.zero_le _) hi⟩

/-! ## The paths of cs_gem_write_reloc -/

/-- Arguments that fail a check: the call returns `-EINVAL` and the stream is unchanged.
-/
theorem write_reloc_invalid (a : reloc_allocs) (cs : cs_gem) (bo : radeon_bo)
    (so eo rd wd fl : Nat) (h : reloc_invalid bo so eo rd wd) :
    cs_gem_write_reloc a cs bo so eo rd wd fl = some (cs, -EINVAL) := by
  unfold reloc_invalid at h
  unfold cs_gem_write_reloc
  split
  · rfl
  · split
    · rfl
    · split
      · rfl
      · split
        · rfl
        · split
          · rfl
          · exfalso
            rename_i h1 h2 h3 h4 h5
            rcases h with h | h | h | h | h | h
            · exact h1 (Or.inl h)
            · exact h1 (Or.inr h)
            · exact h2 h
            · exact h3 h
            · exact h4 h
            · exact h5 h

/-- Arguments that pass the checks: the call continues at line 161. -/
theorem write_reloc_valid (a : reloc_allocs) (cs : cs_gem) (bo : radeon_bo)
    (so eo rd wd fl : Nat) (h : ¬ reloc_invalid bo so eo rd wd) :
    cs_gem_write_reloc a cs bo so eo rd wd fl = cs_gem_reference a cs bo so eo rd wd fl := by
  unfold reloc_invalid at h
  unfold cs_gem_write_reloc
  rw [if_neg, if_neg, if_neg, if_neg, if_neg]
  all_goals tauto

/-- The merge path on a record that lies inside the storage. -/
theorem merge_spec (a : reloc_allocs) (cs : cs_gem) (idx so eo rd wd fl : Nat)
    (hb : idx + 5 < cs.relocs.length) :
    cs_gem_merge a cs idx so eo rd wd fl =
      if reloc_conflict cs.relocs idx rd wd then some (cs, -EINVAL)
      else
        (cs_gem_write_packet a
            { cs with relocs := merged cs.relocs idx so eo rd wd fl } idx).map
          (fun cs2 => (cs2, (0 : Int))) := by
  unfold cs_gem_merge reloc_conflict merged
  have h1 : idx + 1 < cs.relocs.length := by omega
  have h2 : idx + 2 < cs.relocs.length := by omega
  have h3 : idx + 3 < cs.relocs.length := by omega
  have h4 : idx + 4 < cs.relocs.length := by omega
  simp only [List.getD_eq_getElem?_getD, List.getElem?_eq_getElem hb,
    List.getElem?_eq_getElem h1, List.getElem?_eq_getElem h2, List.getElem?_eq_getElem h3,
    List.getElem?_eq_getElem h4, Option.getD_some]
  by_cases c1 : cs.relocs[idx + 3] ≠ 0 ∧ rd = 0
  · simp [c1]
  · by_cases c2 : cs.relocs[idx + 4] ≠ 0 ∧ wd = 0
    · rw [if_neg c1, if_pos c2, if_pos (Or.inr c2)]
    · rw [if_neg c1, if_neg c2, if_neg (by tauto)]
      split
      · rename_i hn; rw [hn]; rfl
      · rename_i cs2 hn; rw [hn]; rfl

/-- The growth of the table: its result code, and what it changes. -/
theorem grow_spec (a : reloc_allocs) (cs cs1 : cs_gem) (r : Int)
    (h : cs_gem_grow a cs = (cs1, r)) :
    (r = 0 ∨ r = -ENOMEM) ∧
    (a.relocs_bo_ok = true → a.relocs_ok = true → r = 0) ∧
    (r = -ENOMEM → cs1.relocs = cs.relocs) ∧
    ∃ nb nr nn, nr < U32 ∧
      (cs1.relocs = cs.relocs ∨ cs1.relocs = realloc 0 cs.relocs nr) ∧
      (cs1.relocs_bo = cs.relocs_bo ∨ cs1.relocs_bo = realloc none cs.relocs_bo nb) ∧
      cs1 = { cs with relocs := cs1.relocs, relocs_bo := cs1.relocs_bo, nrelocs := nn } := by
  have hU : U32 = 4294967296 := rfl
  unfold cs_gem_grow at h
  split at h
  · split at h
    · rename_i hb
      simp only [Prod.mk.injEq] at h
      obtain ⟨e1, e2⟩ := h
      subst e1
      refine ⟨Or.inr e2.symm, ?_, fun _ => rfl, 0, 0, cs.nrelocs, by rw [hU]; omega, Or.inl rfl,
        Or.inl rfl, rfl⟩
      intro g; rw [g] at hb; simp at hb
    · dsimp only at h
      split at h
      · rename_i hb
        simp only [Prod.mk.injEq] at h
        obtain ⟨e1, e2⟩ := h
        subst e1
        refine ⟨Or.inr e2.symm, ?_, fun _ => rfl, _, 0, cs.nrelocs, by rw [hU]; omega,
          Or.inl rfl, Or.inr rfl, rfl⟩
        intro _ g; rw [g] at hb; simp at hb
      · simp only [Prod.mk.injEq] at h
        obtain ⟨e1, e2⟩ := h
        subst e1
        refine ⟨Or.inl e2.symm, fun _ _ => e2.symm, ?_, _, (cs.nrelocs + 1) * 6 * 4 % U32 / 4,
          _, ?_, Or.inr rfl, Or.inr rfl, rfl⟩
        · intro g; rw [← e2] at g; exact absurd g (by unfold ENOMEM; decide)
        have := Nat.mod_lt ((cs.nrelocs + 1) * 6 * 4) (show U32 > 0 by rw [hU]; omega)
        omega
  · simp only [Prod.mk.injEq] at h
    obtain ⟨e1, e2⟩ := h
    subst e1
    refine ⟨Or.inl e2.symm, fun _ _ => e2.symm, fun _ => rfl, 0, 0, cs.nrelocs,
      by rw [hU]; omega, Or.inl rfl, Or.inl rfl, rfl⟩

/-- What the growth of the table leaves unchanged. -/
theorem grow_frame (a : reloc_allocs) (cs cs1 : cs_gem) (r : Int)
    (hg : cs_gem_grow a cs = (cs1, r)) (ht : table_ok cs) :
    cs1.relocs.length < U32 ∧
      (∀ p, p < cs.relocs.length → p < cs1.relocs.length → cs1.relocs[p]? = cs.relocs[p]?) ∧
      (∀ i, i < cs.relocs_bo.length → i < cs1.relocs_bo.length →
        cs1.relocs_bo[i]? = cs.relocs_bo[i]?) ∧
      cs1.crelocs = cs.crelocs ∧ cs1.packets = cs.packets ∧ cs1.cdw = cs.cdw ∧
      cs1.ndw = cs.ndw ∧ cs1.chunks0 = cs.chunks0 ∧ cs1.chunks1 = cs.chunks1 ∧
      cs1.bo_calls = cs.bo_calls ∧ cs1.relocs_total_size = cs.relocs_total_size ∧
      cs1.submitted = cs.submitted ∧ cs1.section_ = cs.section_ := by
  obtain ⟨_, _, _, nb, nr, nn, g1, g2, g3, g4⟩ := grow_spec _ _ _ _ hg
  obtain ⟨_, t2⟩ := ht
  refine ⟨?_, ?_, ?_, ?_⟩
  · rcases g2 with g2 | g2
    · rw [g2]; exact t2
    · rw [g2, length_realloc]; exact g1
  · intro p h1 h2
    rcases g2 with g2 | g2
    · rw [g2]
    · rw [g2, length_realloc] at h2
      rw [g2, getElem?_realloc _ _ _ _ h1 h2]
  · intro i h1 h2
    rcases g3 with g3 | g3
    · rw [g3]
    · rw [g3, length_realloc] at h2
      rw [g3, getElem?_realloc _ _ _ _ h1 h2]
  · rw [g4]
    exact ⟨rfl, rfl, rfl, rfl, rfl, rfl, rfl, rfl, rfl, rfl⟩

theorem grow_not_full (a : reloc_allocs) (cs : cs_gem) (h : cs.crelocs < cs.nrelocs) :
    cs_gem_grow a cs = (cs, 0) := by
  unfold cs_gem_grow
  rw [if_neg (by omega)]

theorem handles_grow (a : reloc_allocs) (cs cs1 : cs_gem) (r : Int)
    (hg : cs_gem_grow a cs = (cs1, r)) (ht : table_ok cs)
    (hb : 6 * cs.crelocs ≤ cs1.relocs.length) : handles cs1 = handles cs := by
  obtain ⟨_, f2, _, f4, _⟩ := grow_frame _ _ _ _ hg ht
  refine handles_congr cs cs1 f4 ?_
  intro i hi
  exact f2 _ (by unfold table_ok at ht; omega) (by omega)

/-- The new-entry path returns only when the record and the reference slot lie inside
their storage. -/
theorem append_spec (a : reloc_allocs) (cs cs2 : cs_gem) (bo : radeon_bo)
    (so eo rd wd fl : Nat) (r : Int) (hk : 6 * cs.crelocs < U32)
    (h : cs_gem_append a cs bo so eo rd wd fl = some (cs2, r)) :
    r = 0 ∧ cs.crelocs < cs.relocs_bo.length ∧ 6 * cs.crelocs + 5 < cs.relocs.length ∧
      cs_gem_write_packet a (cs_gem_set_entry cs bo (6 * cs.crelocs) so eo rd wd fl)
        (6 * cs.crelocs) = some cs2 := by
  have hi : (cs.crelocs * 6) % U32 = 6 * cs.crelocs := by
    rw [Nat.mod_eq_of_lt (by omega)]; omega
  unfold cs_gem_append at h
  rw [hi] at h
  dsimp only at h
  split at h
  · rename_i hb
    split at h
    · simp at h
    · rename_i cs3 h3
      simp only [Option.some.injEq, Prod.mk.injEq] at h
      obtain ⟨e1, e2⟩ := h
      subst e1
      exact ⟨e2.symm, hb.1, hb.2, h3⟩
  · simp at h

/-- The five ways a call of `cs_gem_write_reloc` returns: rejected arguments, a conflict
with the entry of the handle, a merge, a failed growth of the table, a new entry. -/
theorem write_reloc_cases (a : reloc_allocs) (cs cs2 : cs_gem) (bo : radeon_bo)
    (so eo rd wd fl : Nat) (r : Int) (ht : table_ok cs)
    (h : cs_gem_write_reloc a cs bo so eo rd wd fl = some (cs2, r)) :
    (reloc_invalid bo so eo rd wd ∧ cs2 = cs ∧ r = -EINVAL) ∨
    (¬ reloc_invalid bo so eo rd wd ∧ ∃ j, first_match cs bo.handle j ∧
        reloc_conflict cs.relocs (6 * j) rd wd ∧ cs2 = cs ∧ r = -EINVAL) ∨
    (¬ reloc_invalid bo so eo rd wd ∧ ∃ j, first_match cs bo.handle j ∧
        ¬ reloc_conflict cs.relocs (6 * j) rd wd ∧ r = 0 ∧
        cs_gem_write_packet a { cs with relocs := merged cs.relocs (6 * j) so eo rd wd fl }
          (6 * j) = some cs2) ∨
    (¬ reloc_invalid bo so eo rd wd ∧ bo.handle ∉ handles cs ∧ r = -ENOMEM ∧
        cs_gem_grow a cs = (cs2, r)) ∨
    (¬ reloc_invalid bo so eo rd wd ∧ bo.handle ∉ handles cs ∧ r = 0 ∧
        ∃ cs1, cs_gem_grow a cs = (cs1, 0) ∧ cs1.crelocs = cs.crelocs ∧
          cs.crelocs < cs1.relocs_bo.length ∧ 6 * cs.crelocs + 5 < cs1.relocs.length ∧
          cs_gem_write_packet a (cs_gem_set_entry cs1 bo (6 * cs.crelocs) so eo rd wd fl)
            (6 * cs.crelocs) = some cs2) := by
  obtain ⟨t1, t2⟩ := ht
  by_cases hv : reloc_invalid bo so eo rd wd
  · rw [write_reloc_invalid _ _ _ _ _ _ _ _ hv] at h
    simp only [Option.some.injEq, Prod.mk.injEq] at h
    exact Or.inl ⟨hv, h.1.symm, h.2.symm⟩
  · right
    rw [write_reloc_valid _ _ _ _ _ _ _ _ hv] at h
    unfold cs_gem_reference at h
    rcases find_spec cs.relocs bo.handle t2 cs.crelocs 0 (by omega) with
      ⟨f1, f2⟩ | ⟨j, _, j2, f1, f2, f3⟩
    · -- no entry has the handle
      right; right
      have hnot : bo.handle ∉ handles cs := by
        rw [mem_handles]
        rintro ⟨i, hi, he⟩
        apply f2 i (Nat.zero_le _) (by omega)
        rw [List.getD_eq_getElem?_getD, List.getElem?_eq_getElem (by omega)] at he
        rw [List.getElem?_eq_getElem (by omega)]
        simpa using he
      rw [f1] at h
      dsimp only at h
      obtain ⟨cs1, r1, hg⟩ : ∃ cs1 r1, cs_gem_grow a cs = (cs1, r1) := ⟨_, _, rfl⟩
      rw [hg] at h
      dsimp only at h
      obtain ⟨g1, _, _, nb, nr, nn, _, _, _, g5⟩ := grow_spec _ _ _ _ hg
      have hc : cs1.crelocs = cs.crelocs := by rw [g5]
      rcases g1 with g1 | g1
      · subst g1
        rw [if_pos rfl] at h
        right
        obtain ⟨e1, e2, e3, e4⟩ := append_spec _ _ _ _ _ _ _ _ _ _ (by rw [hc]; omega) h
        rw [hc] at e2 e3 e4
        exact ⟨hv, hnot, e1, cs1, hg, hc, e2, e3, e4⟩
      · subst g1
        rw [if_neg (by unfold ENOMEM; decide)] at h
        simp only [Option.some.injEq, Prod.mk.injEq] at h
        left
        obtain ⟨h1, h2⟩ := h
        subst h1; subst h2
        exact ⟨hv, hnot, rfl, hg⟩
    · -- entry j is the first with the handle
      have hfm : first_match cs bo.handle j :=
        ⟨by omega, f2, fun k hk => f3 k (Nat.zero_le _) hk⟩
      rw [f1] at h
      dsimp only at h
      rw [merge_spec _ _ _ _ _ _ _ _ (by omega)] at h
      by_cases hc : reloc_conflict cs.relocs (6 * j) rd wd
      · left
        rw [if_pos hc] at h
        simp only [Option.some.injEq, Prod.mk.injEq] at h
        exact ⟨hv, j, hfm, hc, h.1.symm, h.2.symm⟩
      · right; left
        rw [if_neg hc] at h
        rcases Option.eq_none_or_eq_some (cs_gem_write_packet a
            { cs with relocs := merged cs.relocs (6 * j) so eo rd wd fl } (6 * j)) with
          hp | ⟨cs3, hp⟩
        · rw [hp] at h; simp at h
        · rw [hp] at h
          simp only [Option.map_some', Option.some.injEq, Prod.mk.injEq] at h
          obtain ⟨h1, h2⟩ := h
          subst h1
          exact ⟨hv, j, hfm, hc, h2.symm, hp⟩

/-- The result codes of `cs_gem_write_reloc`. -/
theorem write_reloc_codes (a : reloc_allocs) (cs cs1 : cs_gem) (bo : radeon_bo)
    (so eo rd wd fl : Nat) (r : Int) (ht : table_ok cs)
    (h : cs_gem_write_reloc a cs bo so eo rd wd fl = some (cs1, r)) :
    r = 0 ∨ r = -EINVAL ∨ r = -ENOMEM := by
  rcases write_reloc_cases _ _ _ _ _ _ _ _ _ _ ht h with
    ⟨_, _, e⟩ | ⟨_, j, _, _, _, e⟩ | ⟨_, j, _, _, e, _⟩ | ⟨_, _, e, hg⟩ | ⟨_, _, e, _⟩
  · exact Or.inr (Or.inl e)
  · exact Or.inr (Or.inl e)
  · exact Or.inl e
  · exact Or.inr (Or.inr e)
  · exact Or.inl e

/-- When the growth of the table does not run out of memory, a call that returns returns
`-EINVAL` or 0. -/
theorem write_reloc_result (a : reloc_allocs) (cs cs1 : cs_gem) (bo : radeon_bo)
    (so eo rd wd fl : Nat) (r : Int) (ht : table_ok cs) (h1 : a.relocs_bo_ok = true)
    (h2 : a.relocs_ok = true)
    (h : cs_gem_write_reloc a cs bo so eo rd wd fl = some (cs1, r)) :
    r = -EINVAL ∨ r = 0 := by
  rcases write_reloc_cases _ _ _ _ _ _ _ _ _ _ ht h with
    ⟨_, _, e⟩ | ⟨_, j, _, _, _, e⟩ | ⟨_, j, _, _, e, _⟩ | ⟨_, _, e, hg⟩ | ⟨_, _, e, _⟩
  · exact Or.inl e
  · exact Or.inl e
  · exact Or.inr e
  · obtain ⟨_, g, _⟩ := grow_spec _ _ _ _ hg
    have := g h1 h2
    rw [e] at this
    exact absurd this.symm errno_ne.2.2
  · exact Or.inr e

/-- A conflict with the entry of the handle: the call returns `-EINVAL` and the stream
is unchanged. -/
theorem write_reloc_conflict_eq (a : reloc_allocs) (cs : cs_gem) (bo : radeon_bo)
    (so eo rd wd fl j : Nat) (hv : ¬ reloc_invalid bo so eo rd wd) (ht : table_ok cs)
    (hj : first_match cs bo.handle j) (hc : reloc_conflict cs.relocs (6 * j) rd wd) :
    cs_gem_write_reloc a cs bo so eo rd wd fl = some (cs, -EINVAL) := by
  rw [write_reloc_valid _ _ _ _ _ _ _ _ hv]
  unfold cs_gem_reference
  rw [find_of_first_match _ _ _ ht hj]
  dsimp only
  rw [merge_spec _ _ _ _ _ _ _ _ (by unfold table_ok at ht; unfold first_match at hj; omega),
    if_pos hc]

/-- The stream after a merge, when the buffer has room. -/
theorem write_reloc_merge_eq (a : reloc_allocs) (cs : cs_gem) (bo : radeon_bo)
    (so eo rd wd fl j : Nat) (hv : ¬ reloc_invalid bo so eo rd wd) (ht : table_ok cs)
    (hj : first_match cs bo.handle j) (hc : ¬ reloc_conflict cs.relocs (6 * j) rd wd)
    (h1 : cs.cdw + 2 ≤ cs.ndw) (h2 : cs.ndw ≤ cs.packets.length) (h3 : cs.ndw < U32) :
    cs_gem_write_reloc a cs bo so eo rd wd fl =
      some (cs_gem_stored (cs_gem_stored
        { cs with relocs := merged cs.relocs (6 * j) so eo rd wd fl } RELOC_MARKER) (6 * j),
        0) := by
  rw [write_reloc_valid _ _ _ _ _ _ _ _ hv]
  unfold cs_gem_reference
  rw [find_of_first_match _ _ _ ht hj]
  dsimp only
  rw [merge_spec _ _ _ _ _ _ _ _ (by unfold table_ok at ht; unfold first_match at hj; omega),
    if_neg hc,
    write_packet_room a { cs with relocs := merged cs.relocs (6 * j) so eo rd wd fl } (6 * j)
      h1 h2 h3]
  rfl

/-- The stream after a new entry, when table and buffer have room. -/
theorem write_reloc_new_eq (a : reloc_allocs) (cs : cs_gem) (bo : radeon_bo)
    (so eo rd wd fl : Nat) (hv : ¬ reloc_invalid bo so eo rd wd) (ht : table_ok cs)
    (hn : bo.handle ∉ handles cs) (hg : cs.crelocs < cs.nrelocs)
    (hb : cs.crelocs < cs.relocs_bo.length) (hr : 6 * cs.crelocs + 5 < cs.relocs.length)
    (h1 : cs.cdw + 2 ≤ cs.ndw) (h2 : cs.ndw ≤ cs.packets.length) (h3 : cs.ndw < U32) :
    cs_gem_write_reloc a cs bo so eo rd wd fl =
      some (cs_gem_stored (cs_gem_stored
        (cs_gem_set_entry cs bo (6 * cs.crelocs) so eo rd wd fl) RELOC_MARKER)
        (6 * cs.crelocs), 0) := by
  rw [write_reloc_valid _ _ _ _ _ _ _ _ hv]
  unfold cs_gem_reference
  rw [find_of_not_mem _ _ ht hn]
  dsimp only
  have hgrow : cs_gem_grow a cs = (cs, 0) := by
    unfold cs_gem_grow
    rw [if_neg (by omega)]
  rw [hgrow]
  dsimp only
  rw [if_pos rfl]
  unfold cs_gem_append
  have hi : (cs.crelocs * 6) % U32 = 6 * cs.crelocs := by
    rw [Nat.mod_eq_of_lt (by unfold table_ok at ht; omega)]; omega
  rw [hi]
  dsimp only
  rw [if_pos ⟨hb, hr⟩,
    write_packet_room a (cs_gem_set_entry cs bo (6 * cs.crelocs) so eo rd wd fl)
      (6 * cs.crelocs) h1 h2 h3]

/-- A new entry whose record does not fit in the storage of a table that is not full:
the call has no result, it writes outside the storage. -/
theorem write_reloc_new_fault (a : reloc_allocs) (cs : cs_gem) (bo : radeon_bo)
    (so eo rd wd fl : Nat) (hv : ¬ reloc_invalid bo so eo rd wd) (ht : table_ok cs)
    (hn : bo.handle ∉ handles cs) (hg : cs.crelocs < cs.nrelocs)
    (hr : cs.relocs.length ≤ 6 * cs.crelocs + 5) :
    cs_gem_write_reloc a cs bo so eo rd wd fl = none := by
  rw [write_reloc_valid _ _ _ _ _ _ _ _ hv]
  unfold cs_gem_reference
  rw [find_of_not_mem _ _ ht hn]
  dsimp only
  have hgrow : cs_gem_grow a cs = (cs, 0) := by
    unfold cs_gem_grow
    rw [if_neg (by omega)]
  rw [hgrow]
  dsimp only
  rw [if_pos rfl]
  unfold cs_gem_append
  have hi : (cs.crelocs * 6) % U32 = 6 * cs.crelocs := by
    rw [Nat.mod_eq_of_lt (by unfold table_ok at ht; omega)]; omega
  rw [hi]
  dsimp only
  rw [if_neg (by omega)]

/-! ## The representation invariant -/

theorem inv_of_view (cs cs1 : cs_gem) (h : inv_view cs1 = inv_view cs) (hi : inv cs) :
    inv cs1 := by
  unfold inv_view at h
  simp only [Prod.mk.injEq] at h
  obtain ⟨h1, h2, h3, h4, h5⟩ := h
  unfold inv table_ok stream_ok handles at *
  rw [h1, h2, h3, h4, h5]
  exact hi

theorem inv_create (a : create_allocs) (ndw : Nat) (cs : cs_gem)
    (h : cs_gem_create a ndw = some cs) : inv cs := by
  unfold cs_gem_create at h
  split at h
  · simp at h
  · split at h
    · simp at h
    · split at h
      · simp at h
      · split at h
        · simp at h
        · split at h
          · simp at h
          · simp only [Option.some.injEq] at h
            subst h
            refine ⟨⟨?_, ?_⟩, ⟨?_, ?_⟩, ?_⟩
            · exact Nat.zero_le _
            · simp only [List.length_replicate]; unfold U32; omega
            · exact Nat.zero_le _
            · show 64 * 1024 / 4 < U32
              unfold U32; omega
            · exact List.nodup_nil

theorem inv_write_dword (ok : Bool) (cs cs1 : cs_gem) (w : Nat) (r : Int) (hi : inv cs)
    (h : cs_gem_write_dword ok cs w = some (cs1, r)) : inv cs1 := by
  obtain ⟨i1, i2, i3⟩ := hi
  rcases write_dword_spec _ _ _ _ _ i2 h with ⟨_, e, _⟩ | ⟨_, _, _, _, s1, v1⟩
  · rw [e]; exact ⟨i1, i2, i3⟩
  · exact ⟨table_ok_of_view _ _ v1 i1, s1, by rw [handles_of_view _ _ v1]; exact i3⟩

theorem inv_write_reloc (a : reloc_allocs) (cs cs2 : cs_gem) (bo : radeon_bo)
    (so eo rd wd fl : Nat) (r : Int) (hi : inv cs)
    (h : cs_gem_write_reloc a cs bo so eo rd wd fl = some (cs2, r)) : inv cs2 := by
  obtain ⟨i1, i2, i3⟩ := hi
  have i1c := i1
  obtain ⟨t1, t2⟩ := i1c
  rcases write_reloc_cases _ _ _ _ _ _ _ _ _ _ i1 h with
    ⟨_, e, _⟩ | ⟨_, j, _, _, e, _⟩ | ⟨_, j, hj, _, _, hp⟩ | ⟨_, hn, _, hg⟩ |
    ⟨_, hn, _, cs1, hg, hc, b1, b2, hp⟩
  · rw [e]; exact ⟨i1, i2, i3⟩
  · rw [e]; exact ⟨i1, i2, i3⟩
  · have hs : stream_ok { cs with relocs := merged cs.relocs (6 * j) so eo rd wd fl } := i2
    obtain ⟨v, s2, _⟩ := write_packet_spec _ _ _ _ hs hp
    refine ⟨table_ok_of_view _ _ v ?_, s2, ?_⟩
    · exact ⟨by show _ ≤ (merged _ _ _ _ _ _ _).length; rw [length_merged]; exact t1,
        by show (merged _ _ _ _ _ _ _).length < _; rw [length_merged]; exact t2⟩
    · rw [handles_of_view _ _ v, handles_merged]; exact i3
  · obtain ⟨f1, f2, f3, f4, f5, f6, f7, _⟩ := grow_frame _ _ _ _ hg i1
    obtain ⟨_, _, g0, _⟩ := grow_spec _ _ _ _ hg
    have hr := g0 (by assumption)
    refine ⟨⟨by rw [hr, f4]; exact t1, f1⟩, ⟨by rw [f5, f6]; exact i2.1, by rw [f7]; exact i2.2⟩, ?_⟩
    rw [handles_congr cs cs2 f4 (fun i _ => by rw [hr])]
    exact i3
  · obtain ⟨f1, f2, f3, f4, f5, f6, f7, _⟩ := grow_frame _ _ _ _ hg i1
    have hs : stream_ok (cs_gem_set_entry cs1 bo (6 * cs.crelocs) so eo rd wd fl) := by
      show cs1.cdw ≤ cs1.packets.length ∧ cs1.ndw < U32
      rw [f5, f6, f7]; exact i2
    obtain ⟨v, s2, _⟩ := write_packet_spec _ _ _ _ hs hp
    have hh : handles (cs_gem_set_entry cs1 bo (6 * cs.crelocs) so eo rd wd fl)
        = handles cs ++ [bo.handle] := by
      rw [← f4, handles_set_entry _ _ _ _ _ _ _ (by rw [f4]; exact b2) f1,
        handles_grow _ _ _ _ hg i1 (by omega)]
    refine ⟨table_ok_of_view _ _ v ?_, s2, ?_⟩
    · refine ⟨?_, ?_⟩
      · rw [length_set_entry]
        show 6 * ((cs1.crelocs + 1) % U32) ≤ _
        rw [f4, Nat.mod_eq_of_lt (by omega)]
        omega
      · rw [length_set_entry]; exact f1
    · rw [handles_of_view _ _ v, hh]
      exact List.Nodup.append i3 (List.nodup_singleton _) (by simpa using hn)

theorem emit_unref_view : ∀ (n i : Nat) (cs cs1 : cs_gem),
    cs_gem_emit_unref n i cs = some cs1 → inv_view cs1 = inv_view cs := by
  intro n
  induction n with
  | zero =>
    intro i cs cs1 h
    unfold cs_gem_emit_unref at h
    simp only [Option.some.injEq] at h
    rw [h]
  | succ n ih =>
    intro i cs cs1 h
    unfold cs_gem_emit_unref at h
    split at h
    · simp at h
    · exact (ih _ _ _ h).trans rfl

theorem erase_unref_view : ∀ (n i : Nat) (cs cs1 : cs_gem),
    cs_gem_erase_unref n i cs = some cs1 → inv_view cs1 = inv_view cs := by
  intro n
  induction n with
  | zero =>
    intro i cs cs1 h
    unfold cs_gem_erase_unref at h
    simp only [Option.some.injEq] at h
    rw [h]
  | succ n ih =>
    intro i cs cs1 h
    unfold cs_gem_erase_unref at h
    split at h
    · simp at h
    · exact ih _ _ _ h
    · exact (ih _ _ _ h).trans rfl

theorem inv_emit (r0 : Int) (cs cs1 : cs_gem) (r : Int) (hi : inv cs)
    (h : cs_gem_emit r0 cs = some (cs1, r)) : inv cs1 := by
  unfold cs_gem_emit at h
  dsimp only at h
  split at h
  · simp at h
  · rename_i cs2 h2
    simp only [Option.some.injEq, Prod.mk.injEq] at h
    rw [← h.1]
    exact inv_of_view _ _ ((emit_unref_view _ _ _ _ h2).trans rfl) hi

theorem inv_erase (cs cs1 : cs_gem) (r : Int) (hi : inv cs)
    (h : cs_gem_erase cs = some (cs1, r)) : inv cs1 := by
  unfold cs_gem_erase at h
  split at h
  · simp at h
  · rename_i cs2 h2
    simp only [Option.some.injEq, Prod.mk.injEq] at h
    rw [← h.1]
    have hv := erase_unref_view _ _ _ _ h2
    unfold inv_view at hv
    simp only [Prod.mk.injEq] at hv
    obtain ⟨v1, v2, v3, v4, v5⟩ := hv
    obtain ⟨⟨_, t2⟩, ⟨_, s2⟩, _⟩ := hi
    refine ⟨⟨Nat.zero_le _, ?_⟩, ⟨Nat.zero_le _, ?_⟩, ?_⟩
    · show cs2.relocs.length < U32
      rw [v1]; exact t2
    · show cs2.ndw < U32
      rw [v5]; exact s2
    · show (handles _).Nodup
      unfold handles
      exact List.nodup_nil

/-- Calls preserve the representation invariant. -/
theorem inv_call (cs cs1 : cs_gem) (c : cs_call) (r : Int) (hi : inv cs)
    (h : cs_gem_call cs c = some (cs1, r)) : inv cs1 := by
  cases c with
  | write_dword ok w => exact inv_write_dword _ _ _ _ _ hi h
  | write_reloc a bo so eo rd wd fl => exact inv_write_reloc _ _ _ _ _ _ _ _ _ _ hi h
  | emit r0 => exact inv_emit _ _ _ _ hi h
  | erase => exact inv_erase _ _ _ hi h

/-- Every reachable stream satisfies the representation invariant. -/
theorem inv_reachable (cs : cs_gem) (h : reachable cs) : inv cs := by
  induction h with
  | create a ndw cs hc => exact inv_create _ _ _ hc
  | call cs c cs1 r _ hc ih => exact inv_call _ _ _ _ ih hc

theorem run_append (cs : cs_gem) (l1 l2 : List cs_call) :
    cs_gem_run cs (l1 ++ l2) = (cs_gem_run cs l1).bind (fun cs1 => cs_gem_run cs1 l2) := by
  induction l1 generalizing cs with
  | nil => rfl
  | cons c l ih =>
    simp only [List.cons_append, cs_gem_run]
    cases cs_gem_call cs c with
    | none => rfl
    | some p => exact ih p.1

theorem reachable_run (cs cs1 : cs_gem) (l : List cs_call) (h : reachable cs)
    (hr : cs_gem_run cs l = some cs1) : reachable cs1 := by
  induction l generalizing cs with
  | nil =>
    simp only [cs_gem_run, Option.some.injEq] at hr
    rw [← hr]; exact h
  | cons c l ih =>
    simp only [cs_gem_run] at hr
    split at hr
    · simp at hr
    · rename_i cs2 r hc
      exact ih cs2 (reachable.call _ _ _ _ h hc) hr

theorem emit_unref_frame : ∀ (n i : Nat) (cs cs1 : cs_gem),
    cs_gem_emit_unref n i cs = some cs1 → unref_view cs1 = unref_view cs := by
  intro n
  induction n with
  | zero =>
    intro i cs cs1 h
    unfold cs_gem_emit_unref at h
    simp only [Option.some.injEq] at h
    rw [h]
  | succ n ih =>
    intro i cs cs1 h
    unfold cs_gem_emit_unref at h
    split at h
    · simp at h
    · refine (ih _ _ _ h).trans ?_
      unfold unref_view
      simp only [List.length_set]

theorem erase_unref_frame : ∀ (n i : Nat) (cs cs1 : cs_gem),
    cs_gem_erase_unref n i cs = some cs1 → unref_view cs1 = unref_view cs := by
  intro n
  induction n with
  | zero =>
    intro i cs cs1 h
    unfold cs_gem_erase_unref at h
    simp only [Option.some.injEq] at h
    rw [h]
  | succ n ih =>
    intro i cs cs1 h
    unfold cs_gem_erase_unref at h
    split at h
    · simp at h
    · exact ih _ _ _ h
    · refine (ih _ _ _ h).trans ?_
      unfold unref_view
      simp only [List.length_set]

theorem creation_sized_of_unref_view (cs cs1 : cs_gem) (h : unref_view cs1 = unref_view cs)
    (hc : creation_sized cs) : creation_sized cs1 := by
  unfold unref_view at h
  simp only [Prod.mk.injEq] at h
  obtain ⟨_, _, _, _, h5, _, _, _, h9, h10, _, h12⟩ := h
  unfold creation_sized at *
  rw [h5, h9, h10, h12]
  exact hc

theorem creation_sized_call (cs cs1 : cs_gem) (c : cs_call) (r : Int) (hi : inv cs)
    (hc : creation_sized cs) (h : cs_gem_call cs c = some (cs1, r)) :
    creation_sized cs1 := by
  obtain ⟨c1, c2, c3, c4⟩ := hc
  cases c with
  | write_dword ok w =>
    obtain ⟨v1, v2, v3, _, _, _, v7⟩ := relocs_of_view _ _ (write_dword_view _ _ _ _ _ h)
    exact ⟨by rw [v7]; exact c1, by rw [v1]; exact c2, by rw [v3]; exact c3,
      by rw [v2]; exact c4⟩
  | write_reloc a bo so eo rd wd fl =>
    have h0 : cs_gem_write_reloc a cs bo so eo rd wd fl = some (cs1, r) := h
    have hg0 := grow_not_full a cs (by omega)
    rcases write_reloc_cases _ _ _ _ _ _ _ _ _ _ hi.1 h0 with
      ⟨_, e, _⟩ | ⟨_, j, _, _, e, _⟩ | ⟨_, j, _, _, _, hp⟩ | ⟨_, _, e, hg⟩ |
      ⟨_, _, _, cs0, hg, _, b1, b2, hp⟩
    · rw [e]; exact ⟨c1, c2, c3, c4⟩
    · rw [e]; exact ⟨c1, c2, c3, c4⟩
    · obtain ⟨v1, v2, v3, _, _, _, v7⟩ := relocs_of_view _ _ (write_packet_view _ _ _ _ hp)
      refine ⟨by rw [v7]; exact c1, ?_, by rw [v3]; exact c3, by rw [v2]; exact c4⟩
      rw [v1]
      show (merged _ _ _ _ _ _ _).length = _
      rw [length_merged]; exact c2
    · rw [hg0] at hg
      simp only [Prod.mk.injEq] at hg
      rw [e] at hg
      exact absurd hg.2 errno_ne.2.2
    · rw [hg0] at hg
      simp only [Prod.mk.injEq, and_true] at hg
      subst hg
      obtain ⟨v1, v2, v3, _, _, _, v7⟩ := relocs_of_view _ _ (write_packet_view _ _ _ _ hp)
      have hU : U32 = 4294967296 := rfl
      refine ⟨by rw [v7]; exact c1, ?_, ?_, ?_⟩
      · rw [v1, length_set_entry]; exact c2
      · rw [v3]
        show (cs.relocs_bo.set _ _).length = _
        rw [List.length_set]; exact c3
      · rw [v2]
        show (cs.crelocs + 1) % U32 ≤ 170
        rw [Nat.mod_eq_of_lt (by omega)]
        omega
  | emit r0 =>
    have h0 : cs_gem_emit r0 cs = some (cs1, r) := h
    unfold cs_gem_emit at h0
    dsimp only at h0
    split at h0
    · simp at h0
    · rename_i cs2 h2
      simp only [Option.some.injEq, Prod.mk.injEq] at h0
      rw [← h0.1]
      have hv := emit_unref_frame _ _ _ _ h2
      unfold unref_view at hv
      simp only [Prod.mk.injEq] at hv
      obtain ⟨_, _, _, _, h5, _, _, _, h9, h10, _, h12⟩ := hv
      exact ⟨by rw [h9]; exact c1, by rw [h10]; exact c2, by rw [h12]; exact c3,
        by rw [h5]; exact c4⟩
  | erase =>
    have h0 : cs_gem_erase cs = some (cs1, r) := h
    unfold cs_gem_erase at h0
    split at h0
    · simp at h0
    · rename_i cs2 h2
      simp only [Option.some.injEq, Prod.mk.injEq] at h0
      rw [← h0.1]
      have hv := erase_unref_frame _ _ _ _ h2
      unfold unref_view at hv
      simp only [Prod.mk.injEq] at hv
      obtain ⟨_, _, _, _, h5, _, _, _, h9, h10, _, h12⟩ := hv
      exact ⟨by show cs2.nrelocs = 256; rw [h9]; exact c1,
        by show cs2.relocs.length = 1024; rw [h10]; exact c2,
        by show cs2.relocs_bo.length = 256; rw [h12]; exact c3, Nat.zero_le _⟩

/-- Every reachable stream satisfies the representation invariant and has the table
sizes of creation: in a run without memory fault the table is never grown and never
holds more than 170 entries. -/
theorem reachable_creation_sized (cs : cs_gem) (h : reachable cs) :
    inv cs ∧ creation_sized cs := by
  induction h with
  | create a ndw cs hc =>
    refine ⟨inv_create _ _ _ hc, ?_⟩
    unfold cs_gem_create at hc
    split at hc
    · simp at hc
    · split at hc
      · simp at hc
      · split at hc
        · simp at hc
        · split at hc
          · simp at hc
          · split at hc
            · simp at hc
            · simp only [Option.some.injEq] at hc
              subst hc
              exact ⟨rfl, List.length_replicate _ _, List.length_replicate _ _,
                Nat.zero_le _⟩
  | call cs c cs1 r _ hc ih => exact ⟨inv_call _ _ _ _ ih.1 hc, creation_sized_call _ _ _ _ ih.1 ih.2 hc⟩

theorem capacity_ok_write_dword (ok : Bool) (cs cs1 : cs_gem) (w : Nat) (r : Int)
    (hc : capacity_ok cs) (h : cs_gem_write_dword ok cs w = some (cs1, r)) :
    capacity_ok cs1 := by
  obtain ⟨c1, c2, c3, c4⟩ := hc
  have hU : U32 = 4294967296 := rfl
  unfold cs_gem_write_dword at h
  split at h
  · split at h
    · simp only [Option.some.injEq, Prod.mk.injEq] at h
      rw [← h.1]
      exact ⟨c1, c2, c3, c4⟩
    · dsimp only at h
      rw [grown_capacity] at h
      have hlt := store_dword_bound _ _ _ _ h
      simp only at hlt
      rw [length_realloc, hU] at hlt
      obtain ⟨_, _, e3, e4, e5, _⟩ := store_dword_spec _ _ _ _ h (by
        show cs.cdw + 1 < U32
        rw [hU]; omega)
      simp only at e3 e4 e5
      refine ⟨?_, ?_, ?_, ?_⟩
      · rw [e3, e5, hU]; omega
      · rw [e5, e4, List.length_set, length_realloc, hU]; omega
      · rw [e5]; omega
      · rw [e5, hU]; omega
  · obtain ⟨_, _, e3, e4, e5, _⟩ := store_dword_spec _ _ _ _ h (by omega)
    refine ⟨by omega, ?_, by rw [e5]; exact c3, by rw [e5]; exact c4⟩
    rw [e5, e4, List.length_set]
    exact c2

theorem capacity_ok_write_packet (a : reloc_allocs) (cs cs2 : cs_gem) (idx : Nat)
    (hc : capacity_ok cs) (h : cs_gem_write_packet a cs idx = some cs2) :
    capacity_ok cs2 := by
  unfold cs_gem_write_packet at h
  split at h
  · simp at h
  · rename_i cs1 r1 h1
    split at h
    · simp at h
    · rename_i cs3 r2 h2
      simp only [Option.some.injEq] at h
      rw [← h]
      exact capacity_ok_write_dword _ _ _ _ _ (capacity_ok_write_dword _ _ _ _ _ hc h1) h2

theorem capacity_ok_call (cs cs1 : cs_gem) (c : cs_call) (r : Int) (hi : inv cs)
    (hc : capacity_ok cs) (h : cs_gem_call cs c = some (cs1, r)) : capacity_ok cs1 := by
  cases c with
  | write_dword ok w => exact capacity_ok_write_dword _ _ _ _ _ hc h
  | write_reloc a bo so eo rd wd fl =>
    have h0 : cs_gem_write_reloc a cs bo so eo rd wd fl = some (cs1, r) := h
    rcases write_reloc_cases _ _ _ _ _ _ _ _ _ _ hi.1 h0 with
      ⟨_, e, _⟩ | ⟨_, j, _, _, e, _⟩ | ⟨_, j, _, _, _, hp⟩ | ⟨_, _, e, hg⟩ |
      ⟨_, _, _, cs0, hg, _, b1, b2, hp⟩
    · rw [e]; exact hc
    · rw [e]; exact hc
    · exact capacity_ok_write_packet a
        { cs with relocs := merged cs.relocs (6 * j) so eo rd wd fl } _ _ hc hp
    · obtain ⟨_, _, _, _, f5, f6, f7, _⟩ := grow_frame _ _ _ _ hg hi.1
      unfold capacity_ok at *
      rw [f5, f6, f7]; exact hc
    · obtain ⟨_, _, _, _, f5, f6, f7, _⟩ := grow_frame _ _ _ _ hg hi.1
      refine capacity_ok_write_packet _ _ _ _ ?_ hp
      show cs0.cdw ≤ cs0.ndw ∧ cs0.ndw = cs0.packets.length ∧ cs0.ndw % 1024 = 0 ∧
        cs0.ndw < U32
      rw [f5, f6, f7]; exact hc
  | emit r0 =>
    have h0 : cs_gem_emit r0 cs = some (cs1, r) := h
    unfold cs_gem_emit at h0
    dsimp only at h0
    split at h0
    · simp at h0
    · rename_i cs2 h2
      simp only [Option.some.injEq, Prod.mk.injEq] at h0
      rw [← h0.1]
      have hv := emit_unref_frame _ _ _ _ h2
      unfold unref_view at hv
      simp only [Prod.mk.injEq] at hv
      obtain ⟨h1, h2, h3, _⟩ := hv
      unfold capacity_ok at *
      rw [h1, h2, h3]; exact hc
  | erase =>
    have h0 : cs_gem_erase cs = some (cs1, r) := h
    unfold cs_gem_erase at h0
    split at h0
    · simp at h0
    · rename_i cs2 h2
      simp only [Option.some.injEq, Prod.mk.injEq] at h0
      rw [← h0.1]
      have hv := erase_unref_frame _ _ _ _ h2
      unfold unref_view at hv
      simp only [Prod.mk.injEq] at hv
      obtain ⟨h1, _, h3, _⟩ := hv
      obtain ⟨_, c2, c3, c4⟩ := hc
      exact ⟨Nat.zero_le _, by show cs2.ndw = cs2.packets.length; rw [h1, h3]; exact c2,
        by show cs2.ndw % 1024 = 0; rw [h3]; exact c3, by show cs2.ndw < U32; rw [h3]; exact c4⟩

/-- In every reachable stream the written words are within the capacity `ndw`, which is
the size of the storage and a multiple of 1024 words. -/
theorem reachable_capacity_ok (cs : cs_gem) (h : reachable cs) : capacity_ok cs := by
  induction h with
  | create a ndw cs hc =>
    unfold cs_gem_create at hc
    split at hc
    · simp at hc
    · split at hc
      · simp at hc
      · split at hc
        · simp at hc
        · split at hc
          · simp at hc
          · split at hc
            · simp at hc
            · simp only [Option.some.injEq] at hc
              subst hc
              exact ⟨Nat.zero_le _, (List.length_replicate _ _).symm, by decide,
                by show 64 * 1024 / 4 < U32; unfold U32; omega⟩
  | call cs c cs1 r hr hc ih => exact capacity_ok_call _ _ _ _ (inv_reachable _ hr) ih hc

/-! ## Calls that return -/

/-- With room in the storage, or with a successful `realloc` on a buffer of fewer
than 2^30 - 1024 words, `cs_gem_write_dword` returns 0. -/
theorem write_dword_total (ok : Bool) (cs : cs_gem) (w : Nat) (hc : capacity_ok cs)
    (hroom : cs.cdw < cs.ndw ∨ (ok = true ∧ cs.cdw + 1024 < 1073741824)) :
    ∃ cs1, cs_gem_write_dword ok cs w = some (cs1, 0) := by
  obtain ⟨c1, c2, c3, c4⟩ := hc
  have hU : U32 = 4294967296 := rfl
  by_cases hlt : cs.cdw < cs.ndw
  · exact ⟨_, write_dword_room _ _ _ hlt (by omega)⟩
  · rcases hroom with hr | ⟨hok, hsmall⟩
    · exact absurd hr hlt
    · unfold cs_gem_write_dword
      rw [if_pos (by omega)]
      dsimp only
      rw [if_neg (by rw [hok]; decide), grown_capacity]
      unfold cs_gem_store_dword
      rw [if_pos (by
        show cs.cdw < (realloc 0 cs.packets _).length
        rw [length_realloc, hU]; omega)]
      exact ⟨_, rfl⟩

theorem write_packet_total (a : reloc_allocs) (cs : cs_gem) (idx : Nat) (hc : capacity_ok cs)
    (hroom : cs.cdw + 2 ≤ cs.ndw ∨
      (a.dword0_ok = true ∧ a.dword1_ok = true ∧ cs.cdw + 1025 < 1073741824)) :
    ∃ cs2, cs_gem_write_packet a cs idx = some cs2 := by
  have hs : stream_ok cs := ⟨by unfold capacity_ok at hc; omega, hc.2.2.2⟩
  obtain ⟨cs1, h1⟩ := write_dword_total a.dword0_ok cs RELOC_MARKER hc (by
    rcases hroom with h | ⟨h0, _, h2⟩
    · exact Or.inl (by omega)
    · exact Or.inr ⟨h0, by omega⟩)
  have hc1 := capacity_ok_write_dword _ _ _ _ _ hc h1
  obtain ⟨e1, _, _⟩ := write_dword_ok _ _ _ _ hs h1
  have hn : cs.ndw ≤ cs1.ndw := by
    unfold cs_gem_write_dword at h1
    split at h1
    · split at h1
      · simp only [Option.some.injEq, Prod.mk.injEq] at h1
        exact absurd h1.2 errno_ne.2.2.symm
      · unfold capacity_ok at hc hc1; omega
    · obtain ⟨_, _, _, _, e5, _⟩ := store_dword_spec _ _ _ _ h1 (by
        unfold capacity_ok at hc; omega)
      omega
  obtain ⟨cs2, h2⟩ := write_dword_total a.dword1_ok cs1 idx hc1 (by
    rcases hroom with h | ⟨_, h1, h2⟩
    · exact Or.inl (by omega)
    · exact Or.inr ⟨h1, by omega⟩)
  refine ⟨cs2, ?_⟩
  unfold cs_gem_write_packet
  rw [h1]
  dsimp only
  rw [h2]

/-- On a reachable stream whose table holds fewer than 170 entries, or already holds
the handle of the buffer, a call of `cs_gem_write_reloc` whose allocation requests
succeed (or that needs none) returns, with `-EINVAL` or with 0. -/
theorem write_reloc_total (a : reloc_allocs) (cs : cs_gem) (bo : radeon_bo)
    (so eo rd wd fl : Nat) (hr : reachable cs)
    (htab : cs.crelocs < 170 ∨ bo.handle ∈ handles cs)
    (hroom : cs.cdw + 2 ≤ cs.ndw ∨
      (a.dword0_ok = true ∧ a.dword1_ok = true ∧ cs.cdw + 1025 < 1073741824)) :
    ∃ cs1 r, cs_gem_write_reloc a cs bo so eo rd wd fl = some (cs1, r) ∧
      (r = -EINVAL ∨ r = 0) := by
  obtain ⟨hi, n1, n2, n3, n4⟩ := reachable_creation_sized cs hr
  have hc := reachable_capacity_ok cs hr
  by_cases hv : reloc_invalid bo so eo rd wd
  · exact ⟨cs, _, write_reloc_invalid _ _ _ _ _ _ _ _ hv, Or.inl rfl⟩
  · rw [write_reloc_valid _ _ _ _ _ _ _ _ hv]
    unfold cs_gem_reference
    by_cases hm : bo.handle ∈ handles cs
    · obtain ⟨j, hj⟩ := first_match_of_mem _ _ hi.1 hm
      rw [find_of_first_match _ _ _ hi.1 hj]
      dsimp only
      rw [merge_spec _ _ _ _ _ _ _ _ (by
        have := hi.1; unfold table_ok at this; unfold first_match at hj; omega)]
      by_cases hcf : reloc_conflict cs.relocs (6 * j) rd wd
      · rw [if_pos hcf]
        exact ⟨cs, _, rfl, Or.inl rfl⟩
      · rw [if_neg hcf]
        obtain ⟨cs2, h2⟩ := write_packet_total a
          { cs with relocs := merged cs.relocs (6 * j) so eo rd wd fl } (6 * j) hc hroom
        rw [h2]
        exact ⟨cs2, 0, rfl, Or.inr rfl⟩
    · have h170 : cs.crelocs < 170 := by
        rcases htab with h | h
        · exact h
        · exact absurd h hm
      rw [find_of_not_mem _ _ hi.1 hm]
      dsimp only
      rw [grow_not_full a cs (by omega)]
      dsimp only
      rw [if_pos rfl]
      unfold cs_gem_append
      have hidx : (cs.crelocs * 6) % U32 = 6 * cs.crelocs := by
        rw [Nat.mod_eq_of_lt (by unfold U32; omega)]; omega
      rw [hidx]
      dsimp only
      rw [if_pos ⟨by omega, by omega⟩]
      obtain ⟨cs2, h2⟩ := write_packet_total a
        (cs_gem_set_entry cs bo (6 * cs.crelocs) so eo rd wd fl) (6 * cs.crelocs) hc hroom
      rw [h2]
      exact ⟨cs2, 0, rfl, Or.inr rfl⟩

/-! ## Effect of a registration -/

/-- On a stream that satisfies the representation invariant the call returns `-EINVAL`
exactly when its arguments fail a check or conflict with the entry that has the handle
of the buffer: the conditions of C1. -/
theorem write_reloc_einval_iff (a : reloc_allocs) (cs : cs_gem) (bo : radeon_bo)
    (so eo rd wd fl : Nat) (hi : inv cs) :
    (∃ cs1, cs_gem_write_reloc a cs bo so eo rd wd fl = some (cs1, -EINVAL)) ↔
      (reloc_invalid bo so eo rd wd ∨
        ∃ i, i < cs.crelocs ∧ cs.relocs[6 * i]? = some bo.handle ∧
          reloc_conflict cs.relocs (6 * i) rd wd) := by
  obtain ⟨ht, hs, hn⟩ := hi
  obtain ⟨n1, n2, n3⟩ := errno_ne
  constructor
  · rintro ⟨cs1, h⟩
    rcases write_reloc_cases _ _ _ _ _ _ _ _ _ _ ht h with
      ⟨hv, _, _⟩ | ⟨_, j, hj, hc, _, _⟩ | ⟨_, j, _, _, e, _⟩ | ⟨_, _, e, _⟩ |
      ⟨_, _, e, _⟩
    · exact Or.inl hv
    · exact Or.inr ⟨j, hj.1, hj.2.1, hc⟩
    · exact absurd e.symm n1
    · exact absurd e.symm n2
    · exact absurd e.symm n1
  · rintro (hv | ⟨i, hi, hr, hc⟩)
    · exact ⟨cs, write_reloc_invalid _ _ _ _ _ _ _ _ hv⟩
    · by_cases hv : reloc_invalid bo so eo rd wd
      · exact ⟨cs, write_reloc_invalid _ _ _ _ _ _ _ _ hv⟩
      · refine ⟨cs, ?_⟩
        rw [write_reloc_valid _ _ _ _ _ _ _ _ hv]
        unfold cs_gem_reference
        rw [find_of_first_match _ _ _ ht (first_match_of_nodup _ _ _ hn hi hr)]
        dsimp only
        rw [merge_spec _ _ _ _ _ _ _ _ (by unfold table_ok at ht; omega), if_pos hc]

/-- The claim of C1 wherever the new record fits: on a reachable stream whose table
holds fewer than 170 entries, or already holds the handle of the buffer, a call of
`cs_gem_write_reloc` whose allocation requests succeed (or that needs none) returns;
it returns `-EINVAL` when its arguments fail a check or conflict with the entry that
has the handle of the buffer, and 0 in every other case. -/
theorem write_reloc_result_below_170 (a : reloc_allocs) (cs : cs_gem) (bo : radeon_bo)
    (so eo rd wd fl : Nat) (hr : reachable cs)
    (htab : cs.crelocs < 170 ∨ bo.handle ∈ handles cs)
    (hroom : cs.cdw + 2 ≤ cs.ndw ∨
      (a.dword0_ok = true ∧ a.dword1_ok = true ∧ cs.cdw + 1025 < 1073741824)) :
    ∃ cs1 r, cs_gem_write_reloc a cs bo so eo rd wd fl = some (cs1, r) ∧
      (r = -EINVAL ↔
        (reloc_invalid bo so eo rd wd ∨
          ∃ i, i < cs.crelocs ∧ cs.relocs[6 * i]? = some bo.handle ∧
            reloc_conflict cs.relocs (6 * i) rd wd)) ∧
      (r ≠ -EINVAL → r = 0) := by
  obtain ⟨cs1, r, h, hcode⟩ := write_reloc_total a cs bo so eo rd wd fl hr htab hroom
  have hiff := write_reloc_einval_iff a cs bo so eo rd wd fl (inv_reachable cs hr)
  refine ⟨cs1, r, h, ⟨?_, ?_⟩, ?_⟩
  · intro e
    rw [e] at h
    exact hiff.mp ⟨cs1, h⟩
  · intro hc
    obtain ⟨cs2, h2⟩ := hiff.mpr hc
    rw [h] at h2
    simp only [Option.some.injEq, Prod.mk.injEq] at h2
    exact h2.2
  · intro hne
    rcases hcode with e | e
    · exact absurd e hne
    · exact e

/-- What a call of `cs_gem_write_reloc` that returns 0 does to the handles of the table
and to the words of the stream. -/
theorem write_reloc_ok_effect (a : reloc_allocs) (cs cs1 : cs_gem) (bo : radeon_bo)
    (so eo rd wd fl : Nat) (hi : inv cs)
    (h : cs_gem_write_reloc a cs bo so eo rd wd fl = some (cs1, 0)) :
    inv cs1 ∧ bo.handle ∈ handles cs1 ∧
      (bo.handle ∈ handles cs → handles cs1 = handles cs) ∧
      (bo.handle ∉ handles cs → handles cs1 = handles cs ++ [bo.handle]) ∧
      (a.dword0_ok = true → a.dword1_ok = true →
        cs1.cdw = cs.cdw + 2 ∧
        words cs1 = words cs ++ [RELOC_MARKER, 6 * (handles cs1).indexOf bo.handle]) := by
  have hinv := inv_write_reloc _ _ _ _ _ _ _ _ _ _ hi h
  obtain ⟨ht, hs, hn⟩ := hi
  obtain ⟨n1, n2, n3⟩ := errno_ne
  refine ⟨hinv, ?_⟩
  rcases write_reloc_cases _ _ _ _ _ _ _ _ _ _ ht h with
    ⟨_, _, e⟩ | ⟨_, j, _, _, _, e⟩ | ⟨_, j, hj, _, _, hp⟩ | ⟨_, _, e, _⟩ |
    ⟨_, hnot, _, cs0, hg, hc, b1, b2, hp⟩
  · exact absurd e n1
  · exact absurd e n1
  · have hs0 : stream_ok { cs with relocs := merged cs.relocs (6 * j) so eo rd wd fl } := hs
    obtain ⟨v, _, w⟩ := write_packet_spec _ _ _ _ hs0 hp
    have hh : handles cs1 = handles cs := by
      rw [handles_of_view _ _ v, handles_merged]
    have hmem : bo.handle ∈ handles cs := by
      rw [mem_handles]
      exact ⟨j, hj.1, handle_of_getElem? _ _ _ hj.2.1⟩
    refine ⟨by rw [hh]; exact hmem, fun _ => hh, fun hc => absurd hmem hc, ?_⟩
    intro o1 o2
    obtain ⟨w1, w2⟩ := w o1 o2
    rw [hh, indexOf_first_match _ _ _ hj]
    exact ⟨w1, w2⟩
  · exact absurd e n3
  · obtain ⟨f1, f2, f3, f4, f5, f6, f7, _⟩ := grow_frame _ _ _ _ hg ht
    have hs0 : stream_ok (cs_gem_set_entry cs0 bo (6 * cs.crelocs) so eo rd wd fl) := by
      show cs0.cdw ≤ cs0.packets.length ∧ cs0.ndw < U32
      rw [f5, f6, f7]; exact hs
    obtain ⟨v, _, w⟩ := write_packet_spec _ _ _ _ hs0 hp
    have hh : handles cs1 = handles cs ++ [bo.handle] := by
      rw [handles_of_view _ _ v, ← f4,
        handles_set_entry _ _ _ _ _ _ _ (by rw [f4]; exact b2) f1,
        handles_grow _ _ _ _ hg ht (by omega)]
    refine ⟨by rw [hh]; simp, fun hc => absurd hc hnot, fun _ => hh, ?_⟩
    intro o1 o2
    obtain ⟨w1, w2⟩ := w o1 o2
    rw [hh, List.indexOf_append_of_not_mem hnot, List.indexOf_cons_self, length_handles]
    have e1 : (cs_gem_set_entry cs0 bo (6 * cs.crelocs) so eo rd wd fl).cdw = cs.cdw := f6
    have e2 : words (cs_gem_set_entry cs0 bo (6 * cs.crelocs) so eo rd wd fl) = words cs := by
      show List.take cs0.cdw cs0.packets = _
      rw [f5, f6]; rfl
    rw [e1] at w1
    rw [e2] at w2
    exact ⟨w1, w2⟩

/-- The table after a call that returned 0 for a handle that entry `j` has. -/
theorem write_reloc_merge_effect (a : reloc_allocs) (cs cs1 : cs_gem) (bo : radeon_bo)
    (so eo rd wd fl j : Nat) (ht : table_ok cs) (hj : first_match cs bo.handle j)
    (h : cs_gem_write_reloc a cs bo so eo rd wd fl = some (cs1, 0)) :
    cs1.relocs = merged cs.relocs (6 * j) so eo rd wd fl ∧ cs1.crelocs = cs.crelocs ∧
      cs1.relocs_bo = cs.relocs_bo ∧ cs1.bo_calls = cs.bo_calls ∧
      cs1.relocs_total_size = cs.relocs_total_size := by
  obtain ⟨n1, n2, n3⟩ := errno_ne
  rcases write_reloc_cases _ _ _ _ _ _ _ _ _ _ ht h with
    ⟨_, _, e⟩ | ⟨_, k, _, _, _, e⟩ | ⟨_, k, hk, _, _, hp⟩ | ⟨_, _, e, _⟩ |
    ⟨_, hn, _⟩
  · exact absurd e n1
  · exact absurd e n1
  · have hjk := first_match_unique _ _ _ _ hj hk
    subst hjk
    obtain ⟨v1, v2, v3, v4, v5, _⟩ := relocs_of_view _ _ (write_packet_view _ _ _ _ hp)
    exact ⟨v1, v2, v3, v4, v5⟩
  · exact absurd e n3
  · exact absurd (mem_handles_of_first_match _ _ _ hj) hn

/-- A new entry adds the size of its buffer to `relocs_total_size`, modulo 2^32. -/
theorem write_reloc_new_total (a : reloc_allocs) (cs cs1 : cs_gem) (bo : radeon_bo)
    (so eo rd wd fl : Nat) (ht : table_ok cs) (hn : bo.handle ∉ handles cs)
    (h : cs_gem_write_reloc a cs bo so eo rd wd fl = some (cs1, 0)) :
    cs1.relocs_total_size = (cs.relocs_total_size + bo.size) % U32 := by
  obtain ⟨n1, n2, n3⟩ := errno_ne
  rcases write_reloc_cases _ _ _ _ _ _ _ _ _ _ ht h with
    ⟨_, _, e⟩ | ⟨_, j, _, _, _, e⟩ | ⟨_, j, hj, _, _, _⟩ | ⟨_, _, e, _⟩ |
    ⟨_, _, _, cs0, hg, hc, b1, b2, hp⟩
  · exact absurd e n1
  · exact absurd e n1
  · exact absurd (mem_handles_of_first_match _ _ _ hj) hn
  · exact absurd e n3
  · obtain ⟨_, _, _, _, _, _, _, _, _, _, f11, _⟩ := grow_frame _ _ _ _ hg ht
    obtain ⟨_, _, _, _, v5, _⟩ := relocs_of_view _ _ (write_packet_view _ _ _ _ hp)
    rw [v5]
    show (cs0.relocs_total_size + bo.size) % U32 = _
    rw [f11]

/-- A call other than `cs_gem_erase` keeps the entries of the table in place: the
handles after the call are the handles before it, followed by those of new entries. -/
theorem handles_call (cs cs1 : cs_gem) (c : cs_call) (r : Int) (hi : inv cs)
    (hc : c ≠ cs_call.erase) (h : cs_gem_call cs c = some (cs1, r)) :
    ∃ t, handles cs1 = handles cs ++ t := by
  obtain ⟨n1, n2, n3⟩ := errno_ne
  cases c with
  | write_dword ok w =>
    refine ⟨[], ?_⟩
    rw [List.append_nil]
    exact handles_of_view _ _ (write_dword_view _ _ _ _ _ h)
  | write_reloc a bo so eo rd wd fl =>
    have h0 : cs_gem_write_reloc a cs bo so eo rd wd fl = some (cs1, r) := h
    rcases write_reloc_cases _ _ _ _ _ _ _ _ _ _ hi.1 h0 with
      ⟨_, e, _⟩ | ⟨_, j, _, _, e, _⟩ | ⟨_, j, _, _, e, _⟩ | ⟨_, _, e, hg⟩ | ⟨_, _, e, _⟩
    · exact ⟨[], by rw [e, List.append_nil]⟩
    · exact ⟨[], by rw [e, List.append_nil]⟩
    · subst e
      obtain ⟨_, _, k1, k2, _⟩ := write_reloc_ok_effect _ _ _ _ _ _ _ _ _ hi h0
      by_cases hm : bo.handle ∈ handles cs
      · exact ⟨[], by rw [k1 hm, List.append_nil]⟩
      · exact ⟨_, k2 hm⟩
    · refine ⟨[], ?_⟩
      rw [List.append_nil]
      obtain ⟨_, _, _, f4, _⟩ := grow_frame _ _ _ _ hg hi.1
      obtain ⟨_, _, g0, _⟩ := grow_spec _ _ _ _ hg
      exact handles_congr cs cs1 f4 (fun i _ => by rw [g0 e])
    · subst e
      obtain ⟨_, _, k1, k2, _⟩ := write_reloc_ok_effect _ _ _ _ _ _ _ _ _ hi h0
      by_cases hm : bo.handle ∈ handles cs
      · exact ⟨[], by rw [k1 hm, List.append_nil]⟩
      · exact ⟨_, k2 hm⟩
  | emit r0 =>
    refine ⟨[], ?_⟩
    rw [List.append_nil]
    have h0 : cs_gem_emit r0 cs = some (cs1, r) := h
    unfold cs_gem_emit at h0
    dsimp only at h0
    split at h0
    · simp at h0
    · rename_i cs2 h2
      simp only [Option.some.injEq, Prod.mk.injEq] at h0
      rw [← h0.1]
      exact handles_of_inv_view _ _ ((emit_unref_view _ _ _ _ h2).trans rfl)
  | erase => exact absurd rfl hc

/-- Calls other than `cs_gem_erase` keep the entries of the table in place. -/
theorem handles_run (cs cs1 : cs_gem) (l : List cs_call) (hi : inv cs)
    (hl : cs_call.erase ∉ l) (h : cs_gem_run cs l = some cs1) :
    inv cs1 ∧ ∃ t, handles cs1 = handles cs ++ t := by
  induction l generalizing cs with
  | nil =>
    simp only [cs_gem_run, Option.some.injEq] at h
    rw [← h]
    exact ⟨hi, [], by rw [List.append_nil]⟩
  | cons c l ih =>
    simp only [cs_gem_run] at h
    split at h
    · simp at h
    · rename_i cs2 r hc
      have hne : c ≠ cs_call.erase := fun e => hl (by rw [e]; exact List.mem_cons_self _ _)
      obtain ⟨t1, ht1⟩ := handles_call _ _ _ _ hi hne hc
      obtain ⟨i2, t2, ht2⟩ := ih cs2 (inv_call _ _ _ _ hi hc)
        (fun hm => hl (List.mem_cons_of_mem _ hm)) h
      exact ⟨i2, t1 ++ t2, by rw [ht2, ht1, List.append_assoc]⟩

/-- Handles and `relocs_total_size` after a sequence of registrations that all returned
0. -/
theorem register_all_total (qs : List reloc_request) :
    ∀ (cs cs1 : cs_gem), inv cs → cs.relocs_total_size < U32 →
      cs_gem_register_all cs qs = some cs1 →
      handles cs1 =
          handles cs ++ (first_buffers (handles cs) (qs.map fun q => q.bo)).map
            (fun bo => bo.handle) ∧
        cs1.relocs_total_size =
          (cs.relocs_total_size +
            ((first_buffers (handles cs) (qs.map fun q => q.bo)).map
              (fun bo => bo.size)).sum) % U32 := by
  have hU : 0 < U32 := by unfold U32; omega
  induction qs with
  | nil =>
    intro cs cs1 _ hb h
    simp only [cs_gem_register_all, Option.some.injEq] at h
    subst h
    simp only [List.map_nil, first_buffers, List.append_nil, List.sum_nil, Nat.add_zero]
    exact ⟨trivial, (Nat.mod_eq_of_lt hb).symm⟩
  | cons q qs ih =>
    intro cs cs1 hi hb h
    simp only [cs_gem_register_all] at h
    split at h
    · simp at h
    · rename_i cs2 r hc
      split at h
      · rename_i hr
        subst hr
        obtain ⟨i2, _, k1, k2, _⟩ := write_reloc_ok_effect _ _ _ _ _ _ _ _ _ hi hc
        by_cases hm : q.bo.handle ∈ handles cs
        · obtain ⟨j, hj⟩ := first_match_of_mem _ _ hi.1 hm
          obtain ⟨_, _, _, _, e5⟩ := write_reloc_merge_effect _ _ _ _ _ _ _ _ _ _ hi.1 hj hc
          obtain ⟨r1, r2⟩ := ih cs2 cs1 i2 (by rw [e5]; exact hb) h
          rw [k1 hm] at r1 r2
          rw [e5] at r2
          simp only [List.map_cons, first_buffers, if_pos hm]
          exact ⟨r1, r2⟩
        · have e5 := write_reloc_new_total _ _ _ _ _ _ _ _ _ hi.1 hm hc
          obtain ⟨r1, r2⟩ := ih cs2 cs1 i2 (by rw [e5]; exact Nat.mod_lt _ hU) h
          rw [k2 hm] at r1 r2
          simp only [List.map_cons, first_buffers, if_neg hm, List.sum_cons]
          refine ⟨by rw [r1, List.append_assoc]; rfl, ?_⟩
          rw [r2, e5, Nat.mod_add_mod, Nat.add_assoc]
      · simp at h

/-! ## Concrete streams -/

theorem create_fresh_stream :
    cs_gem_create { csg_ok := true, packets_ok := true, relocs_bo_ok := true, relocs_ok := true }
      0 = some fresh_stream := rfl

theorem reachable_fresh_stream : reachable fresh_stream :=
  reachable.create _ _ _ create_fresh_stream

theorem inv_fresh_stream : inv fresh_stream := inv_reachable _ reachable_fresh_stream

theorem filled_fresh_stream : filled [] fresh_stream :=
  ⟨rfl, rfl, List.length_replicate _ _, List.length_replicate _ _, rfl, rfl, rfl,
    List.length_replicate _ _⟩

/-- A registration of a new handle on a stream of creation sizes that holds fewer than
170 entries returns 0. -/
theorem filled_step (a : reloc_allocs) (hs : List Nat) (cs : cs_gem) (bo : radeon_bo)
    (so eo rd wd fl : Nat) (hl : hs.length < 170) (h : filled hs cs)
    (hv : ¬ reloc_invalid bo so eo rd wd) (hnot : bo.handle ∉ hs) :
    ∃ cs1, cs_gem_write_reloc a cs bo so eo rd wd fl = some (cs1, 0) ∧
      filled (hs ++ [bo.handle]) cs1 ∧
      cs1.relocs_total_size = (cs.relocs_total_size + bo.size) % U32 := by
  obtain ⟨h1, h2, h3, h4, h5, h6, h7, h8⟩ := h
  have hU : U32 = 4294967296 := rfl
  have ht : table_ok cs := ⟨by omega, by omega⟩
  refine ⟨_, write_reloc_new_eq a cs bo so eo rd wd fl hv ht (by rw [h5]; exact hnot)
    (by omega) (by omega) (by omega) (by omega) (by omega) (by omega), ?_, rfl⟩
  have hb : 6 * cs.crelocs + 5 < cs.relocs.length := by omega
  have hh := handles_set_entry cs bo so eo rd wd fl hb (by omega)
  refine ⟨?_, h2, ?_, ?_, ?_, ?_, h7, ?_⟩
  · show (cs.crelocs + 1) % U32 = (hs ++ [bo.handle]).length
    rw [h1, Nat.mod_eq_of_lt (by omega)]
    simp
  · show (cs_gem_set_entry cs _ (6 * cs.crelocs) so eo rd wd fl).relocs.length = 1024
    rw [length_set_entry, h3]
  · show (cs.relocs_bo.set _ _).length = 256
    rw [List.length_set, h4]
  · show handles (cs_gem_set_entry cs _ (6 * cs.crelocs) so eo rd wd fl) = _
    rw [hh, h5]
  · show ((cs.cdw + 1) % U32 + 1) % U32 = 2 * (hs ++ [bo.handle]).length
    rw [hU, List.length_append]
    simp only [List.length_cons, List.length_nil]
    omega
  · show ((cs.packets.set _ _).set _ _).length = 16384
    rw [List.length_set, List.length_set, h8]

/-- The stream after a registration of a new handle on a stream of creation sizes that
holds fewer than 170 entries. -/
theorem filled_step_eq (a : reloc_allocs) (hs : List Nat) (cs : cs_gem) (bo : radeon_bo)
    (so eo rd wd fl : Nat) (hl : hs.length < 170) (h : filled hs cs)
    (hv : ¬ reloc_invalid bo so eo rd wd) (hnot : bo.handle ∉ hs) :
    cs_gem_write_reloc a cs bo so eo rd wd fl =
        some (cs_gem_stored (cs_gem_stored
          (cs_gem_set_entry cs bo (6 * cs.crelocs) so eo rd wd fl) RELOC_MARKER)
          (6 * cs.crelocs), 0) ∧
      filled (hs ++ [bo.handle]) (cs_gem_stored (cs_gem_stored
          (cs_gem_set_entry cs bo (6 * cs.crelocs) so eo rd wd fl) RELOC_MARKER)
          (6 * cs.crelocs)) := by
  obtain ⟨cs1, hc, hf, _⟩ := filled_step a hs cs bo so eo rd wd fl hl h hv hnot
  obtain ⟨h1, h2, h3, h4, h5, h6, h7, h8⟩ := h
  have hU : U32 = 4294967296 := rfl
  have ht : table_ok cs := ⟨by omega, by omega⟩
  have he := write_reloc_new_eq a cs bo so eo rd wd fl hv ht (by rw [h5]; exact hnot)
    (by omega) (by omega) (by omega) (by omega) (by omega) (by omega)
  rw [he] at hc
  simp only [Option.some.injEq, Prod.mk.injEq, and_true] at hc
  rw [hc]
  exact ⟨he.trans (by rw [hc]), hf⟩

theorem inv_of_filled (hs : List Nat) (cs : cs_gem) (h : filled hs cs) (hl : hs.length ≤ 170)
    (hn : hs.Nodup) : inv cs := by
  obtain ⟨h1, h2, h3, h4, h5, h6, h7, h8⟩ := h
  have hU : U32 = 4294967296 := rfl
  exact ⟨⟨by omega, by omega⟩, ⟨by omega, by omega⟩, by rw [h5]; exact hn⟩

theorem nodup_range_succ (n : Nat) : ((List.range n).map (fun i => i + 1)).Nodup :=
  List.Nodup.map (fun _ _ h => Nat.succ_injective h) (List.nodup_range n)

/-- The first `n` registrations of the run, `n` at most 170, all return and fill the
table with the handles `1..n`. -/
theorem registered_run (n : Nat) (hn : n ≤ 170) :
    ∃ cs, cs_gem_run fresh_stream (registrations n) = some cs ∧
      filled ((List.range n).map (fun i => i + 1)) cs := by
  induction n with
  | zero => exact ⟨fresh_stream, rfl, filled_fresh_stream⟩
  | succ n ih =>
    obtain ⟨cs, hr, hp⟩ := ih (by omega)
    obtain ⟨cs1, hc, hp1, _⟩ := filled_step all_ok _ cs
      { addr := 1000 + n, handle := n + 1, size := 4096 } 0 16 2 0 0 (by simp; omega) hp
      (by unfold reloc_invalid RADEON_GEM_DOMAIN_CPU; simp) (by simp)
    refine ⟨cs1, ?_, ?_⟩
    · unfold registrations
      rw [List.range_succ, List.map_append, run_append]
      change (cs_gem_run fresh_stream (registrations n)).bind _ = _
      rw [hr]
      simp only [Option.some_bind, List.map_cons, List.map_nil, cs_gem_run, registration,
        cs_gem_call, hc]
    · rw [List.range_succ, List.map_append]
      exact hp1

/-- Registration number `n` of the run, made after the first `n`: its result code, the
handles of the table after it and the words it appends. -/
theorem registration_effect (n : Nat) (hn : n < 170) :
    ((cs_gem_run fresh_stream (registrations n)).bind fun cs =>
        (cs_gem_call cs (registration n)).map fun q =>
          (q.2, handles q.1, (words q.1).drop cs.cdw)) =
      some (0, (List.range (n + 1)).map (fun i => i + 1), [RELOC_MARKER, 6 * n]) := by
  obtain ⟨cs, hr, hf⟩ := registered_run n (by omega)
  have hlen : ((List.range n).map (fun i => i + 1)).length = n := by simp
  obtain ⟨cs1, hc, hf1, _⟩ := filled_step all_ok _ cs
    { addr := 1000 + n, handle := n + 1, size := 4096 } 0 16 2 0 0 (by rw [hlen]; exact hn) hf
    (by unfold reloc_invalid RADEON_GEM_DOMAIN_CPU; simp) (by simp)
  have hi := inv_of_filled _ _ hf (by rw [hlen]; omega) (nodup_range_succ n)
  obtain ⟨_, _, _, _, hw⟩ := write_reloc_ok_effect _ _ _ _ _ _ _ _ _ hi hc
  obtain ⟨_, w2⟩ := hw rfl rfl
  have h5 : handles cs1 = (List.range (n + 1)).map (fun i => i + 1) := by
    rw [hf1.2.2.2.2.1, List.range_succ, List.map_append]
    rfl
  have hidx : (handles cs1).indexOf (n + 1) = n := by
    rw [hf1.2.2.2.2.1, List.indexOf_append_of_not_mem (by simp), List.indexOf_cons_self, hlen]
    rfl
  rw [hr]
  simp only [Option.some_bind, registration, cs_gem_call, hc, Option.map_some', h5]
  rw [hidx] at w2
  rw [w2, ← length_words cs hi.2.1, List.drop_left]

theorem buffer_one_valid : ¬ reloc_invalid buffer_one 0 16 2 0 := by decide

theorem write_reloc_fresh_stream :
    cs_gem_write_reloc all_ok fresh_stream buffer_one 0 16 2 0 0 = some (stream_one, 0) :=
  (filled_step_eq all_ok [] fresh_stream buffer_one 0 16 2 0 0 (by decide) filled_fresh_stream
    buffer_one_valid (by simp)).1

theorem filled_stream_one : filled [1] stream_one :=
  (filled_step_eq all_ok [] fresh_stream buffer_one 0 16 2 0 0 (by decide) filled_fresh_stream
    buffer_one_valid (by simp)).2

theorem inv_stream_one : inv stream_one :=
  inv_of_filled _ _ filled_stream_one (by decide) (by decide)

theorem record_stream_one :
    stream_one.relocs[0]? = some 1 ∧ stream_one.relocs[1]? = some 0 ∧
      stream_one.relocs[2]? = some 16 ∧ stream_one.relocs[3]? = some 2 ∧
      stream_one.relocs[4]? = some 0 ∧ stream_one.relocs[5]? = some 0 :=
  getElem?_set_entry fresh_stream buffer_one 0 0 16 2 0 0
    (by show 0 + 5 < (List.replicate 1024 0).length; rw [List.length_replicate]; decide)

theorem first_match_stream_one : first_match stream_one buffer_one.handle 0 :=
  ⟨by rw [filled_stream_one.1]; decide, record_stream_one.1, fun k hk => absurd hk (by omega)⟩

theorem no_conflict_stream_one : ¬ reloc_conflict stream_one.relocs (6 * 0) 4 0 := by
  unfold reloc_conflict
  rw [getD_of_getElem? _ _ _ record_stream_one.2.2.2.1,
    getD_of_getElem? _ _ _ record_stream_one.2.2.2.2.1]
  decide

theorem conflict_stream_one : reloc_conflict stream_one.relocs (6 * 0) 0 2 := by
  unfold reloc_conflict
  rw [getD_of_getElem? _ _ _ record_stream_one.2.2.2.1]
  decide

theorem write_reloc_stream_one :
    cs_gem_write_reloc all_ok stream_one buffer_one 8 32 4 0 5 =
      some (stream_one_merged, 0) :=
  write_reloc_merge_eq all_ok stream_one buffer_one 8 32 4 0 5 0 (by decide)
    inv_stream_one.1 first_match_stream_one no_conflict_stream_one
    (by rw [filled_stream_one.2.2.2.2.2.1, filled_stream_one.2.2.2.2.2.2.1]; decide)
    (by rw [filled_stream_one.2.2.2.2.2.2.1, filled_stream_one.2.2.2.2.2.2.2])
    (by rw [filled_stream_one.2.2.2.2.2.2.1]; decide)

theorem write_reloc_stream_one_conflict :
    cs_gem_write_reloc all_ok stream_one buffer_one 0 16 0 2 0 =
      some (stream_one, -EINVAL) :=
  write_reloc_conflict_eq all_ok stream_one buffer_one 0 16 0 2 0 0 (by decide)
    inv_stream_one.1 first_match_stream_one conflict_stream_one

theorem register_small_requests :
    cs_gem_register_all fresh_stream small_requests = some stream_one_merged := by
  unfold small_requests cs_gem_register_all
  dsimp only
  rw [write_reloc_fresh_stream]
  dsimp only
  rw [if_pos rfl]
  unfold cs_gem_register_all
  dsimp only
  rw [write_reloc_stream_one]
  dsimp only
  rw [if_pos rfl]
  rfl

theorem buffer_two_valid : ¬ reloc_invalid buffer_two 16 32 0 4 := by decide

theorem write_reloc_stream_one_new :
    cs_gem_write_reloc all_ok stream_one buffer_two 16 32 0 4 5 = some (stream_two, 0) :=
  (filled_step_eq all_ok [1] stream_one buffer_two 16 32 0 4 5 (by decide) filled_stream_one
    buffer_two_valid (by decide)).1

theorem filled_stream_two : filled [1, 2] stream_two :=
  (filled_step_eq all_ok [1] stream_one buffer_two 16 32 0 4 5 (by decide) filled_stream_one
    buffer_two_valid (by decide)).2

theorem inv_stream_two : inv stream_two :=
  inv_of_filled _ _ filled_stream_two (by decide) (by decide)

theorem record_stream_two :
    stream_two.relocs[6]? = some 2 ∧ stream_two.relocs[6 + 1]? = some 16 ∧
      stream_two.relocs[6 + 2]? = some 32 ∧ stream_two.relocs[6 + 3]? = some 0 ∧
      stream_two.relocs[6 + 4]? = some 4 ∧ stream_two.relocs[6 + 5]? = some 5 :=
  getElem?_set_entry stream_one buffer_two 6 16 32 0 4 5
    (by rw [filled_stream_one.2.2.1]; decide)

theorem first_match_stream_two : first_match stream_two buffer_two.handle 1 := by
  refine ⟨by rw [filled_stream_two.1]; decide, record_stream_two.1, ?_⟩
  intro k hk
  have hk0 : k = 0 := by omega
  subst hk0
  have h0 : stream_two.relocs[0]? = stream_one.relocs[0]? :=
    getElem?_set_entry_other stream_one buffer_two 6 16 32 0 4 5 0 (Or.inl (by decide))
  show stream_two.relocs[0]? ≠ _
  rw [h0, record_stream_one.1]
  decide

theorem no_conflict_stream_two : ¬ reloc_conflict stream_two.relocs (6 * 1) 0 2 := by
  unfold reloc_conflict
  rw [getD_of_getElem? _ _ _ record_stream_two.2.2.2.1,
    getD_of_getElem? _ _ _ record_stream_two.2.2.2.2.1]
  decide

theorem write_reloc_stream_two :
    cs_gem_write_reloc all_ok stream_two buffer_two 0 64 0 2 3 =
      some (stream_two_merged, 0) :=
  write_reloc_merge_eq all_ok stream_two buffer_two 0 64 0 2 3 1 (by decide)
    inv_stream_two.1 first_match_stream_two no_conflict_stream_two
    (by rw [filled_stream_two.2.2.2.2.2.1, filled_stream_two.2.2.2.2.2.2.1]; decide)
    (by rw [filled_stream_two.2.2.2.2.2.2.1, filled_stream_two.2.2.2.2.2.2.2])
    (by rw [filled_stream_two.2.2.2.2.2.2.1]; decide)

theorem stream_ok_full_stream : stream_ok full_stream :=
  ⟨by show 16384 ≤ (List.replicate 16384 0).length; rw [List.length_replicate],
    by show 16384 < U32; unfold U32; omega⟩

theorem write_dword_full_stream :
    cs_gem_write_dword true full_stream 9 = some (grown_stream, 0) := by
  have h1 : full_stream.cdw ≥ full_stream.ndw := Nat.le_refl _
  have h2 : (4 * ((full_stream.cdw + 1 + 0x3FF) % U32 &&& 0xFFFFFC00)) % U32 / 4 = 17408 := by
    decide
  have h3 : (full_stream.cdw + 1 + 0x3FF) % U32 &&& 0xFFFFFC00 = 17408 := by
    decide
  unfold cs_gem_write_dword
  rw [if_pos h1]
  dsimp only
  rw [if_neg (by decide), h2, h3]
  unfold cs_gem_store_dword
  rw [if_pos (by
    show 16384 < (realloc 0 full_stream.packets 17408).length
    rw [length_realloc]; decide)]
  rfl

/-! ## Registration on a full buffer -/

/-- Writing to a cell the value it holds changes nothing. -/
theorem set_same (l : List Nat) (m v : Nat) (h : l[m]? = some v) : l.set m v = l := by
  apply List.ext_getElem?
  intro k
  by_cases hk : m = k
  · subst hk
    rw [List.getElem?_set_self' , h]
    rfl
  · rw [List.getElem?_set_ne hk]

/-- On a full buffer an append that finds no memory returns `-ENOMEM` and changes
nothing. -/
theorem write_dword_no_memory (cs : cs_gem) (w : Nat) (hf : cs.ndw ≤ cs.cdw) :
    cs_gem_write_dword false cs w = some (cs, -ENOMEM) := by
  unfold cs_gem_write_dword
  rw [if_pos hf]
  rfl

/-- On a full buffer, when both appends find no memory, the in-stream reference is not
appended, and nothing tells the caller. -/
theorem write_packet_no_memory (a : reloc_allocs) (cs : cs_gem) (idx : Nat)
    (h0 : a.dword0_ok = false) (h1 : a.dword1_ok = false) (hf : cs.ndw ≤ cs.cdw) :
    cs_gem_write_packet a cs idx = some cs := by
  unfold cs_gem_write_packet
  rw [h0, h1, write_dword_no_memory cs _ hf]
  dsimp only
  rw [write_dword_no_memory cs _ hf]

/-- The merge path on a full buffer when both appends find no memory: the record is
merged, the call returns 0, and no word is appended. -/
theorem write_reloc_merge_no_memory (a : reloc_allocs) (cs : cs_gem) (bo : radeon_bo)
    (so eo rd wd fl j : Nat) (hv : ¬ reloc_invalid bo so eo rd wd) (ht : table_ok cs)
    (hj : first_match cs bo.handle j) (hc : ¬ reloc_conflict cs.relocs (6 * j) rd wd)
    (h0 : a.dword0_ok = false) (h1 : a.dword1_ok = false) (hf : cs.ndw ≤ cs.cdw) :
    cs_gem_write_reloc a cs bo so eo rd wd fl =
      some ({ cs with relocs := merged cs.relocs (6 * j) so eo rd wd fl }, 0) := by
  rw [write_reloc_valid _ _ _ _ _ _ _ _ hv]
  unfold cs_gem_reference
  rw [find_of_first_match _ _ _ ht hj]
  dsimp only
  rw [merge_spec _ _ _ _ _ _ _ _ (by unfold table_ok at ht; unfold first_match at hj; omega),
    if_neg hc,
    write_packet_no_memory a { cs with relocs := merged cs.relocs (6 * j) so eo rd wd fl }
      (6 * j) h0 h1 hf]
  rfl

/-- The merge path on a full buffer when the first append finds no memory and the
second finds some: the call returns 0 and appends the offset word alone, without the
marker. -/
theorem write_reloc_merge_memory_late (a : reloc_allocs) (cs : cs_gem) (bo : radeon_bo)
    (so eo rd wd fl j : Nat) (hv : ¬ reloc_invalid bo so eo rd wd) (ht : table_ok cs)
    (hj : first_match cs bo.handle j) (hc : ¬ reloc_conflict cs.relocs (6 * j) rd wd)
    (h0 : a.dword0_ok = false) (h1 : a.dword1_ok = true) (hk : capacity_ok cs)
    (hf : cs.ndw = cs.cdw) (hs : cs.cdw + 1024 < 1073741824) :
    ∃ cs1, cs_gem_write_reloc a cs bo so eo rd wd fl = some (cs1, 0) ∧
      words cs1 = words cs ++ [6 * j] ∧ cs1.crelocs = cs.crelocs := by
  have hk1 : capacity_ok { cs with relocs := merged cs.relocs (6 * j) so eo rd wd fl } := hk
  obtain ⟨cs1, e1⟩ := write_dword_total true
    { cs with relocs := merged cs.relocs (6 * j) so eo rd wd fl } (6 * j) hk1
    (Or.inr ⟨rfl, hs⟩)
  have hso : stream_ok { cs with relocs := merged cs.relocs (6 * j) so eo rd wd fl } :=
    ⟨by unfold capacity_ok at hk; show cs.cdw ≤ cs.packets.length; omega, hk.2.2.2⟩
  obtain ⟨_, w1, _⟩ := write_dword_ok _ _ _ _ hso e1
  obtain ⟨_, v2, _⟩ := relocs_of_view _ _ (write_dword_view _ _ _ _ _ e1)
  refine ⟨cs1, ?_, w1, v2⟩
  rw [write_reloc_valid _ _ _ _ _ _ _ _ hv]
  unfold cs_gem_reference
  rw [find_of_first_match _ _ _ ht hj]
  dsimp only
  rw [merge_spec _ _ _ _ _ _ _ _ (by unfold table_ok at ht; unfold first_match at hj; omega),
    if_neg hc]
  unfold cs_gem_write_packet
  rw [h0, h1, write_dword_no_memory _ _ (by show cs.ndw ≤ cs.cdw; omega)]
  dsimp only
  rw [e1]
  rfl

/-- The words 0 appended to `stream_one`, up to 16384 words in all, need no growth. -/
theorem padded_run (k : Nat) (hk : 2 + k ≤ 16384) :
    cs_gem_run stream_one (List.replicate k (cs_call.write_dword true 0)) =
      some (padded_stream (2 + k)) := by
  induction k with
  | zero => rfl
  | succ k ih =>
    rw [List.replicate_succ', run_append, ih (by omega)]
    simp only [Option.some_bind, cs_gem_run, cs_gem_call]
    have hlen : (padded_stream (2 + k)).packets.length = 16384 :=
      filled_stream_one.2.2.2.2.2.2.2
    rw [write_dword_room true (padded_stream (2 + k)) 0 (show 2 + k < 16384 by omega)
      (by show 2 + k < (padded_stream (2 + k)).packets.length; rw [hlen]; omega)]
    dsimp only
    congr 1
    have hU : U32 = 4294967296 := rfl
    have hz : stream_one.packets[2 + k]? = some 0 := by
      show (((List.replicate 16384 0).set 0 RELOC_MARKER).set (1 % U32) 0)[2 + k]? = some 0
      rw [List.getElem?_set_ne (by rw [hU]; omega), List.getElem?_set_ne (by omega),
        List.getElem?_replicate_of_lt (by omega)]
    have hp : stream_one.packets.set (2 + k) 0 = stream_one.packets := set_same _ _ _ hz
    unfold cs_gem_stored padded_stream
    simp only [hp, Nat.mod_eq_of_lt (show 2 + k + 1 < U32 by rw [hU]; omega)]
    rfl

/-- The stream `stream_one` after 16382 words 0 have been appended is reachable. -/
theorem reachable_padded_stream : reachable (padded_stream 16384) :=
  reachable_run stream_one (padded_stream 16384) _
    (reachable.call fresh_stream (cs_call.write_reloc all_ok buffer_one 0 16 2 0 0) stream_one 0
      reachable_fresh_stream write_reloc_fresh_stream)
    (padded_run 16382 (by decide))

/-- The words of `stream_one`: the reference appended by the registration. -/
theorem words_stream_one : words stream_one = [RELOC_MARKER, 0] := by
  have hlen : fresh_stream.packets.length = 16384 := List.length_replicate _ _
  show ((fresh_stream.packets.set 0 RELOC_MARKER).set (1 % U32) 0).take 2 = _
  rw [show 1 % U32 = 1 by decide,
    take_set_same _ 1 0 (by rw [List.length_set, hlen]; decide),
    take_set_same _ 0 RELOC_MARKER (by rw [hlen]; decide)]
  rfl

/-! ## C1: result codes of cs_gem_write_reloc -/

/-- C1: after 170 buffers with distinct handles have been registered on a fresh stream
(which the code accepts, one entry each), registering a 171st with arguments that
pass every check has no defined result: the table is not grown (170 < nrelocs = 256)
and the record is written at words 1020..1025 of the 1024-word allocation. The call
does not return 0. -/
theorem write_reloc_entry_170_out_of_bounds :
    ((cs_gem_run fresh_stream (registrations 170)).map fun cs =>
        (cs.crelocs, cs.nrelocs, cs.relocs.length, handles cs)) =
      some (170, 256, 1024, (List.range 170).map fun i => i + 1) ∧
    ¬ reloc_invalid { addr := 1170, handle := 171, size := 4096 } 0 16 2 0 ∧
    ((cs_gem_run fresh_stream (registrations 170)).bind fun cs =>
        cs_gem_write_reloc all_ok cs { addr := 1170, handle := 171, size := 4096 } 0 16 2 0 0) =
      none := by
  obtain ⟨cs, hr, h1, h2, h3, h4, h5, h6, h7, h8⟩ := registered_run 170 (le_refl _)
  have hU : U32 = 4294967296 := rfl
  have hlen : ((List.range 170).map (fun i => i + 1)).length = 170 := by simp
  rw [hlen] at h1
  refine ⟨?_, by decide, ?_⟩
  · rw [hr]
    simp only [Option.map_some', h1, h2, h3, h5]
  · rw [hr]
    simp only [Option.some_bind]
    apply write_reloc_new_fault
    · decide
    · exact ⟨by omega, by omega⟩
    · rw [h5]; simp
    · omega
    · omega

/-! ## C2: a rejected call changes nothing -/

/-- C2: a call of `cs_gem_write_reloc` that returns `-EINVAL` leaves the stream exactly
as it was: every field of the state, the record of the references acquired and
released included, is unchanged. -/
theorem write_reloc_einval_unchanged (a : reloc_allocs) (cs cs1 : cs_gem) (bo : radeon_bo)
    (so eo rd wd fl : Nat)
    (h : cs_gem_write_reloc a cs bo so eo rd wd fl = some (cs1, -EINVAL)) : cs1 = cs := by
  obtain ⟨n1, n2, n3⟩ := errno_ne
  unfold cs_gem_write_reloc at h
  have key : cs_gem_reference a cs bo so eo rd wd fl = some (cs1, -EINVAL) → cs1 = cs := by
    intro h
    unfold cs_gem_reference at h
    split at h
    · simp at h
    · rename_i idx _
      unfold cs_gem_merge at h
      split at h
      · simp at h
      · split at h
        · simp only [Option.some.injEq, Prod.mk.injEq] at h
          exact h.1.symm
        · split at h
          · simp at h
          · split at h
            · simp only [Option.some.injEq, Prod.mk.injEq] at h
              exact h.1.symm
            · split at h
              · split at h
                · simp at h
                · simp only [Option.some.injEq, Prod.mk.injEq] at h
                  exact absurd h.2 n1
              · simp at h
    · split at h
      · unfold cs_gem_append at h
        dsimp only at h
        split at h
        · split at h
          · simp at h
          · simp only [Option.some.injEq, Prod.mk.injEq] at h
            exact absurd h.2 n1
        · simp at h
      · rename_i hne
        simp only [Option.some.injEq] at h
        obtain ⟨g, _⟩ := grow_spec a cs (cs_gem_grow a cs).1 (cs_gem_grow a cs).2 rfl
        rw [h] at g hne
        rcases g with g | g
        · exact absurd g hne
        · exact (n2 g.symm).elim
  split at h
  · simp only [Option.some.injEq, Prod.mk.injEq] at h; exact h.1.symm
  · split at h
    · simp only [Option.some.injEq, Prod.mk.injEq] at h; exact h.1.symm
    · split at h
      · simp only [Option.some.injEq, Prod.mk.injEq] at h; exact h.1.symm
      · split at h
        · simp only [Option.some.injEq, Prod.mk.injEq] at h; exact h.1.symm
        · split at h
          · simp only [Option.some.injEq, Prod.mk.injEq] at h; exact h.1.symm
          · exact key h

/-- C2 (witness): the second call of the scenario of the specification, on handle 1
with `read = 0, write = 0x2` after a registration for reading, returns `-EINVAL`. -/
theorem write_reloc_einval_unchanged_witness :
    cs_gem_write_reloc all_ok stream_one buffer_one 0 16 0 2 0 =
        some (stream_one, -EINVAL) ∧
      stream_one = stream_one :=
  ⟨write_reloc_stream_one_conflict,
    write_reloc_einval_unchanged all_ok stream_one stream_one buffer_one 0 16 0 2 0
      write_reloc_stream_one_conflict⟩

/-! ## C3: the in-stream reference -/

/-- C3 (counterexample): on a fresh stream that holds one entry, a successful
registration of a second buffer makes entry 1 and appends the marker followed by the
word 6, the word offset of record 1, not 24 = 1 × 24, its byte offset. -/
theorem write_reloc_offset_word_is_not_byte_offset :
    ((cs_gem_run fresh_stream (registrations 1)).bind fun cs =>
        (cs_gem_call cs (registration 1)).map fun q =>
          (q.2, handles q.1, (words q.1).drop cs.cdw)) =
      some (0, [1, 2], [RELOC_MARKER, 6]) ∧
    [RELOC_MARKER, 6] ≠ [RELOC_MARKER, 1 * 24] :=
  ⟨registration_effect 1 (by decide), by decide⟩

/-- C3 (amended): a call of `cs_gem_write_reloc` that returns 0, and whose two appends
did not run out of memory, appends exactly two words to the stream: the marker
`0xc0001000`, then the word offset of the record of the entry that has the handle of
the buffer, entryIndex × 6 (six words per record); `cdw` increases by exactly 2. This
holds on the merge path and on the new-entry path, in every stream that satisfies
the representation invariant (every reachable stream does). -/
theorem write_reloc_appends_marker_and_word_offset (a : reloc_allocs) (cs cs1 : cs_gem)
    (bo : radeon_bo) (so eo rd wd fl : Nat) (hi : inv cs)
    (h0 : a.dword0_ok = true) (h1 : a.dword1_ok = true)
    (h : cs_gem_write_reloc a cs bo so eo rd wd fl = some (cs1, 0)) :
    bo.handle ∈ handles cs1 ∧
      words cs1 = words cs ++ [RELOC_MARKER, 6 * (handles cs1).indexOf bo.handle] ∧
      cs1.cdw = cs.cdw + 2 := by
  obtain ⟨_, hm, _, _, hw⟩ := write_reloc_ok_effect _ _ _ _ _ _ _ _ _ hi h
  obtain ⟨w1, w2⟩ := hw h0 h1
  exact ⟨hm, w2, w1⟩

/-- C3 (witness): the first registration on a fresh stream. -/
theorem write_reloc_appends_marker_and_word_offset_witness :
    inv fresh_stream ∧ all_ok.dword0_ok = true ∧ all_ok.dword1_ok = true ∧
      cs_gem_write_reloc all_ok fresh_stream buffer_one 0 16 2 0 0 = some (stream_one, 0) ∧
      (buffer_one.handle ∈ handles stream_one ∧
        words stream_one =
          words fresh_stream ++
            [RELOC_MARKER, 6 * (handles stream_one).indexOf buffer_one.handle] ∧
        stream_one.cdw = fresh_stream.cdw + 2) :=
  ⟨inv_fresh_stream, rfl, rfl, write_reloc_fresh_stream,
    write_reloc_appends_marker_and_word_offset all_ok fresh_stream stream_one buffer_one
      0 16 2 0 0 inv_fresh_stream rfl rfl write_reloc_fresh_stream⟩

/-! ## C4: the value returned on success -/

/-- C4 (counterexample): on a fresh stream that holds two entries, a successful
registration of a third buffer returns 0, while the offset word it appends (the slot
offset of its entry) is 12. -/
theorem write_reloc_returns_zero_not_slot_offset :
    ((cs_gem_run fresh_stream (registrations 2)).bind fun cs =>
        (cs_gem_call cs (registration 2)).map fun q =>
          (q.2, handles q.1, (words q.1).drop cs.cdw)) =
      some (0, [1, 2, 3], [RELOC_MARKER, 12]) ∧
    (0 : Int) ≠ 12 :=
  ⟨registration_effect 2 (by decide), by decide⟩

/-- C4 (amended): `cs_gem_write_reloc` returns a status code, `0`, `-EINVAL` or
`-ENOMEM`; on success (a non-negative result) it returns 0, never the slot offset. The
slot offset of the entry of the buffer is only written to the stream, as the second
of the two words the call appends (when its appends do not run out of memory). -/
theorem write_reloc_returns_status (a : reloc_allocs) (cs cs1 : cs_gem) (bo : radeon_bo)
    (so eo rd wd fl : Nat) (r : Int) (hi : inv cs)
    (h : cs_gem_write_reloc a cs bo so eo rd wd fl = some (cs1, r)) (hr : 0 ≤ r) :
    r = 0 ∧
      (a.dword0_ok = true → a.dword1_ok = true →
        words cs1 = words cs ++ [RELOC_MARKER, 6 * (handles cs1).indexOf bo.handle]) := by
  have h0 : r = 0 := by
    rcases write_reloc_codes _ _ _ _ _ _ _ _ _ _ hi.1 h with e | e | e
    · exact e
    · rw [e] at hr; unfold EINVAL at hr; omega
    · rw [e] at hr; unfold ENOMEM at hr; omega
  subst h0
  refine ⟨rfl, ?_⟩
  intro o1 o2
  obtain ⟨_, _, _, _, hw⟩ := write_reloc_ok_effect _ _ _ _ _ _ _ _ _ hi h
  exact (hw o1 o2).2

/-- C4 (witness): the second registration of the same buffer, on the merge path. -/
theorem write_reloc_returns_status_witness :
    inv stream_one ∧
      cs_gem_write_reloc all_ok stream_one buffer_one 8 32 4 0 5 =
        some (stream_one_merged, 0) ∧
      (0 : Int) ≤ 0 ∧
      ((0 : Int) = 0 ∧
        (all_ok.dword0_ok = true → all_ok.dword1_ok = true →
          words stream_one_merged =
            words stream_one ++
              [RELOC_MARKER, 6 * (handles stream_one_merged).indexOf buffer_one.handle])) :=
  ⟨inv_stream_one, write_reloc_stream_one, le_refl _,
    write_reloc_returns_status all_ok stream_one stream_one_merged buffer_one 8 32 4 0 5 0
      inv_stream_one write_reloc_stream_one (le_refl _)⟩

/-! ## C5: the new entry -/

/-- C5: a call of `cs_gem_write_reloc` that returns 0 for a buffer whose handle is
not in the table, the table holding k = `crelocs` entries: `crelocs` becomes k + 1;
the first 6(k+1) words of the serialized table are the 6k words of the old records,
unchanged and in the same order, followed by `handle, start_offset, end_offset,
read_domain, write_domain, flags` as passed; the first k + 1 slots of the reference
array are the k old slots followed by the buffer; and one reference to the buffer
was acquired. -/
theorem write_reloc_new_entry (a : reloc_allocs) (cs cs1 : cs_gem) (bo : radeon_bo)
    (so eo rd wd fl : Nat) (ht : table_ok cs) (hb : cs.crelocs ≤ cs.relocs_bo.length)
    (hn : bo.handle ∉ handles cs)
    (h : cs_gem_write_reloc a cs bo so eo rd wd fl = some (cs1, 0)) :
    cs1.crelocs = cs.crelocs + 1 ∧
      cs1.relocs.take (6 * (cs.crelocs + 1)) =
        cs.relocs.take (6 * cs.crelocs) ++ [bo.handle, so, eo, rd, wd, fl] ∧
      cs1.relocs_bo.take (cs.crelocs + 1) = cs.relocs_bo.take cs.crelocs ++ [some bo] ∧
      cs1.bo_calls = cs.bo_calls ++ [bo_call.ref bo] := by
  obtain ⟨n1, n2, n3⟩ := errno_ne
  have htc := ht
  obtain ⟨t1, t2⟩ := htc
  rcases write_reloc_cases _ _ _ _ _ _ _ _ _ _ ht h with
    ⟨_, _, e⟩ | ⟨_, j, _, _, _, e⟩ | ⟨_, j, hj, _, _, _⟩ | ⟨_, _, e, _⟩ |
    ⟨_, _, _, cs0, hg, hc, b1, b2, hp⟩
  · exact absurd e n1
  · exact absurd e n1
  · exact absurd (mem_handles_of_first_match _ _ _ hj) hn
  · exact absurd e n3
  · obtain ⟨f1, f2, f3, f4, _, _, _, _, _, f10, _⟩ := grow_frame _ _ _ _ hg ht
    have hv := write_packet_view _ _ _ _ hp
    obtain ⟨v1, v2, v3, v4, _⟩ := relocs_of_view _ _ hv
    have b2c : 6 * cs.crelocs + 5 < cs0.relocs.length := b2
    have hsix := getElem?_set_entry cs0 bo (6 * cs.crelocs) so eo rd wd fl b2c
    refine ⟨?_, ?_, ?_, ?_⟩
    · rw [v2]
      show (cs0.crelocs + 1) % U32 = _
      rw [hc]
      exact Nat.mod_eq_of_lt (by omega)
    · rw [v1]
      apply List.ext_getElem?
      intro p
      rw [List.getElem?_take]
      by_cases hp1 : p < 6 * cs.crelocs
      · rw [if_pos (by omega), getElem?_set_entry_other _ _ _ _ _ _ _ _ _ (Or.inl hp1),
          List.getElem?_append_left (by rw [List.length_take]; omega), List.getElem?_take,
          if_pos hp1]
        exact f2 p (by omega) (by omega)
      · rw [List.getElem?_append_right (by rw [List.length_take]; omega), List.length_take,
          Nat.min_eq_left t1]
        by_cases hp2 : p < 6 * (cs.crelocs + 1)
        · rw [if_pos hp2]
          obtain ⟨i, hi, hpi⟩ : ∃ i, i < 6 ∧ p = 6 * cs.crelocs + i := ⟨p - 6 * cs.crelocs,
            by omega, by omega⟩
          subst hpi
          rw [Nat.add_sub_cancel_left]
          obtain ⟨s0, s1, s2, s3, s4, s5⟩ := hsix
          interval_cases i
          · exact s0
          · exact s1
          · exact s2
          · exact s3
          · exact s4
          · exact s5
        · rw [if_neg hp2]
          symm
          apply List.getElem?_eq_none
          simp only [List.length_cons, List.length_nil]
          omega
    · rw [v3]
      show (cs0.relocs_bo.set cs0.crelocs (some bo)).take (cs.crelocs + 1) = _
      rw [hc, take_set_same _ _ _ b1]
      congr 1
      apply take_congr
      intro p hp1
      exact f3 p (by omega) (by omega)
    · rw [v4]
      show cs0.bo_calls ++ [bo_call.ref bo] = _
      rw [f10]

/-- C5 (witness): the first registration on a fresh stream. -/
theorem write_reloc_new_entry_witness :
    table_ok fresh_stream ∧ fresh_stream.crelocs ≤ fresh_stream.relocs_bo.length ∧
      buffer_one.handle ∉ handles fresh_stream ∧
      cs_gem_write_reloc all_ok fresh_stream buffer_one 0 16 2 0 0 = some (stream_one, 0) ∧
      (stream_one.crelocs = fresh_stream.crelocs + 1 ∧
        stream_one.relocs.take (6 * (fresh_stream.crelocs + 1)) =
          fresh_stream.relocs.take (6 * fresh_stream.crelocs) ++
            [buffer_one.handle, 0, 16, 2, 0, 0] ∧
        stream_one.relocs_bo.take (fresh_stream.crelocs + 1) =
          fresh_stream.relocs_bo.take fresh_stream.crelocs ++ [some buffer_one] ∧
        stream_one.bo_calls = fresh_stream.bo_calls ++ [bo_call.ref buffer_one]) :=
  ⟨inv_fresh_stream.1, Nat.zero_le _, List.not_mem_nil _, write_reloc_fresh_stream,
    write_reloc_new_entry all_ok fresh_stream stream_one buffer_one 0 16 2 0 0
      inv_fresh_stream.1 (Nat.zero_le _) (List.not_mem_nil _) write_reloc_fresh_stream⟩

/-! ## Handles are unique in reachable streams -/

/-- In every state reachable from `cs_gem_create` by `cs_gem_write_dword`,
`cs_gem_write_reloc`, `cs_gem_emit` and `cs_gem_erase` calls, no two entries of the
table have the same handle. When a buffer has been registered (the call returned 0)
and, after any calls other than `cs_gem_erase`, is registered again with compatible
domains (the call returns 0), and the appends of both calls do not run out of memory,
the second call leaves the entry count unchanged, exactly one entry has the handle,
and the offset word the second call appends after the marker equals the offset word
the first call appended. -/
theorem reachable_handles_unique (cs : cs_gem) (hr : reachable cs) :
    (handles cs).Nodup ∧
      ∀ (a1 a2 : reloc_allocs) (bo : radeon_bo)
        (so1 eo1 rd1 wd1 fl1 so2 eo2 rd2 wd2 fl2 : Nat) (calls : List cs_call)
        (cs1 cs2 cs3 : cs_gem),
        a1.dword0_ok = true → a1.dword1_ok = true →
        a2.dword0_ok = true → a2.dword1_ok = true →
        cs_gem_write_reloc a1 cs bo so1 eo1 rd1 wd1 fl1 = some (cs1, 0) →
        cs_call.erase ∉ calls → cs_gem_run cs1 calls = some cs2 →
        cs_gem_write_reloc a2 cs2 bo so2 eo2 rd2 wd2 fl2 = some (cs3, 0) →
        cs3.crelocs = cs2.crelocs ∧ (handles cs3).count bo.handle = 1 ∧
          ∃ x, words cs1 = words cs ++ [RELOC_MARKER, x] ∧
            words cs3 = words cs2 ++ [RELOC_MARKER, x] := by
  have hi := inv_reachable cs hr
  refine ⟨hi.2.2, ?_⟩
  intro a1 a2 bo so1 eo1 rd1 wd1 fl1 so2 eo2 rd2 wd2 fl2 calls cs1 cs2 cs3 o1 o2 o3 o4 h1 hl
    h2 h3
  obtain ⟨i1, m1, _, _, w1⟩ := write_reloc_ok_effect _ _ _ _ _ _ _ _ _ hi h1
  obtain ⟨i2, t, ht⟩ := handles_run _ _ _ i1 hl h2
  have m2 : bo.handle ∈ handles cs2 := by rw [ht]; exact List.mem_append_left _ m1
  obtain ⟨i3, m3, k1, _, w3⟩ := write_reloc_ok_effect _ _ _ _ _ _ _ _ _ i2 h3
  have hh := k1 m2
  refine ⟨?_, List.count_eq_one_of_mem i3.2.2 m3, 6 * (handles cs1).indexOf bo.handle,
    (w1 o1 o2).2, ?_⟩
  · rw [← length_handles cs3, ← length_handles cs2, hh]
  · rw [(w3 o3 o4).2, hh, ht, List.indexOf_append_of_mem m1]

/-- An instance of `reachable_handles_unique`: on a fresh stream `buffer_one` is
registered twice, with memory available. -/
theorem reachable_handles_unique_witness :
    reachable fresh_stream ∧ (handles fresh_stream).Nodup ∧
      stream_one_merged.crelocs = stream_one.crelocs ∧
      (handles stream_one_merged).count buffer_one.handle = 1 ∧
      ∃ x, words stream_one = words fresh_stream ++ [RELOC_MARKER, x] ∧
        words stream_one_merged = words stream_one ++ [RELOC_MARKER, x] :=
  ⟨reachable_fresh_stream, (reachable_handles_unique fresh_stream reachable_fresh_stream).1,
    (reachable_handles_unique fresh_stream reachable_fresh_stream).2 all_ok all_ok buffer_one
      0 16 2 0 0 8 32 4 0 5 [] stream_one stream_one stream_one_merged rfl rfl rfl rfl
      write_reloc_fresh_stream (List.not_mem_nil _) rfl write_reloc_stream_one⟩

/-! ## C6: a second registration of a handle -/

/-- C6: a second registration of a present handle that returns 0 without appending the
in-stream reference. `buffer_one` is registered on a fresh stream (the call returns 0
and appends the marker and the offset word 0), 16382 words are appended, which fills
the 16384 words of the buffer, and `buffer_one` is registered again with compatible
domains while no memory is available. The call returns 0 and the table still holds
the one entry, but no word is appended, because the function ignores the `-ENOMEM`
result of its two `cs_gem_write_dword` calls (lines 190-191). When only the first of
the two appends finds no memory, the call returns 0 and appends the offset word 0
alone, without the marker. -/
theorem second_registration_without_reference :
    cs_gem_write_reloc all_ok fresh_stream buffer_one 0 16 2 0 0 = some (stream_one, 0) ∧
      words stream_one = [RELOC_MARKER, 0] ∧
      cs_gem_run stream_one (List.replicate 16382 (cs_call.write_dword true 0)) =
        some (padded_stream 16384) ∧
      reachable (padded_stream 16384) ∧
      (padded_stream 16384).cdw = (padded_stream 16384).ndw ∧
      handles (padded_stream 16384) = [1] ∧
      cs_gem_write_reloc no_memory (padded_stream 16384) buffer_one 8 32 4 0 5 =
        some ({ padded_stream 16384 with
                relocs := merged (padded_stream 16384).relocs 0 8 32 4 0 5 }, 0) ∧
      (∀ cs3, cs_gem_write_reloc no_memory (padded_stream 16384) buffer_one 8 32 4 0 5 =
          some (cs3, 0) →
        cs3.crelocs = (padded_stream 16384).crelocs ∧ handles cs3 = [1] ∧
          words cs3 = words (padded_stream 16384) ∧
          ∀ x, words cs3 ≠ words (padded_stream 16384) ++ [RELOC_MARKER, x]) ∧
      ∃ cs3, cs_gem_write_reloc memory_late (padded_stream 16384) buffer_one 8 32 4 0 5 =
          some (cs3, 0) ∧
        cs3.crelocs = (padded_stream 16384).crelocs ∧
          words cs3 = words (padded_stream 16384) ++ [0] ∧
          ∀ x, words cs3 ≠ words (padded_stream 16384) ++ [RELOC_MARKER, x] := by
  have ht : table_ok (padded_stream 16384) := inv_stream_one.1
  have hj : first_match (padded_stream 16384) buffer_one.handle 0 := first_match_stream_one
  have hc : ¬ reloc_conflict (padded_stream 16384).relocs (6 * 0) 4 0 := no_conflict_stream_one
  have hh : handles (padded_stream 16384) = [1] := filled_stream_one.2.2.2.2.1
  have hlen : (padded_stream 16384).packets.length = 16384 := filled_stream_one.2.2.2.2.2.2.2
  have hno := write_reloc_merge_no_memory no_memory (padded_stream 16384) buffer_one 8 32 4 0 5
    0 (by decide) ht hj hc rfl rfl (Nat.le_refl _)
  have hk : capacity_ok (padded_stream 16384) :=
    ⟨Nat.le_refl _, hlen.symm, by decide, by decide⟩
  obtain ⟨cs3, l1, l2, l3⟩ := write_reloc_merge_memory_late memory_late (padded_stream 16384)
    buffer_one 8 32 4 0 5 0 (by decide) ht hj hc rfl rfl hk rfl (by decide)
  refine ⟨write_reloc_fresh_stream, words_stream_one, padded_run 16382 (by decide),
    reachable_padded_stream, rfl, hh, hno, ?_, cs3, l1, l3, l2, ?_⟩
  · intro cs3 h3
    rw [hno] at h3
    simp only [Option.some.injEq, Prod.mk.injEq, and_true] at h3
    subst h3
    refine ⟨rfl, ?_, rfl, ?_⟩
    · exact (handles_merged (padded_stream 16384) 0 8 32 4 0 5).trans hh
    · intro x hx
      have hx1 : words (padded_stream 16384) =
          words (padded_stream 16384) ++ [RELOC_MARKER, x] := hx
      have hl := congrArg List.length hx1
      rw [List.length_append] at hl
      simp only [List.length_cons, List.length_nil] at hl
      omega
  · intro x hx
    rw [l2] at hx
    have hl := congrArg List.length hx
    rw [List.length_append, List.length_append] at hl
    simp only [List.length_cons, List.length_nil] at hl
    omega

/-! ## C7: the merged entry -/

/-- C7: a call of `cs_gem_write_reloc` that returns 0 on the merge path, entry `j`
having the handle of the buffer, the range `[a0, b0]` and the masks `r0`, `w0`, and
the call passing the range `[so, eo]` and the domains `rd`, `wd`: afterwards entry `j`
has the same handle, `start_offset = min a0 so`, `end_offset = max b0 eo`,
`read_domain = r0 | rd`, `write_domain = w0 | wd`; every word of the table outside
record `j` is unchanged, and so is the entry count. -/
theorem write_reloc_merge_entry (a : reloc_allocs) (cs cs1 : cs_gem) (bo : radeon_bo)
    (so eo rd wd fl j a0 b0 r0 w0 : Nat) (ht : table_ok cs)
    (hj : first_match cs bo.handle j)
    (ha : cs.relocs[6 * j + 1]? = some a0) (hb : cs.relocs[6 * j + 2]? = some b0)
    (hr : cs.relocs[6 * j + 3]? = some r0) (hw : cs.relocs[6 * j + 4]? = some w0)
    (h : cs_gem_write_reloc a cs bo so eo rd wd fl = some (cs1, 0)) :
    cs1.relocs[6 * j]? = some bo.handle ∧
      cs1.relocs[6 * j + 1]? = some (min a0 so) ∧
      cs1.relocs[6 * j + 2]? = some (max b0 eo) ∧
      cs1.relocs[6 * j + 3]? = some (r0 ||| rd) ∧
      cs1.relocs[6 * j + 4]? = some (w0 ||| wd) ∧
      (∀ p, p < 6 * j ∨ 6 * j + 5 < p → cs1.relocs[p]? = cs.relocs[p]?) ∧
      cs1.crelocs = cs.crelocs := by
  obtain ⟨e1, e2, _⟩ := write_reloc_merge_effect _ _ _ _ _ _ _ _ _ _ ht hj h
  have hlen : 6 * j + 5 < cs.relocs.length := by
    unfold table_ok at ht; unfold first_match at hj; omega
  rw [e1]
  unfold merged
  rw [getD_of_getElem? _ _ _ ha, getD_of_getElem? _ _ _ hb, getD_of_getElem? _ _ _ hr,
    getD_of_getElem? _ _ _ hw]
  obtain ⟨m1, m2, m3, m4, _⟩ := getElem?_merge_record cs.relocs (6 * j) a0 b0 r0 w0
    (cs.relocs.getD (6 * j + 5) 0) so eo rd wd fl hlen ha hb
  refine ⟨?_, m1, m2, m3, m4, ?_, e2⟩
  · rw [getElem?_merge_record_other _ _ _ _ _ _ _ _ _ _ _ _ _ (Or.inl (by omega))]
    exact hj.2.1
  · intro p hp
    exact getElem?_merge_record_other _ _ _ _ _ _ _ _ _ _ _ _ _ (by omega)

/-- C7 (witness): entry 1 of `stream_two` has the range 16..32 and the masks 0 and
`0x4`; the second registration passes the range 0..64 and the write domain `0x2`. -/
theorem write_reloc_merge_entry_witness :
    table_ok stream_two ∧ first_match stream_two buffer_two.handle 1 ∧
      stream_two.relocs[6 * 1 + 1]? = some 16 ∧ stream_two.relocs[6 * 1 + 2]? = some 32 ∧
      stream_two.relocs[6 * 1 + 3]? = some 0 ∧ stream_two.relocs[6 * 1 + 4]? = some 4 ∧
      cs_gem_write_reloc all_ok stream_two buffer_two 0 64 0 2 3 =
        some (stream_two_merged, 0) ∧
      (stream_two_merged.relocs[6 * 1]? = some buffer_two.handle ∧
        stream_two_merged.relocs[6 * 1 + 1]? = some (min 16 0) ∧
        stream_two_merged.relocs[6 * 1 + 2]? = some (max 32 64) ∧
        stream_two_merged.relocs[6 * 1 + 3]? = some (0 ||| 0) ∧
        stream_two_merged.relocs[6 * 1 + 4]? = some (4 ||| 2) ∧
        (∀ p, p < 6 * 1 ∨ 6 * 1 + 5 < p →
          stream_two_merged.relocs[p]? = stream_two.relocs[p]?) ∧
        stream_two_merged.crelocs = stream_two.crelocs) :=
  ⟨inv_stream_two.1, first_match_stream_two, record_stream_two.2.1, record_stream_two.2.2.1,
    record_stream_two.2.2.2.1, record_stream_two.2.2.2.2.1, write_reloc_stream_two,
    write_reloc_merge_entry all_ok stream_two stream_two_merged buffer_two 0 64 0 2 3 1
      16 32 0 4 inv_stream_two.1 first_match_stream_two record_stream_two.2.1
      record_stream_two.2.2.1 record_stream_two.2.2.2.1 record_stream_two.2.2.2.2.1
      write_reloc_stream_two⟩

/-! ## C8: flags of a merged entry -/

/-- C8: on the merge path of `cs_gem_write_reloc` the flags word of the entry becomes
`f0 | (flags & f0)`, where `f0` is its value before the call; that value is `f0`: the
flags word is unchanged, whatever flags the call passes. For all values `e`, `f`,
`e | (f & e) = e`. -/
theorem write_reloc_merge_flags (a : reloc_allocs) (cs cs1 : cs_gem) (bo : radeon_bo)
    (so eo rd wd fl j f0 : Nat) (ht : table_ok cs) (hj : first_match cs bo.handle j)
    (hf : cs.relocs[6 * j + 5]? = some f0)
    (h : cs_gem_write_reloc a cs bo so eo rd wd fl = some (cs1, 0)) :
    cs1.relocs[6 * j + 5]? = some (f0 ||| (fl &&& f0)) ∧ f0 ||| (fl &&& f0) = f0 ∧
      cs1.relocs[6 * j + 5]? = cs.relocs[6 * j + 5]? ∧
      ∀ e f : Nat, e ||| (f &&& e) = e := by
  obtain ⟨e1, _⟩ := write_reloc_merge_effect _ _ _ _ _ _ _ _ _ _ ht hj h
  have hlen : 6 * j + 5 < cs.relocs.length := by
    unfold table_ok at ht; unfold first_match at hj; omega
  have hm : cs1.relocs[6 * j + 5]? = some (f0 ||| (fl &&& f0)) := by
    rw [e1]
    unfold merged
    rw [getD_of_getElem? _ _ _ hf]
    exact (getElem?_merge_record cs.relocs (6 * j) _ _ _ _ f0 so eo rd wd fl hlen
      (by rw [List.getD_eq_getElem?_getD, List.getElem?_eq_getElem (by omega)]; rfl)
      (by rw [List.getD_eq_getElem?_getD, List.getElem?_eq_getElem (by omega)]; rfl)).2.2.2.2
  refine ⟨hm, or_and_self _ _, ?_, or_and_self⟩
  rw [hm, hf, or_and_self]

/-- C8 (witness): entry 1 of `stream_two` has the flags 5; the second registration
passes the flags 3. -/
theorem write_reloc_merge_flags_witness :
    table_ok stream_two ∧ first_match stream_two buffer_two.handle 1 ∧
      stream_two.relocs[6 * 1 + 5]? = some 5 ∧
      cs_gem_write_reloc all_ok stream_two buffer_two 0 64 0 2 3 =
        some (stream_two_merged, 0) ∧
      (stream_two_merged.relocs[6 * 1 + 5]? = some (5 ||| (3 &&& 5)) ∧
        5 ||| (3 &&& 5) = 5 ∧
        stream_two_merged.relocs[6 * 1 + 5]? = stream_two.relocs[6 * 1 + 5]? ∧
        ∀ e f : Nat, e ||| (f &&& e) = e) :=
  ⟨inv_stream_two.1, first_match_stream_two, record_stream_two.2.2.2.2.2,
    write_reloc_stream_two,
    write_reloc_merge_flags all_ok stream_two stream_two_merged buffer_two 0 64 0 2 3 1 5
      inv_stream_two.1 first_match_stream_two record_stream_two.2.2.2.2.2
      write_reloc_stream_two⟩

/-! ## C9: the total of the referenced sizes -/

/-- C9 (counterexample): on a fresh stream, two buffers of 2 GiB with the distinct
handles 1 and 2 are registered successfully. The sum of their sizes is 4 GiB, above
32 MiB, yet `relocs_total_size` is 0 and `cs_gem_need_flush` returns 0. -/
theorem relocs_total_size_wraps :
    ((cs_gem_register_all fresh_stream big_requests).map fun cs =>
        (handles cs, cs.relocs_total_size, (cs_gem_need_flush cs).2)) =
      some ([1, 2], 0, 0) ∧
    33554432 < big_one.size + big_two.size ∧ big_one.size < U32 ∧ big_two.size < U32 := by
  obtain ⟨cs1, hc1, hf1, ht1⟩ := filled_step all_ok [] fresh_stream big_one 0 16 2 0 0
    (by decide) filled_fresh_stream (by decide) (by simp)
  obtain ⟨cs2, hc2, hf2, ht2⟩ := filled_step all_ok _ cs1 big_two 0 16 2 0 0
    (by decide) hf1 (by decide) (by decide)
  have e0 : fresh_stream.relocs_total_size = 0 := rfl
  have e2 : cs2.relocs_total_size = 0 := by
    rw [ht2, ht1, e0]
    decide
  refine ⟨?_, by decide, by decide, by decide⟩
  simp only [cs_gem_register_all, big_requests, hc1, hc2, if_true, Option.map_some',
    cs_gem_need_flush, e2, hf2.2.2.2.2.1]
  rfl

/-- C9 (amended): starting from a stream with no entries and `relocs_total_size = 0`
(a freshly created or an erased stream), after any sequence of calls of
`cs_gem_write_reloc` that all returned 0, the table has one entry for each distinct
handle registered, and `relocs_total_size` equals the sum of the sizes of the buffers
that brought these handles (a repeated registration adds nothing), reduced modulo
2^32; it equals the sum itself when the sum is below 2^32. `cs_gem_need_flush` returns
nonzero exactly when `relocs_total_size` exceeds 33554432, that is, when the sum is
below 2^32, exactly when the sum exceeds 32 MiB; it changes no state. -/
theorem relocs_total_size_sum (cs cs1 : cs_gem) (qs : List reloc_request) (hi : inv cs)
    (h0 : cs.crelocs = 0) (h1 : cs.relocs_total_size = 0)
    (h : cs_gem_register_all cs qs = some cs1) :
    handles cs1 = (first_buffers [] (qs.map fun q => q.bo)).map (fun bo => bo.handle) ∧
      cs1.relocs_total_size =
        ((first_buffers [] (qs.map fun q => q.bo)).map (fun bo => bo.size)).sum % U32 ∧
      (((first_buffers [] (qs.map fun q => q.bo)).map (fun bo => bo.size)).sum < U32 →
        cs1.relocs_total_size =
          ((first_buffers [] (qs.map fun q => q.bo)).map (fun bo => bo.size)).sum) ∧
      ((cs_gem_need_flush cs1).2 ≠ 0 ↔ 33554432 < cs1.relocs_total_size) ∧
      (((first_buffers [] (qs.map fun q => q.bo)).map (fun bo => bo.size)).sum < U32 →
        ((cs_gem_need_flush cs1).2 ≠ 0 ↔
          33554432 < ((first_buffers [] (qs.map fun q => q.bo)).map
            (fun bo => bo.size)).sum)) ∧
      (cs_gem_need_flush cs1).1 = cs1 := by
  have hh : handles cs = [] := by
    unfold handles
    rw [h0]
    rfl
  obtain ⟨r1, r2⟩ := register_all_total qs cs cs1 hi (by rw [h1]; unfold U32; omega) h
  rw [hh] at r1 r2
  rw [h1] at r2
  simp only [List.nil_append, Nat.zero_add] at r1 r2
  have hflush : (cs_gem_need_flush cs1).2 ≠ 0 ↔ 33554432 < cs1.relocs_total_size := by
    unfold cs_gem_need_flush
    dsimp only
    split
    · rename_i hgt
      constructor
      · intro _; omega
      · intro _; decide
    · rename_i hgt
      constructor
      · intro hne; exact absurd rfl hne
      · intro hlt; omega
  refine ⟨r1, r2, fun hlt => by rw [r2, Nat.mod_eq_of_lt hlt], hflush, ?_, rfl⟩
  intro hlt
  rw [hflush, r2, Nat.mod_eq_of_lt hlt]

/-- C9 (witness): on a fresh stream `buffer_one` is registered twice. -/
theorem relocs_total_size_sum_witness :
    inv fresh_stream ∧ fresh_stream.crelocs = 0 ∧ fresh_stream.relocs_total_size = 0 ∧
      cs_gem_register_all fresh_stream small_requests = some stream_one_merged ∧
      (handles stream_one_merged =
          (first_buffers [] (small_requests.map fun q => q.bo)).map (fun bo => bo.handle) ∧
        stream_one_merged.relocs_total_size =
          ((first_buffers [] (small_requests.map fun q => q.bo)).map
            (fun bo => bo.size)).sum % U32 ∧
        (((first_buffers [] (small_requests.map fun q => q.bo)).map
            (fun bo => bo.size)).sum < U32 →
          stream_one_merged.relocs_total_size =
            ((first_buffers [] (small_requests.map fun q => q.bo)).map
              (fun bo => bo.size)).sum) ∧
        ((cs_gem_need_flush stream_one_merged).2 ≠ 0 ↔
          33554432 < stream_one_merged.relocs_total_size) ∧
        (((first_buffers [] (small_requests.map fun q => q.bo)).map
            (fun bo => bo.size)).sum < U32 →
          ((cs_gem_need_flush stream_one_merged).2 ≠ 0 ↔
            33554432 < ((first_buffers [] (small_requests.map fun q => q.bo)).map
              (fun bo => bo.size)).sum)) ∧
        (cs_gem_need_flush stream_one_merged).1 = stream_one_merged) :=
  ⟨inv_fresh_stream, rfl, rfl, register_small_requests,
    relocs_total_size_sum fresh_stream stream_one_merged small_requests inv_fresh_stream rfl
      rfl register_small_requests⟩

/-! ## C10: appended words -/

/-- C10: a call of `cs_gem_write_dword(cs, w)` that returns 0 on a buffer holding
n = `cdw` words yields a buffer holding n + 1 words in which index n holds `w` and
every index below n holds the value it held before the call, whether or not the call
grew the storage. Hence after any sequence of appends that all returned 0 the words
of the buffer are the words it held before, followed by the appended words in order:
on an empty buffer, exactly the appended words. -/
theorem write_dword_appends (cs : cs_gem) (hs : stream_ok cs) :
    (∀ (ok : Bool) (w : Nat) (cs1 : cs_gem),
        cs_gem_write_dword ok cs w = some (cs1, 0) →
        cs1.cdw = cs.cdw + 1 ∧ cs1.packets[cs.cdw]? = some w ∧
          ∀ i, i < cs.cdw → cs1.packets[i]? = cs.packets[i]?) ∧
      (∀ (ws : List (Bool × Nat)) (cs1 : cs_gem),
        cs_gem_write_dwords cs ws = some cs1 →
        cs1.cdw = cs.cdw + ws.length ∧ words cs1 = words cs ++ ws.map Prod.snd ∧
          (cs.cdw = 0 → cs1.packets.take ws.length = ws.map Prod.snd)) := by
  constructor
  · intro ok w cs1 h
    obtain ⟨c, w1, s1⟩ := write_dword_ok _ _ _ _ hs h
    have hl := length_words cs hs
    have key : ∀ i, i < cs.cdw + 1 → cs1.packets[i]? = (words cs ++ [w])[i]? := by
      intro i hi
      rw [← w1]
      unfold words
      rw [List.getElem?_take, if_pos (by omega)]
    refine ⟨c, ?_, ?_⟩
    · rw [key _ (by omega), List.getElem?_append_right (by omega), hl, Nat.sub_self]
      rfl
    · intro i hi
      rw [key _ (by omega), List.getElem?_append_left (by omega)]
      unfold words
      rw [List.getElem?_take, if_pos hi]
  · intro ws cs1 h
    obtain ⟨c, w1⟩ := write_dwords_ok ws cs cs1 hs h
    refine ⟨c, w1, ?_⟩
    intro h0
    have e : words cs = [] := by
      unfold words
      rw [h0]
      rfl
    rw [e, List.nil_append] at w1
    rw [← w1]
    unfold words
    rw [c, h0, Nat.zero_add]

/-- C10 (witness): the word 9 is appended to a stream whose storage is full; the call
grows the storage. -/
theorem write_dword_appends_witness :
    stream_ok full_stream ∧
      cs_gem_write_dword true full_stream 9 = some (grown_stream, 0) ∧
      grown_stream.cdw = full_stream.cdw + 1 ∧
      grown_stream.packets[full_stream.cdw]? = some 9 ∧
      ∀ i, i < full_stream.cdw → grown_stream.packets[i]? = full_stream.packets[i]? :=
  ⟨stream_ok_full_stream, write_dword_full_stream,
    (write_dword_appends full_stream stream_ok_full_stream).1 true 9 grown_stream
      write_dword_full_stream⟩

/-! ## Capacity of the buffer -/

/-- An append that finds the buffer full and returns 0 has grown the capacity by 1024
words, and the size in bytes of the new storage is a 32-bit value. -/
theorem write_dword_grown (ok : Bool) (cs cs1 : cs_gem) (w : Nat) (hc : capacity_ok cs)
    (hfull : cs.cdw = cs.ndw) (h : cs_gem_write_dword ok cs w = some (cs1, 0)) :
    cs1.ndw = cs.cdw + 1024 ∧ cs.cdw + 1024 < 1073741824 := by
  obtain ⟨c1, c2, c3, c4⟩ := hc
  have hU : U32 = 4294967296 := rfl
  unfold cs_gem_write_dword at h
  rw [if_pos (by omega)] at h
  dsimp only at h
  split at h
  · simp only [Option.some.injEq, Prod.mk.injEq] at h
    exact absurd h.2 errno_ne.2.2.symm
  · rw [grown_capacity] at h
    have hlt := store_dword_bound _ _ _ _ h
    simp only at hlt
    rw [length_realloc, hU] at hlt
    obtain ⟨_, _, _, _, e5, _⟩ := store_dword_spec _ _ _ _ h (by
      show cs.cdw + 1 < U32
      rw [hU]; omega)
    simp only at e5
    rw [hU] at e5 c4
    constructor
    · rw [e5]; omega
    · omega

/-- The first `n` appends of the word 0 to a fresh stream, `n` at most 16384, return 0
and need no growth. -/
theorem zeros_run (n : Nat) (hn : n ≤ 16384) :
    cs_gem_run fresh_stream (List.replicate n (cs_call.write_dword true 0)) =
      some (zeros_stream n) := by
  induction n with
  | zero => rfl
  | succ n ih =>
    rw [List.replicate_succ', run_append, ih (by omega)]
    simp only [Option.some_bind, cs_gem_run, cs_gem_call]
    have hlen : (zeros_stream n).packets.length = 16384 := List.length_replicate _ _
    rw [write_dword_room true (zeros_stream n) 0 (show n < 16384 by omega)
      (by show n < (zeros_stream n).packets.length; rw [hlen]; omega)]
    dsimp only
    congr 1
    unfold cs_gem_stored zeros_stream
    have hU : U32 = 4294967296 := rfl
    have hp : fresh_stream.packets.set n 0 = fresh_stream.packets := List.set_replicate_self
    simp only [hp, Nat.mod_eq_of_lt (show n + 1 < U32 by rw [hU]; omega)]

/-- The stream whose 16384 words of storage are all written is reachable. -/
theorem reachable_full_stream : reachable full_stream :=
  reachable_run fresh_stream full_stream _ reachable_fresh_stream (zeros_run 16384 (le_refl _))

/-! ## Release of the references -/

/-- The fields of a stream, read from `unref_view`. -/
theorem fields_of_unref_view (cs cs1 : cs_gem) (h : unref_view cs1 = unref_view cs) :
    cs1.packets = cs.packets ∧ cs1.cdw = cs.cdw ∧ cs1.ndw = cs.ndw ∧
      cs1.section_ = cs.section_ ∧ cs1.crelocs = cs.crelocs ∧
      cs1.relocs_total_size = cs.relocs_total_size ∧ cs1.chunks0 = cs.chunks0 ∧
      cs1.chunks1 = cs.chunks1 ∧ cs1.nrelocs = cs.nrelocs ∧ cs1.relocs = cs.relocs ∧
      cs1.submitted = cs.submitted ∧ cs1.relocs_bo.length = cs.relocs_bo.length := by
  unfold unref_view at h
  simp only [Prod.mk.injEq] at h
  exact h

/-- The release loop of `cs_gem_emit` over slots that lie inside the reference array:
it passes the pointer of every slot to `radeon_bo_unref`, in order, and empties the
slot. -/
theorem emit_unref_spec : ∀ (n i : Nat) (cs : cs_gem), i + n ≤ cs.relocs_bo.length →
    ∃ cs1, cs_gem_emit_unref n i cs = some cs1 ∧
      cs1.bo_calls = cs.bo_calls ++ ((cs.relocs_bo.drop i).take n).map bo_call.unref ∧
      ∀ k, cs1.relocs_bo[k]? =
        if i ≤ k ∧ k < i + n then some none else cs.relocs_bo[k]? := by
  intro n
  induction n with
  | zero =>
    intro i cs _
    refine ⟨cs, rfl, by simp, ?_⟩
    intro k
    rw [if_neg (by omega)]
  | succ n ih =>
    intro i cs hb
    have hi : i < cs.relocs_bo.length := by omega
    unfold cs_gem_emit_unref
    rw [List.getElem?_eq_getElem hi]
    dsimp only
    obtain ⟨cs1, h1, h2, h3⟩ := ih (i + 1)
      { cs with
        bo_calls := cs.bo_calls ++ [bo_call.unref cs.relocs_bo[i]]
        relocs_bo := cs.relocs_bo.set i none }
      (by show i + 1 + n ≤ (cs.relocs_bo.set i none).length; rw [List.length_set]; omega)
    refine ⟨cs1, h1, ?_, ?_⟩
    · rw [h2]
      show cs.bo_calls ++ [bo_call.unref cs.relocs_bo[i]] ++
        (((cs.relocs_bo.set i none).drop (i + 1)).take n).map bo_call.unref = _
      rw [List.drop_set_of_lt _ _ (Nat.lt_succ_self i), List.drop_eq_getElem_cons hi,
        List.take_succ_cons, List.map_cons, List.append_assoc]
      rfl
    · intro k
      rw [h3 k]
      show (if i + 1 ≤ k ∧ k < i + 1 + n then some none
        else (cs.relocs_bo.set i none)[k]?) = _
      by_cases hk : k = i
      · subst hk
        rw [if_neg (by omega), if_pos (by omega), List.getElem?_set_self hi]
      · rw [List.getElem?_set_ne (Ne.symm hk)]
        by_cases hr : i + 1 ≤ k ∧ k < i + 1 + n
        · rw [if_pos hr, if_pos (by omega)]
        · rw [if_neg hr, if_neg (by omega)]

/-- The release loop of `cs_gem_erase` over slots that lie inside the reference array:
it passes the buffer of every slot that holds one to `radeon_bo_unref`, in order, and
empties the slot; it makes no call for an empty slot. -/
theorem erase_unref_spec : ∀ (n i : Nat) (cs : cs_gem), i + n ≤ cs.relocs_bo.length →
    ∃ cs1, cs_gem_erase_unref n i cs = some cs1 ∧
      cs1.bo_calls = cs.bo_calls ++
        (((cs.relocs_bo.drop i).take n).filterMap id).map (fun bo => bo_call.unref (some bo)) ∧
      ∀ k, cs1.relocs_bo[k]? =
        if i ≤ k ∧ k < i + n then some none else cs.relocs_bo[k]? := by
  intro n
  induction n with
  | zero =>
    intro i cs _
    refine ⟨cs, rfl, by simp, ?_⟩
    intro k
    rw [if_neg (by omega)]
  | succ n ih =>
    intro i cs hb
    have hi : i < cs.relocs_bo.length := by omega
    unfold cs_gem_erase_unref
    have hget := List.getElem?_eq_getElem hi
    rcases hp : cs.relocs_bo[i] with _ | bo
    · rw [hp] at hget
      rw [hget]
      dsimp only
      obtain ⟨cs1, h1, h2, h3⟩ := ih (i + 1) cs (by omega)
      refine ⟨cs1, h1, ?_, ?_⟩
      · rw [h2, List.drop_eq_getElem_cons hi, List.take_succ_cons, hp,
          List.filterMap_cons_none rfl]
      · intro k
        rw [h3 k]
        by_cases hk : k = i
        · subst hk
          rw [if_neg (by omega), if_pos (by omega), hget]
        · by_cases hr : i + 1 ≤ k ∧ k < i + 1 + n
          · rw [if_pos hr, if_pos (by omega)]
          · rw [if_neg hr, if_neg (by omega)]
    · rw [hp] at hget
      rw [hget]
      dsimp only
      obtain ⟨cs1, h1, h2, h3⟩ := ih (i + 1)
        { cs with
          bo_calls := cs.bo_calls ++ [bo_call.unref (some bo)]
          relocs_bo := cs.relocs_bo.set i none }
        (by show i + 1 + n ≤ (cs.relocs_bo.set i none).length; rw [List.length_set]; omega)
      refine ⟨cs1, h1, ?_, ?_⟩
      · rw [h2]
        show cs.bo_calls ++ [bo_call.unref (some bo)] ++
          ((((cs.relocs_bo.set i none).drop (i + 1)).take n).filterMap id).map
            (fun bo => bo_call.unref (some bo)) = _
        rw [List.drop_set_of_lt _ _ (Nat.lt_succ_self i), List.drop_eq_getElem_cons hi,
          List.take_succ_cons, hp, List.filterMap_cons_some (f := id) rfl, List.map_cons,
          List.append_assoc]
        rfl
      · intro k
        rw [h3 k]
        show (if i + 1 ≤ k ∧ k < i + 1 + n then some none
          else (cs.relocs_bo.set i none)[k]?) = _
        by_cases hk : k = i
        · subst hk
          rw [if_neg (by omega), if_pos (by omega), List.getElem?_set_self hi]
        · rw [List.getElem?_set_ne (Ne.symm hk)]
          by_cases hr : i + 1 ≤ k ∧ k < i + 1 + n
          · rw [if_pos hr, if_pos (by omega)]
          · rw [if_neg hr, if_neg (by omega)]

/-- The function `cs_gem_emit` on a stream whose slots in use lie inside the reference
array: it returns the result of the submission, records the submission, passes the
pointer of every slot in use to `radeon_bo_unref` and empties the slot. -/
theorem emit_spec (r : Int) (cs : cs_gem) (hb : cs.crelocs ≤ cs.relocs_bo.length) :
    ∃ cs1, cs_gem_emit r cs = some (cs1, r) ∧
      cs1.bo_calls = cs.bo_calls ++ (cs.relocs_bo.take cs.crelocs).map bo_call.unref ∧
      (∀ k, cs1.relocs_bo[k]? = if k < cs.crelocs then some none else cs.relocs_bo[k]?) ∧
      unref_view cs1 = unref_view
        { cs with
          chunks0 := { cs.chunks0 with length_dw := cs.cdw }
          submitted := cs.submitted ++
            [{ num_chunks := 2,
               chunks := [{ cs.chunks0 with length_dw := cs.cdw }, cs.chunks1] }] } := by
  obtain ⟨cs1, h1, h2, h3⟩ := emit_unref_spec cs.crelocs 0
    { cs with
      chunks0 := { cs.chunks0 with length_dw := cs.cdw }
      submitted := cs.submitted ++
        [{ num_chunks := 2,
           chunks := [{ cs.chunks0 with length_dw := cs.cdw }, cs.chunks1] }] }
    (by show 0 + cs.crelocs ≤ cs.relocs_bo.length; omega)
  refine ⟨cs1, ?_, ?_, ?_, emit_unref_frame _ _ _ _ h1⟩
  · unfold cs_gem_emit
    dsimp only
    rw [h1]
  · rw [h2]
    show cs.bo_calls ++ ((cs.relocs_bo.drop 0).take cs.crelocs).map bo_call.unref = _
    rw [List.drop_zero]
  · intro k
    rw [h3 k]
    show (if 0 ≤ k ∧ k < 0 + cs.crelocs then some none else cs.relocs_bo[k]?) = _
    by_cases hk : k < cs.crelocs
    · rw [if_pos (by omega), if_pos hk]
    · rw [if_neg (by omega), if_neg hk]

/-- The function `cs_gem_erase` on a stream whose slots in use lie inside the
reference array: it returns 0, releases the buffer of every slot in use that holds
one, empties these slots and resets the counters. -/
theorem erase_spec (cs : cs_gem) (hb : cs.crelocs ≤ cs.relocs_bo.length) :
    ∃ cs0 cs1, cs_gem_erase cs = some (cs1, 0) ∧
      cs1 = { cs0 with
              relocs_total_size := 0
              cdw := 0
              section_ := 0
              crelocs := 0
              chunks0 := { cs0.chunks0 with length_dw := 0 }
              chunks1 := { cs0.chunks1 with length_dw := 0 } } ∧
      unref_view cs0 = unref_view cs ∧
      cs0.bo_calls = cs.bo_calls ++
        ((cs.relocs_bo.take cs.crelocs).filterMap id).map (fun bo => bo_call.unref (some bo)) ∧
      (∀ k, cs0.relocs_bo[k]? = if k < cs.crelocs then some none else cs.relocs_bo[k]?) := by
  obtain ⟨cs0, h1, h2, h3⟩ := erase_unref_spec cs.crelocs 0 cs (by omega)
  refine ⟨cs0, _, ?_, rfl, erase_unref_frame _ _ _ _ h1, ?_, ?_⟩
  · unfold cs_gem_erase
    rw [h1]
  · rw [h2, List.drop_zero]
  · intro k
    rw [h3 k]
    by_cases hk : k < cs.crelocs
    · rw [if_pos (by omega), if_pos hk]
    · rw [if_neg (by omega), if_neg hk]

/-- Slots that are all empty hold no buffer. -/
theorem filterMap_take_empty (l : List (Option radeon_bo)) (n : Nat)
    (h : ∀ k, k < n → l[k]? = some none) : (l.take n).filterMap id = [] := by
  rw [List.filterMap_eq_nil_iff]
  intro p hp
  obtain ⟨k, hk, e⟩ := List.getElem_of_mem hp
  have hk1 : k < n := by
    rw [List.length_take] at hk; omega
  have e1 : (l.take n)[k]? = some p := by rw [List.getElem?_eq_getElem hk, e]
  rw [List.getElem?_take, if_pos hk1, h k hk1] at e1
  simp only [Option.some.injEq] at e1
  rw [← e1]
  rfl

/-- The stream in which `buffer_one` and `buffer_two` have been registered is
reachable. -/
theorem reachable_stream_two : reachable stream_two :=
  reachable.call stream_one (cs_call.write_reloc all_ok buffer_two 16 32 0 4 5) stream_two 0
    (reachable.call fresh_stream (cs_call.write_reloc all_ok buffer_one 0 16 2 0 0) stream_one 0
      reachable_fresh_stream write_reloc_fresh_stream)
    write_reloc_stream_one_new

/-- The counters and the slots in use of `stream_two`. -/
theorem slots_stream_two :
    stream_two.crelocs = 2 ∧ stream_two.cdw = 4 ∧ stream_two.relocs_bo.length = 256 ∧
      stream_two.relocs_bo.take 2 = [some buffer_one, some buffer_two] ∧
      stream_two.bo_calls = [bo_call.ref buffer_one, bo_call.ref buffer_two] := by
  refine ⟨rfl, rfl, filled_stream_two.2.2.2.1, ?_, rfl⟩
  show (((List.replicate 256 none).set 0 (some buffer_one)).set 1 (some buffer_two)).take 2 = _
  rfl

/-! ## Chunk descriptors -/

/-- The function `cs_gem_write_dword` does not change the tag of chunk 0. -/
theorem write_dword_chunk_id (ok : Bool) (cs cs1 : cs_gem) (w : Nat) (r : Int)
    (h : cs_gem_write_dword ok cs w = some (cs1, r)) :
    cs1.chunks0.chunk_id = cs.chunks0.chunk_id := by
  have key : ∀ (c c1 : cs_gem), cs_gem_store_dword c w = some (c1, r) →
      c1.chunks0.chunk_id = c.chunks0.chunk_id := by
    intro c c1 hc
    unfold cs_gem_store_dword at hc
    split at hc
    · simp only [Option.some.injEq, Prod.mk.injEq] at hc
      rw [← hc.1]
      rfl
    · simp at hc
  unfold cs_gem_write_dword at h
  split at h
  · split at h
    · simp only [Option.some.injEq, Prod.mk.injEq] at h
      rw [← h.1]
    · exact (key _ _ h).trans rfl
  · exact key _ _ h

/-- The in-stream reference does not change the tag of chunk 0. -/
theorem write_packet_chunk_id (a : reloc_allocs) (cs cs2 : cs_gem) (idx : Nat)
    (h : cs_gem_write_packet a cs idx = some cs2) :
    cs2.chunks0.chunk_id = cs.chunks0.chunk_id := by
  unfold cs_gem_write_packet at h
  split at h
  · simp at h
  · rename_i cs1 r1 h1
    split at h
    · simp at h
    · rename_i cs3 r2 h2
      simp only [Option.some.injEq] at h
      subst h
      exact (write_dword_chunk_id _ _ _ _ _ h2).trans (write_dword_chunk_id _ _ _ _ _ h1)

/-- Calls preserve the tags of the chunks and the length of chunk 1, on streams of
creation sizes. -/
theorem chunks_ok_call (cs cs1 : cs_gem) (c : cs_call) (r : Int) (hi : inv cs)
    (hs : creation_sized cs) (hc : chunks_ok cs) (h : cs_gem_call cs c = some (cs1, r)) :
    chunks_ok cs1 := by
  obtain ⟨k1, k2, k3⟩ := hc
  obtain ⟨c1, c2, c3, c4⟩ := hs
  cases c with
  | write_dword ok w =>
    obtain ⟨_, v2, _, _, _, v6, _⟩ := relocs_of_view _ _ (write_dword_view _ _ _ _ _ h)
    exact ⟨(write_dword_chunk_id _ _ _ _ _ h).trans k1, by rw [v6]; exact k2,
      by rw [v6, v2]; exact k3⟩
  | write_reloc a bo so eo rd wd fl =>
    have h0 : cs_gem_write_reloc a cs bo so eo rd wd fl = some (cs1, r) := h
    have hg0 := grow_not_full a cs (by omega)
    rcases write_reloc_cases _ _ _ _ _ _ _ _ _ _ hi.1 h0 with
      ⟨_, e, _⟩ | ⟨_, j, _, _, e, _⟩ | ⟨_, j, _, _, _, hp⟩ | ⟨_, _, e, hg⟩ |
      ⟨_, _, _, cs0, hg, _, b1, b2, hp⟩
    · rw [e]; exact ⟨k1, k2, k3⟩
    · rw [e]; exact ⟨k1, k2, k3⟩
    · obtain ⟨_, v2, _, _, _, v6, _⟩ := relocs_of_view _ _ (write_packet_view _ _ _ _ hp)
      exact ⟨(write_packet_chunk_id _ _ _ _ hp).trans k1, by rw [v6]; exact k2,
        by rw [v6, v2]; exact k3⟩
    · rw [hg0] at hg
      simp only [Prod.mk.injEq] at hg
      rw [e] at hg
      exact absurd hg.2 errno_ne.2.2
    · rw [hg0] at hg
      simp only [Prod.mk.injEq, and_true] at hg
      subst hg
      obtain ⟨_, v2, _, _, _, v6, _⟩ := relocs_of_view _ _ (write_packet_view _ _ _ _ hp)
      have hU : U32 = 4294967296 := rfl
      refine ⟨(write_packet_chunk_id _ _ _ _ hp).trans k1, by rw [v6]; exact k2, ?_⟩
      rw [v6, v2]
      show (cs.chunks1.length_dw + 6) % U32 = 6 * ((cs.crelocs + 1) % U32)
      rw [k3, Nat.mod_eq_of_lt (show 6 * cs.crelocs + 6 < U32 by rw [hU]; omega),
        Nat.mod_eq_of_lt (show cs.crelocs + 1 < U32 by rw [hU]; omega)]
      omega
  | emit r0 =>
    have h0 : cs_gem_emit r0 cs = some (cs1, r) := h
    unfold cs_gem_emit at h0
    dsimp only at h0
    split at h0
    · simp at h0
    · rename_i cs2 h2
      simp only [Option.some.injEq, Prod.mk.injEq] at h0
      rw [← h0.1]
      obtain ⟨_, _, _, _, f5, _, f7, f8, _⟩ :=
        fields_of_unref_view _ _ (emit_unref_frame _ _ _ _ h2)
      exact ⟨by rw [f7]; exact k1, by rw [f8]; exact k2, by rw [f8, f5]; exact k3⟩
  | erase =>
    have h0 : cs_gem_erase cs = some (cs1, r) := h
    unfold cs_gem_erase at h0
    split at h0
    · simp at h0
    · rename_i cs2 h2
      simp only [Option.some.injEq, Prod.mk.injEq] at h0
      rw [← h0.1]
      obtain ⟨_, _, _, _, _, _, f7, f8, _⟩ :=
        fields_of_unref_view _ _ (erase_unref_frame _ _ _ _ h2)
      exact ⟨by show cs2.chunks0.chunk_id = _; rw [f7]; exact k1,
        by show cs2.chunks1.chunk_id = _; rw [f8]; exact k2, rfl⟩

/-- In every reachable stream chunk 0 is tagged instruction stream, chunk 1 is tagged
relocation stream and its length is six words per entry of the table. -/
theorem reachable_chunks_ok (cs : cs_gem) (h : reachable cs) : chunks_ok cs := by
  induction h with
  | create a ndw cs hc =>
    unfold cs_gem_create at hc
    split at hc
    · simp at hc
    · split at hc
      · simp at hc
      · split at hc
        · simp at hc
        · split at hc
          · simp at hc
          · split at hc
            · simp at hc
            · simp only [Option.some.injEq] at hc
              subst hc
              exact ⟨rfl, rfl, rfl⟩
  | call cs c cs1 r hr hc ih =>
    exact chunks_ok_call _ _ _ _ (reachable_creation_sized _ hr).1
      (reachable_creation_sized _ hr).2 ih hc

/-! ## Fields of a packet header -/

/-- The type field of a header is its bits 31:30. -/
theorem packet_type_bits (h : Nat) : CP_PACKET_GET_TYPE h = h / 1073741824 % 4 := by
  unfold CP_PACKET_GET_TYPE
  rw [Nat.shiftRight_eq_div_pow, show (3 : Nat) = 2 ^ 2 - 1 by decide,
    Nat.and_pow_two_sub_one_eq_mod]

/-- The count field of a header is its bits 29:16. -/
theorem packet_count_bits (h : Nat) : CP_PACKET_GET_COUNT h = h / 65536 % 16384 := by
  unfold CP_PACKET_GET_COUNT
  rw [Nat.shiftRight_eq_div_pow, show (0x3FFF : Nat) = 2 ^ 14 - 1 by decide,
    Nat.and_pow_two_sub_one_eq_mod]

/-- The register address of a type-0 header is its bits 12:0, shifted left by 2. -/
theorem packet0_reg_bits (h : Nat) : CP_PACKET0_GET_REG h = h % 8192 * 4 := by
  unfold CP_PACKET0_GET_REG
  rw [show (0x1FFF : Nat) = 2 ^ 13 - 1 by decide, Nat.and_pow_two_sub_one_eq_mod,
    Nat.shiftLeft_eq]
  have hU : U32 = 4294967296 := rfl
  have h13 : (2 : Nat) ^ 13 = 8192 := by decide
  have h2 : (2 : Nat) ^ 2 = 4 := by decide
  rw [h13, h2, hU]
  omega

/-- The flag of a type-0 header is its bit 15. -/
theorem packet0_one_reg_bits (h : Nat) : CP_PACKET0_GET_ONE_REG_WR h = h / 32768 % 2 := by
  unfold CP_PACKET0_GET_ONE_REG_WR
  rw [Nat.shiftRight_eq_div_pow, show (1 : Nat) = 2 ^ 1 - 1 by decide,
    Nat.and_pow_two_sub_one_eq_mod]

/-- The opcode of a type-3 header is its bits 15:8. -/
theorem packet3_opcode_bits (h : Nat) : CP_PACKET3_GET_OPCODE h = h / 256 % 256 := by
  unfold CP_PACKET3_GET_OPCODE
  rw [Nat.shiftRight_eq_div_pow, show (0xFF : Nat) = 2 ^ 8 - 1 by decide,
    Nat.and_pow_two_sub_one_eq_mod]

/-- The opcodes the decoder names. -/
theorem print_opcode_none (opcode : Nat) :
    cs_gem_print_opcode opcode = none ↔
      opcode ∉ [PACKET3_NOP, PACKET3_3D_DRAW_VBUF, PACKET3_3D_DRAW_IMMD,
        PACKET3_3D_DRAW_INDX, PACKET3_3D_LOAD_VBPNTR, PACKET3_INDX_BUFFER,
        PACKET3_3D_DRAW_VBUF_2, PACKET3_3D_DRAW_IMMD_2, PACKET3_3D_DRAW_INDX_2] := by
  simp only [List.mem_cons, List.mem_singleton, List.not_mem_nil, or_false, not_or]
  constructor
  · intro h
    refine ⟨?_, ?_, ?_, ?_, ?_, ?_, ?_, ?_, ?_⟩ <;> intro e <;> rw [e] at h <;>
      exact absurd h (by decide)
  · rintro ⟨h1, h2, h3, h4, h5, h6, h7, h8, h9⟩
    unfold cs_gem_print_opcode
    rw [if_neg h1, if_neg h2, if_neg h3, if_neg h4, if_neg h5, if_neg h6, if_neg h7,
      if_neg h8, if_neg h9]

/-! ## The loops of cs_gem_print -/

/-- The loop ends when the index has reached `cdw`. -/
theorem print_loop_end (packets : List Nat) (cdw i : Nat) (out : List print_line)
    (hi : ¬ i < cdw) : cs_gem_print_loop packets cdw i out = some out := by
  rw [cs_gem_print_loop.eq_1, if_neg hi]

/-- A header outside the storage: the read is a memory fault. -/
theorem print_loop_fault (packets : List Nat) (cdw i : Nat) (out : List print_line)
    (hi : i < cdw) (hp : packets.length ≤ i) : cs_gem_print_loop packets cdw i out = none := by
  rw [cs_gem_print_loop.eq_1, if_pos hi]
  split
  · rfl
  · rename_i h heq
    rw [List.getElem?_eq_none hp] at heq
    exact absurd heq (by simp)

/-- A type-0 header: the header line, the words of the packet, then the loop again. -/
theorem print_loop_packet0 (packets : List Nat) (cdw i h : Nat) (out : List print_line)
    (hi : i < cdw) (hp : packets[i]? = some h) (ht : CP_PACKET_GET_TYPE h = PACKET_TYPE0) :
    cs_gem_print_loop packets cdw i out =
      (cs_gem_print_packet0 packets h (CP_PACKET_GET_COUNT h) (i + 1)
        (out ++ [print_line.pkt0 i (CP_PACKET_GET_COUNT h + 1)])).bind
        fun q => cs_gem_print_loop packets cdw q.1 q.2 := by
  rw [cs_gem_print_loop.eq_1, if_pos hi]
  split
  · rename_i heq
    rw [hp] at heq
    exact absurd heq (by simp)
  · rename_i h1 heq
    rw [hp] at heq
    cases heq
    dsimp only
    rw [if_pos ht]
    split <;> rename_i hb <;> rw [hb] <;> rfl

/-- A type-3 header whose opcode has no name: the header line, then the diagnostic,
and the function returns. -/
theorem print_loop_unknow_opcode (packets : List Nat) (cdw i h : Nat) (out : List print_line)
    (hi : i < cdw) (hp : packets[i]? = some h) (ht : CP_PACKET_GET_TYPE h = PACKET_TYPE3)
    (ho : cs_gem_print_opcode (CP_PACKET3_GET_OPCODE h) = none) :
    cs_gem_print_loop packets cdw i out =
      some (out ++ [print_line.pkt3 i] ++
        [print_line.unknow_opcode (CP_PACKET3_GET_OPCODE h) (i + 1)]) := by
  have h0 : ¬ CP_PACKET_GET_TYPE h = PACKET_TYPE0 := by
    rw [ht]; unfold PACKET_TYPE3 PACKET_TYPE0; decide
  rw [cs_gem_print_loop.eq_1, if_pos hi]
  split
  · rename_i heq
    rw [hp] at heq
    exact absurd heq (by simp)
  · rename_i h1 heq
    rw [hp] at heq
    cases heq
    dsimp only
    rw [if_neg h0, if_pos ht]
    split
    · rfl
    · rename_i text heq
      rw [ho] at heq
      exact absurd heq (by simp)

/-- A type-3 header whose opcode has a name: the header line, the name, the words of
the packet, then the loop again. -/
theorem print_loop_packet3 (packets : List Nat) (cdw i h : Nat) (out : List print_line)
    (text : String)
    (hi : i < cdw) (hp : packets[i]? = some h) (ht : CP_PACKET_GET_TYPE h = PACKET_TYPE3)
    (ho : cs_gem_print_opcode (CP_PACKET3_GET_OPCODE h) = some text) :
    cs_gem_print_loop packets cdw i out =
      (cs_gem_print_body packets (CP_PACKET_GET_COUNT h + 1) (i + 1)
        (out ++ [print_line.pkt3 i] ++ [print_line.opcode_name text])).bind
        fun q => cs_gem_print_loop packets cdw q.1 q.2 := by
  have h0 : ¬ CP_PACKET_GET_TYPE h = PACKET_TYPE0 := by
    rw [ht]; unfold PACKET_TYPE3 PACKET_TYPE0; decide
  rw [cs_gem_print_loop.eq_1, if_pos hi]
  split
  · rename_i heq
    rw [hp] at heq
    exact absurd heq (by simp)
  · rename_i h1 heq
    rw [hp] at heq
    cases heq
    dsimp only
    rw [if_neg h0, if_pos ht]
    split
    · rename_i heq
      rw [ho] at heq
      exact absurd heq (by simp)
    · rename_i text1 heq
      rw [ho] at heq
      cases heq
      split <;> rename_i hb <;> rw [hb] <;> rfl

/-- A header of type 1 or 2: the diagnostic, and the function returns. -/
theorem print_loop_unknow_packet (packets : List Nat) (cdw i h : Nat) (out : List print_line)
    (hi : i < cdw) (hp : packets[i]? = some h) (h0 : CP_PACKET_GET_TYPE h ≠ PACKET_TYPE0)
    (h3 : CP_PACKET_GET_TYPE h ≠ PACKET_TYPE3) :
    cs_gem_print_loop packets cdw i out = some (out ++ [print_line.unknow_packet h i]) := by
  rw [cs_gem_print_loop.eq_1, if_pos hi]
  split
  · rename_i heq
    rw [hp] at heq
    exact absurd heq (by simp)
  · rename_i h1 heq
    rw [hp] at heq
    cases heq
    dsimp only
    rw [if_neg h0, if_neg h3]

/-- The word at an index inside the storage. -/
theorem getElem?_getD (l : List Nat) (i : Nat) (h : i < l.length) :
    l[i]? = some (l.getD i 0) := by
  rw [List.getD_eq_getElem?_getD, List.getElem?_eq_getElem h]
  rfl

/-- The lines of `n` words from index `i`, line `j` made by `f j` from word `i + j`. -/
theorem range_map_succ {β : Type} (n : Nat) (g : Nat → β) :
    (List.range (n + 1)).map g = g 0 :: (List.range n).map (fun j => g (j + 1)) := by
  rw [List.range_succ_eq_map, List.map_cons, List.map_map]
  rfl

/-- The loop over the words of one register, when the words lie inside the storage. -/
theorem print_one_reg_spec (packets : List Nat) (reg : Nat) :
    ∀ (n i : Nat) (out : List print_line), i + n ≤ packets.length →
      cs_gem_print_one_reg packets reg n i out =
        some (i + n, out ++ (List.range n).map
          (fun j => print_line.reg_write (packets.getD (i + j) 0) reg)) := by
  intro n
  induction n with
  | zero =>
    intro i out _
    unfold cs_gem_print_one_reg
    simp
  | succ n ih =>
    intro i out hb
    unfold cs_gem_print_one_reg
    rw [getElem?_getD packets i (by omega)]
    dsimp only
    rw [ih (i + 1) _ (by omega), range_map_succ, List.append_assoc]
    simp only [List.singleton_append, Nat.add_zero, Option.some.injEq, Prod.mk.injEq]
    refine ⟨by omega, ?_⟩
    congr 2
    apply List.map_congr_left
    intro j _
    congr 2
    omega

/-- The loop over the words of successive registers, when the words lie inside the
storage and the register addresses stay below 2^32. -/
theorem print_regs_spec (packets : List Nat) :
    ∀ (n i reg : Nat) (out : List print_line), i + n ≤ packets.length →
      reg + 4 * n < U32 →
      cs_gem_print_regs packets n i reg out =
        some (i + n, out ++ (List.range n).map
          (fun j => print_line.reg_write (packets.getD (i + j) 0) (reg + 4 * j))) := by
  intro n
  induction n with
  | zero =>
    intro i reg out _ _
    unfold cs_gem_print_regs
    simp
  | succ n ih =>
    intro i reg out hb hr
    have hU : U32 = 4294967296 := rfl
    unfold cs_gem_print_regs
    rw [getElem?_getD packets i (by omega)]
    dsimp only
    rw [Nat.mod_eq_of_lt (by omega), ih (i + 1) _ _ (by omega) (by omega), range_map_succ,
      List.append_assoc]
    simp only [List.singleton_append, Nat.add_zero, Nat.mul_zero, Option.some.injEq,
      Prod.mk.injEq]
    refine ⟨by omega, ?_⟩
    congr 2
    apply List.map_congr_left
    intro j _
    congr 1
    · congr 1; omega
    · omega

/-- The loop over the words of an opcode packet, when the words lie inside the
storage. -/
theorem print_body_spec (packets : List Nat) :
    ∀ (n i : Nat) (out : List print_line), i + n ≤ packets.length →
      cs_gem_print_body packets n i out =
        some (i + n, out ++ (List.range n).map
          (fun j => print_line.body (packets.getD (i + j) 0))) := by
  intro n
  induction n with
  | zero =>
    intro i out _
    unfold cs_gem_print_body
    simp
  | succ n ih =>
    intro i out hb
    unfold cs_gem_print_body
    rw [getElem?_getD packets i (by omega)]
    dsimp only
    rw [ih (i + 1) _ (by omega), range_map_succ, List.append_assoc]
    simp only [List.singleton_append, Nat.add_zero, Option.some.injEq, Prod.mk.injEq]
    refine ⟨by omega, ?_⟩
    congr 2
    apply List.map_congr_left
    intro j _
    congr 2
    omega

/-- A loop over words that do not all lie inside the storage runs into a memory
fault, whichever of the two register loops it is. -/
theorem print_packet0_fault (packets : List Nat) (h cnt : Nat) :
    ∀ (i : Nat) (out : List print_line), i ≤ packets.length →
      packets.length < i + (cnt + 1) →
      cs_gem_print_packet0 packets h cnt i out = none := by
  have key : ∀ (n i reg : Nat) (out : List print_line), i ≤ packets.length →
      packets.length < i + n →
      cs_gem_print_one_reg packets reg n i out = none ∧
        cs_gem_print_regs packets n i reg out = none := by
    intro n
    induction n with
    | zero => intro i reg out h1 h2; omega
    | succ n ih =>
      intro i reg out h1 h2
      unfold cs_gem_print_one_reg cs_gem_print_regs
      by_cases hi : i < packets.length
      · rw [getElem?_getD packets i hi]
        exact ⟨(ih (i + 1) _ _ (by omega) (by omega)).1,
          (ih (i + 1) _ _ (by omega) (by omega)).2⟩
      · rw [List.getElem?_eq_none (by omega)]
        exact ⟨rfl, rfl⟩
  intro i out h1 h2
  unfold cs_gem_print_packet0
  split
  · exact (key _ _ _ _ h1 h2).1
  · exact (key _ _ _ _ h1 h2).2

/-- The stream `header_stream` is the fresh stream after one append. -/
theorem write_dword_header_stream :
    cs_gem_write_dword true fresh_stream 0x3FFF0000 = some (header_stream, 0) :=
  write_dword_room true fresh_stream 0x3FFF0000 (by decide)
    (by show 0 < (List.replicate 16384 0).length; rw [List.length_replicate]; decide)

/-- The stream `stale_stream` is the fresh stream after three appends and an erase. -/
theorem run_stale_stream :
    cs_gem_run fresh_stream [cs_call.write_dword true 0, cs_call.write_dword true 7,
      cs_call.erase, cs_call.write_dword true 0] = some stale_stream := by
  have hlen : fresh_stream.packets.length = 16384 := List.length_replicate _ _
  have h1 : cs_gem_write_dword true fresh_stream 0 = some (cs_gem_stored fresh_stream 0, 0) :=
    write_dword_room _ _ _ (by decide) (by rw [hlen]; decide)
  have h2 : cs_gem_write_dword true (cs_gem_stored fresh_stream 0) 7 =
      some (cs_gem_stored (cs_gem_stored fresh_stream 0) 7, 0) :=
    write_dword_room _ _ _ (by decide) (by
      show 1 % U32 < (fresh_stream.packets.set 0 0).length
      rw [List.length_set, hlen]; decide)
  have h3 : cs_gem_erase (cs_gem_stored (cs_gem_stored fresh_stream 0) 7) =
      some ({ cs_gem_stored (cs_gem_stored fresh_stream 0) 7 with
        relocs_total_size := 0
        cdw := 0
        section_ := 0
        crelocs := 0
        chunks0 := { chunk_id := RADEON_CHUNK_ID_IB, length_dw := 0 }
        chunks1 := { chunk_id := RADEON_CHUNK_ID_RELOCS, length_dw := 0 } }, 0) := rfl
  have h4 : cs_gem_write_dword true
      { cs_gem_stored (cs_gem_stored fresh_stream 0) 7 with
        relocs_total_size := 0
        cdw := 0
        section_ := 0
        crelocs := 0
        chunks0 := { chunk_id := RADEON_CHUNK_ID_IB, length_dw := 0 }
        chunks1 := { chunk_id := RADEON_CHUNK_ID_RELOCS, length_dw := 0 } } 0 =
      some (stale_stream, 0) :=
    write_dword_room _ _ _ (by decide) (by
      show 0 < ((fresh_stream.packets.set 0 0).set (1 % U32) 7).length
      rw [List.length_set, List.length_set, hlen]; decide)
  simp only [cs_gem_run, cs_gem_call, h1, h2, h3, h4]

/-! ## C11: capacity of the buffer -/

/-- C11: in every state reachable from `cs_gem_create` by `cs_gem_write_dword`,
`cs_gem_write_reloc`, `cs_gem_emit` and `cs_gem_erase` calls, the capacity `ndw` is a
multiple of 1024 and `cdw ≤ ndw`. An append that finds `cdw = ndw` and returns 0 leaves
the capacity `(cdw + 1 + 0x3FF) & ~0x3FF`, which is the smallest multiple of 1024
strictly greater than `cdw`; such an append returns 0 when its `realloc` succeeds and
the new storage has fewer than 2^30 words. -/
theorem reachable_capacity (cs : cs_gem) (hr : reachable cs) :
    cs.ndw % 1024 = 0 ∧ cs.cdw ≤ cs.ndw ∧
      (∀ (ok : Bool) (w : Nat) (cs1 : cs_gem), cs.cdw = cs.ndw →
        cs_gem_write_dword ok cs w = some (cs1, 0) →
        cs1.ndw = (cs.cdw + 1 + 0x3FF) &&& 0xFFFFFC00 ∧
          cs1.ndw % 1024 = 0 ∧ cs.cdw < cs1.ndw ∧
          ∀ m, m % 1024 = 0 → cs.cdw < m → cs1.ndw ≤ m) ∧
      (∀ w : Nat, cs.cdw = cs.ndw → cs.cdw + 1024 < 1073741824 →
        ∃ cs1, cs_gem_write_dword true cs w = some (cs1, 0)) := by
  have hc := reachable_capacity_ok cs hr
  have hcc := hc
  obtain ⟨c1, c2, c3, c4⟩ := hcc
  have hU : U32 = 4294967296 := rfl
  refine ⟨c3, c1, ?_, ?_⟩
  · intro ok w cs1 hfull h
    obtain ⟨e1, e2⟩ := write_dword_grown ok cs cs1 w hc hfull h
    have hm := grown_capacity cs.cdw
    rw [Nat.mod_eq_of_lt (by rw [hU]; omega)] at hm
    refine ⟨?_, ?_, ?_, ?_⟩
    · rw [hm, e1]; omega
    · rw [e1]; omega
    · rw [e1]; omega
    · intro m hm1 hm2
      rw [e1]; omega
  · intro w hfull hsmall
    exact write_dword_total true cs w hc (Or.inr ⟨rfl, hsmall⟩)

/-- C11 (witness): the stream whose 16384 words of storage are all written is
reachable; the append of the word 9 to it leaves the capacity 17408. -/
theorem reachable_capacity_witness :
    reachable full_stream ∧ full_stream.cdw = full_stream.ndw ∧
      cs_gem_write_dword true full_stream 9 = some (grown_stream, 0) ∧
      full_stream.ndw % 1024 = 0 ∧ full_stream.cdw ≤ full_stream.ndw ∧
      grown_stream.ndw = (full_stream.cdw + 1 + 0x3FF) &&& 0xFFFFFC00 ∧
      grown_stream.ndw = 17408 ∧
      grown_stream.ndw % 1024 = 0 ∧ full_stream.cdw < grown_stream.ndw ∧
      ∀ m, m % 1024 = 0 → full_stream.cdw < m → grown_stream.ndw ≤ m :=
  ⟨reachable_full_stream, rfl, write_dword_full_stream,
    (reachable_capacity full_stream reachable_full_stream).1,
    (reachable_capacity full_stream reachable_full_stream).2.1,
    ((reachable_capacity full_stream reachable_full_stream).2.2.1 true 9 grown_stream rfl
      write_dword_full_stream).1, rfl,
    ((reachable_capacity full_stream reachable_full_stream).2.2.1 true 9 grown_stream rfl
      write_dword_full_stream).2⟩

/-! ## C12: creation -/

/-- C12: `cs_gem_create` returns no stream for every requested word count above
16384, and when an allocation fails. For every requested count of at most 16384, 0
included, when its allocations succeed, it returns a stream with a capacity of 16384
words, no word written, no entry in the table, `relocs_total_size = 0`, and two chunks
of length 0, chunk 0 tagged instruction stream and chunk 1 tagged relocation
stream. -/
theorem create_result (a : create_allocs) (ndw : Nat) :
    (16384 < ndw → cs_gem_create a ndw = none) ∧
      (a.csg_ok = false ∨ a.packets_ok = false ∨ a.relocs_bo_ok = false ∨
          a.relocs_ok = false → cs_gem_create a ndw = none) ∧
      (ndw ≤ 16384 → a.csg_ok = true → a.packets_ok = true → a.relocs_bo_ok = true →
        a.relocs_ok = true →
        ∃ cs, cs_gem_create a ndw = some cs ∧ cs.ndw = 16384 ∧ cs.packets.length = 16384 ∧
          cs.cdw = 0 ∧ cs.crelocs = 0 ∧ cs.relocs_total_size = 0 ∧
          cs.chunks0 = { chunk_id := RADEON_CHUNK_ID_IB, length_dw := 0 } ∧
          cs.chunks1 = { chunk_id := RADEON_CHUNK_ID_RELOCS, length_dw := 0 } ∧
          cs = fresh_stream) := by
  refine ⟨?_, ?_, ?_⟩
  · intro h
    unfold cs_gem_create
    rw [if_pos (by omega)]
  · intro h
    unfold cs_gem_create
    split_ifs
    · rfl
    · rfl
    · rfl
    · rfl
    · rfl
    · rename_i g1 g2 g3 g4
      rcases h with h | h | h | h
      · exact absurd h g1
      · exact absurd h g2
      · exact absurd h g3
      · exact absurd h g4
  · intro h h1 h2 h3 h4
    refine ⟨fresh_stream, ?_, rfl, List.length_replicate _ _, rfl, rfl, rfl, rfl, rfl, rfl⟩
    unfold cs_gem_create
    rw [if_neg (by omega), if_neg (by rw [h1]; decide), if_neg (by rw [h2]; decide),
      if_neg (by rw [h3]; decide), if_neg (by rw [h4]; decide)]
    rfl

/-- C12 (instances): a request of 16385 words gives no stream; a request of 0 words and
a request of 16384 words give the stream `fresh_stream`, whose capacity is 16384
words. -/
theorem create_result_witness :
    cs_gem_create { csg_ok := true, packets_ok := true, relocs_bo_ok := true, relocs_ok := true }
        16385 = none ∧
      cs_gem_create { csg_ok := true, packets_ok := true, relocs_bo_ok := true, relocs_ok := true }
        0 = some fresh_stream ∧
      cs_gem_create { csg_ok := true, packets_ok := true, relocs_bo_ok := true, relocs_ok := true }
        16384 = some fresh_stream ∧
      fresh_stream.ndw = 16384 ∧ fresh_stream.cdw = 0 ∧ fresh_stream.crelocs = 0 ∧
      fresh_stream.relocs_total_size = 0 ∧
      fresh_stream.chunks0 = { chunk_id := RADEON_CHUNK_ID_IB, length_dw := 0 } ∧
      fresh_stream.chunks1 = { chunk_id := RADEON_CHUNK_ID_RELOCS, length_dw := 0 } := by
  obtain ⟨cs0, h0, _, _, _, _, _, _, _, e0⟩ :=
    (create_result { csg_ok := true, packets_ok := true, relocs_bo_ok := true, relocs_ok := true }
      0).2.2 (by decide) rfl rfl rfl rfl
  obtain ⟨cs1, h1, g1, _, g3, g4, g5, g6, g7, e1⟩ :=
    (create_result { csg_ok := true, packets_ok := true, relocs_bo_ok := true, relocs_ok := true }
      16384).2.2 (by decide) rfl rfl rfl rfl
  subst e0
  subst e1
  exact ⟨(create_result _ 16385).1 (by decide), h0, h1, g1, g3, g4, g5, g6, g7⟩

/-! ## C13: cs_gem_erase -/

/-- C13: on every stream whose slots in use lie inside the reference array (every
reachable stream), `cs_gem_erase` returns 0 and sets `cdw`, `crelocs`,
`relocs_total_size` and both chunk lengths to 0; it leaves the capacity `ndw`, the
words, the capacity `nrelocs` of the table, its records and the size of the reference
array unchanged; it releases exactly the references the table still holds, one
release for each slot below `crelocs` that holds a buffer, in order, and none for an
empty slot; the slots below `crelocs` are empty afterwards. So `cs_gem_emit` followed by
`cs_gem_erase` passes each slot in use to `radeon_bo_unref` exactly once, in
`cs_gem_emit`: the erase that follows makes no call. -/
theorem erase_effect (cs : cs_gem) (hb : cs.crelocs ≤ cs.relocs_bo.length) :
    ∃ cs1, cs_gem_erase cs = some (cs1, 0) ∧
      cs1.cdw = 0 ∧ cs1.crelocs = 0 ∧ cs1.relocs_total_size = 0 ∧
      cs1.chunks0.length_dw = 0 ∧ cs1.chunks1.length_dw = 0 ∧
      cs1.ndw = cs.ndw ∧ cs1.packets = cs.packets ∧ cs1.nrelocs = cs.nrelocs ∧
      cs1.relocs = cs.relocs ∧ cs1.relocs_bo.length = cs.relocs_bo.length ∧
      cs1.bo_calls = cs.bo_calls ++
        ((cs.relocs_bo.take cs.crelocs).filterMap id).map (fun bo => bo_call.unref (some bo)) ∧
      (∀ k, k < cs.crelocs → cs1.relocs_bo[k]? = some none) ∧
      ∀ r : Int, ∃ cs2 cs3, cs_gem_emit r cs = some (cs2, r) ∧
        cs_gem_erase cs2 = some (cs3, 0) ∧
        cs2.bo_calls = cs.bo_calls ++ (cs.relocs_bo.take cs.crelocs).map bo_call.unref ∧
        cs3.bo_calls = cs2.bo_calls := by
  obtain ⟨cs0, cs1, h1, h2, h3, h4, h5⟩ := erase_spec cs hb
  obtain ⟨f1, _, f3, _, _, _, _, _, f9, f10, _, f12⟩ := fields_of_unref_view _ _ h3
  subst h2
  refine ⟨_, h1, rfl, rfl, rfl, rfl, rfl, f3, f1, f9, f10, f12, h4, ?_, ?_⟩
  · intro k hk
    show cs0.relocs_bo[k]? = _
    rw [h5 k, if_pos hk]
  · intro r
    obtain ⟨cs2, g1, g2, g3, g4⟩ := emit_spec r cs hb
    obtain ⟨_, _, _, _, e5, _, _, _, _, _, _, e12⟩ := fields_of_unref_view _ _ g4
    have e5c : cs2.crelocs = cs.crelocs := e5
    have e12c : cs2.relocs_bo.length = cs.relocs_bo.length := e12
    obtain ⟨cs4, cs3, i1, i2, _, i4, _⟩ := erase_spec cs2 (by rw [e5c, e12c]; exact hb)
    refine ⟨cs2, cs3, g1, i1, g2, ?_⟩
    subst i2
    show cs4.bo_calls = cs2.bo_calls
    rw [i4, filterMap_take_empty _ _ (by
        intro k hk
        rw [g3 k, if_pos (by rw [← e5c]; exact hk)])]
    simp

/-- C13 (witness): on the stream in which `buffer_one` and `buffer_two` have been
registered, `cs_gem_erase` releases the two buffers, once each. -/
theorem erase_effect_witness :
    stream_two.crelocs ≤ stream_two.relocs_bo.length ∧
      ∃ cs1, cs_gem_erase stream_two = some (cs1, 0) ∧
        cs1.cdw = 0 ∧ cs1.crelocs = 0 ∧ cs1.relocs_total_size = 0 ∧
        cs1.ndw = stream_two.ndw ∧ cs1.nrelocs = stream_two.nrelocs ∧
        cs1.bo_calls = [bo_call.ref buffer_one, bo_call.ref buffer_two,
          bo_call.unref (some buffer_one), bo_call.unref (some buffer_two)] := by
  have hb : stream_two.crelocs ≤ stream_two.relocs_bo.length := by
    rw [slots_stream_two.1, slots_stream_two.2.2.1]; decide
  obtain ⟨cs1, h1, h2, h3, h4, _, _, h7, _, h9, _, _, h12, _⟩ := erase_effect stream_two hb
  refine ⟨hb, cs1, h1, h2, h3, h4, h7, h9, ?_⟩
  rw [h12, slots_stream_two.1, slots_stream_two.2.2.2.1, slots_stream_two.2.2.2.2]
  rfl

/-! ## C14: the submitted chunks -/

/-- C14: in every reachable state, the descriptor that `cs_gem_emit` hands to the
submission channel lists exactly two chunks: first chunk 0, tagged instruction stream,
with `length_dw = cdw`, then chunk 1, tagged relocation stream, with
`length_dw = 6 * crelocs`. The call returns, whatever the result of the submission. -/
theorem emit_submits_two_chunks (cs : cs_gem) (hr : reachable cs) (r : Int) :
    ∃ cs1, cs_gem_emit r cs = some (cs1, r) ∧
      cs1.submitted = cs.submitted ++
        [{ num_chunks := 2,
           chunks := [{ chunk_id := RADEON_CHUNK_ID_IB, length_dw := cs.cdw },
             { chunk_id := RADEON_CHUNK_ID_RELOCS, length_dw := 6 * cs.crelocs }] }] := by
  obtain ⟨_, _, _, c3, c4⟩ := reachable_creation_sized cs hr
  obtain ⟨k1, k2, k3⟩ := reachable_chunks_ok cs hr
  obtain ⟨cs1, h1, _, _, h4⟩ := emit_spec r cs (by omega)
  obtain ⟨_, _, _, _, _, _, _, _, _, _, f11, _⟩ := fields_of_unref_view _ _ h4
  refine ⟨cs1, h1, ?_⟩
  rw [f11]
  show cs.submitted ++ [(⟨2, [{ cs.chunks0 with length_dw := cs.cdw }, cs.chunks1]⟩ :
    drm_radeon_cs2)] = _
  have e0 : ({ cs.chunks0 with length_dw := cs.cdw } : drm_radeon_cs_chunk) =
      { chunk_id := RADEON_CHUNK_ID_IB, length_dw := cs.cdw } := by rw [← k1]
  have e1 : cs.chunks1 = { chunk_id := RADEON_CHUNK_ID_RELOCS, length_dw := 6 * cs.crelocs } := by
    rw [← k2, ← k3]
  rw [e0, e1]

/-- C14 (witness): the stream in which `buffer_one` and `buffer_two` have been
registered holds 4 words and 2 entries; its submission describes 4 words and 12
words. -/
theorem emit_submits_two_chunks_witness :
    reachable stream_two ∧
      ∃ cs1, cs_gem_emit 0 stream_two = some (cs1, 0) ∧
        cs1.submitted =
          [{ num_chunks := 2,
             chunks := [{ chunk_id := RADEON_CHUNK_ID_IB, length_dw := 4 },
               { chunk_id := RADEON_CHUNK_ID_RELOCS, length_dw := 12 }] }] :=
  ⟨reachable_stream_two, emit_submits_two_chunks stream_two reachable_stream_two 0⟩

/-! ## C15: cs_gem_emit -/

/-- C15: on every stream whose slots in use lie inside the reference array (every
reachable stream), and for every result `r` of the submission, `cs_gem_emit` returns
`r`; it passes the pointer of every slot below `crelocs` to `radeon_bo_unref`, in
order, so that every reference the table holds is released, and leaves every slot
below `crelocs` empty; the words, `cdw`, the capacity, the records of the table,
`crelocs`, `relocs_total_size` and the slots from `crelocs` on are unchanged. -/
theorem emit_effect (r : Int) (cs : cs_gem) (hb : cs.crelocs ≤ cs.relocs_bo.length) :
    ∃ cs1, cs_gem_emit r cs = some (cs1, r) ∧
      cs1.bo_calls = cs.bo_calls ++ (cs.relocs_bo.take cs.crelocs).map bo_call.unref ∧
      (∀ k bo, k < cs.crelocs → cs.relocs_bo[k]? = some (some bo) →
        bo_call.unref (some bo) ∈ (cs.relocs_bo.take cs.crelocs).map bo_call.unref) ∧
      (∀ k, k < cs.crelocs → cs1.relocs_bo[k]? = some none) ∧
      (∀ k, cs.crelocs ≤ k → cs1.relocs_bo[k]? = cs.relocs_bo[k]?) ∧
      cs1.packets = cs.packets ∧ cs1.cdw = cs.cdw ∧ cs1.ndw = cs.ndw ∧
      cs1.relocs = cs.relocs ∧ cs1.crelocs = cs.crelocs ∧ cs1.nrelocs = cs.nrelocs ∧
      cs1.relocs_total_size = cs.relocs_total_size := by
  obtain ⟨cs1, h1, h2, h3, h4⟩ := emit_spec r cs hb
  obtain ⟨f1, f2, f3, _, f5, f6, _, _, f9, f10, _, _⟩ := fields_of_unref_view _ _ h4
  refine ⟨cs1, h1, h2, ?_, ?_, ?_, f1, f2, f3, f10, f5, f9, f6⟩
  · intro k bo hk hs
    rw [List.mem_map]
    refine ⟨some bo, ?_, rfl⟩
    rw [List.mem_iff_getElem?]
    exact ⟨k, by rw [List.getElem?_take, if_pos hk, hs]⟩
  · intro k hk
    rw [h3 k, if_pos hk]
  · intro k hk
    rw [h3 k, if_neg (by omega)]

/-- C15 (witness): on the stream in which `buffer_one` and `buffer_two` have been
registered, a submission that fails with `-EINVAL` releases the two buffers. -/
theorem emit_effect_witness :
    stream_two.crelocs ≤ stream_two.relocs_bo.length ∧
      ∃ cs1, cs_gem_emit (-EINVAL) stream_two = some (cs1, -EINVAL) ∧
        cs1.bo_calls = [bo_call.ref buffer_one, bo_call.ref buffer_two,
          bo_call.unref (some buffer_one), bo_call.unref (some buffer_two)] ∧
        cs1.relocs_bo[0]? = some none ∧ cs1.relocs_bo[1]? = some none ∧
        cs1.packets = stream_two.packets ∧ cs1.cdw = stream_two.cdw ∧
        cs1.relocs = stream_two.relocs ∧ cs1.crelocs = stream_two.crelocs ∧
        cs1.relocs_total_size = stream_two.relocs_total_size := by
  have hb : stream_two.crelocs ≤ stream_two.relocs_bo.length := by
    rw [slots_stream_two.1, slots_stream_two.2.2.1]; decide
  obtain ⟨cs1, h1, h2, _, h4, _, h6, h7, _, h9, h10, _, h12⟩ :=
    emit_effect (-EINVAL) stream_two hb
  refine ⟨hb, cs1, h1, ?_, h4 0 (by rw [slots_stream_two.1]; decide),
    h4 1 (by rw [slots_stream_two.1]; decide), h6, h7, h9, h10, h12⟩
  rw [h2, slots_stream_two.1, slots_stream_two.2.2.2.1, slots_stream_two.2.2.2.2]
  rfl

/-! ## C16: cs_gem_destroy -/

/-- C16: `cs_gem_destroy` makes no call to the buffer-object collaborator. On the
stream in which `buffer_one` has been registered, and neither `cs_gem_emit` nor
`cs_gem_erase` has run, the record of the calls after `cs_gem_destroy` is the
acquisition made at registration alone: the reference is never released. -/
theorem destroy_releases_no_reference :
    cs_gem_write_reloc all_ok fresh_stream buffer_one 0 16 2 0 0 = some (stream_one, 0) ∧
      stream_one.relocs_bo[0]? = some (some buffer_one) ∧
      cs_gem_destroy stream_one = ([bo_call.ref buffer_one], 0) ∧
      bo_call.unref (some buffer_one) ∉ (cs_gem_destroy stream_one).1 ∧
      ∀ cs : cs_gem, (cs_gem_destroy cs).1 = cs.bo_calls := by
  refine ⟨write_reloc_fresh_stream, ?_, rfl, ?_, fun _ => rfl⟩
  · show (fresh_stream.relocs_bo.set 0 (some buffer_one))[0]? = _
    rw [List.getElem?_set_self (by
      show 0 < (List.replicate 256 none).length
      rw [List.length_replicate]; decide)]
  · show bo_call.unref (some buffer_one) ∉ [bo_call.ref buffer_one]
    decide

/-! ## C17: type-0 packets -/

/-- C17: at a type-0 header (bits 31:30 are 0) with count field `c` (bits 29:16),
register address `A` (bits 12:0, shifted left by 2) and flag `f` (bit 15), followed in
the buffer by at least `c + 1` words, `cs_gem_print` writes one header line, then
exactly `c + 1` lines, line `j` showing word `j` of the body attributed to the address
`A + 4 * j` when `f = 0` and to `A` when `f = 1`, and goes on decoding at the word after
the body. -/
theorem print_type0_packet (packets : List Nat) (cdw i h c A f : Nat) (out : List print_line)
    (hi : i < cdw) (hp : packets[i]? = some h) (ht : h / 1073741824 % 4 = 0)
    (hc : c = h / 65536 % 16384) (hA : A = h % 8192 * 4) (hf : f = h / 32768 % 2)
    (hbody : i + 1 + (c + 1) ≤ cdw) (hs : cdw ≤ packets.length) :
    cs_gem_print_loop packets cdw i out =
      cs_gem_print_loop packets cdw (i + 1 + (c + 1))
        (out ++ print_line.pkt0 i (c + 1) ::
          (List.range (c + 1)).map fun j =>
            print_line.reg_write (packets.getD (i + 1 + j) 0)
              (if f = 0 then A + 4 * j else A)) := by
  have hU : U32 = 4294967296 := rfl
  have hty : CP_PACKET_GET_TYPE h = PACKET_TYPE0 := by rw [packet_type_bits, ht]; rfl
  rw [print_loop_packet0 packets cdw i h out hi hp hty, packet_count_bits, ← hc]
  unfold cs_gem_print_packet0
  rw [packet0_one_reg_bits, ← hf, packet0_reg_bits, ← hA]
  by_cases hf0 : f = 0
  · rw [if_neg (by rw [hf0]; decide),
      print_regs_spec packets (c + 1) (i + 1) A _ (by omega) (by rw [hU]; omega)]
    simp only [Option.some_bind, List.append_assoc, List.singleton_append, if_pos hf0]
  · rw [if_pos hf0, print_one_reg_spec packets A (c + 1) (i + 1) _ (by omega)]
    simp only [Option.some_bind, List.append_assoc, List.singleton_append, if_neg hf0]

/-- C17 (witness): the header `0x00020040` has count 2, address `0x100` and flag 0 and
is followed by the words 11, 22, 33: they are attributed to `0x100`, `0x104`, `0x108`.
With the flag set, header `0x00028040`, all three are attributed to `0x100`. -/
theorem print_type0_packet_witness :
    cs_gem_print_loop [0x00020040, 11, 22, 33] 4 0 [] =
        some [print_line.pkt0 0 3, print_line.reg_write 11 0x100,
          print_line.reg_write 22 0x104, print_line.reg_write 33 0x108] ∧
      cs_gem_print_loop [0x00028040, 11, 22, 33] 4 0 [] =
        some [print_line.pkt0 0 3, print_line.reg_write 11 0x100,
          print_line.reg_write 22 0x100, print_line.reg_write 33 0x100] :=
  ⟨(print_type0_packet [0x00020040, 11, 22, 33] 4 0 0x00020040 2 0x100 0 [] (by decide) rfl
      (by decide) (by decide) (by decide) (by decide) (by decide) (by decide)).trans
      (print_loop_end _ _ _ _ (by decide)),
    (print_type0_packet [0x00028040, 11, 22, 33] 4 0 0x00028040 2 0x100 1 [] (by decide) rfl
      (by decide) (by decide) (by decide) (by decide) (by decide) (by decide)).trans
      (print_loop_end _ _ _ _ (by decide))⟩

/-! ## C18: headers that are not decoded -/

/-- C18: at a header it cannot decode `cs_gem_print` stops. At a type-3 header whose
opcode (bits 15:8) is none of the named ones it writes the packet header line, then
one "unknown opcode" line; at a header of type 1 or 2 it writes one "unknown packet"
line. In both cases the function returns there: the diagnostic is the last line of
the output, and the output is the same whatever the other words of the buffer and
its length are. -/
theorem print_stops_at_unknown (packets : List Nat) (cdw i h : Nat) (out : List print_line)
    (hi : i < cdw) (hp : packets[i]? = some h) :
    (h / 1073741824 % 4 = 3 →
      h / 256 % 256 ∉ [PACKET3_NOP, PACKET3_3D_DRAW_VBUF, PACKET3_3D_DRAW_IMMD,
        PACKET3_3D_DRAW_INDX, PACKET3_3D_LOAD_VBPNTR, PACKET3_INDX_BUFFER,
        PACKET3_3D_DRAW_VBUF_2, PACKET3_3D_DRAW_IMMD_2, PACKET3_3D_DRAW_INDX_2] →
      ∀ (packets2 : List Nat) (cdw2 : Nat), i < cdw2 → packets2[i]? = some h →
        cs_gem_print_loop packets2 cdw2 i out =
          some (out ++ [print_line.pkt3 i, print_line.unknow_opcode (h / 256 % 256) (i + 1)]) ∧
        cs_gem_print_loop packets2 cdw2 i out = cs_gem_print_loop packets cdw i out) ∧
    (h / 1073741824 % 4 = 1 ∨ h / 1073741824 % 4 = 2 →
      ∀ (packets2 : List Nat) (cdw2 : Nat), i < cdw2 → packets2[i]? = some h →
        cs_gem_print_loop packets2 cdw2 i out = some (out ++ [print_line.unknow_packet h i]) ∧
        cs_gem_print_loop packets2 cdw2 i out = cs_gem_print_loop packets cdw i out) := by
  constructor
  · intro ht ho
    have hty : CP_PACKET_GET_TYPE h = PACKET_TYPE3 := by rw [packet_type_bits, ht]; rfl
    have hop : cs_gem_print_opcode (CP_PACKET3_GET_OPCODE h) = none := by
      rw [print_opcode_none, packet3_opcode_bits]; exact ho
    have key : ∀ (p : List Nat) (n : Nat), i < n → p[i]? = some h →
        cs_gem_print_loop p n i out =
          some (out ++ [print_line.pkt3 i, print_line.unknow_opcode (h / 256 % 256) (i + 1)]) := by
      intro p n h1 h2
      rw [print_loop_unknow_opcode p n i h out h1 h2 hty hop, packet3_opcode_bits,
        List.append_assoc]
      rfl
    intro packets2 cdw2 h1 h2
    exact ⟨key _ _ h1 h2, (key _ _ h1 h2).trans (key _ _ hi hp).symm⟩
  · intro ht
    have h0 : CP_PACKET_GET_TYPE h ≠ PACKET_TYPE0 := by
      rw [packet_type_bits]; unfold PACKET_TYPE0; omega
    have h3 : CP_PACKET_GET_TYPE h ≠ PACKET_TYPE3 := by
      rw [packet_type_bits]; unfold PACKET_TYPE3; omega
    intro packets2 cdw2 h1 h2
    exact ⟨print_loop_unknow_packet _ _ _ _ _ h1 h2 h0 h3,
      (print_loop_unknow_packet _ _ _ _ _ h1 h2 h0 h3).trans
        (print_loop_unknow_packet _ _ _ _ _ hi hp h0 h3).symm⟩

/-- C18 (witness): the header `0xC0001E00` is of type 3 with the opcode `0x1E`
(`PACKET3_SET_SCISSORS`, which the decoder does not name); the header `0x80000000` is
of type 2. The words that follow them are not decoded. -/
theorem print_stops_at_unknown_witness :
    cs_gem_print_loop [0xC0001E00, 0x80000000, 7] 3 0 [] =
        some [print_line.pkt3 0, print_line.unknow_opcode 0x1E 1] ∧
      cs_gem_print_loop [0xC0001E00, 0, 0, 0, 0] 5 0 [] =
        cs_gem_print_loop [0xC0001E00, 0x80000000, 7] 3 0 [] ∧
      cs_gem_print_loop [0x80000000, 0xC0001000, 7] 3 0 [] =
        some [print_line.unknow_packet 0x80000000 0] ∧
      cs_gem_print_loop [0x80000000] 1 0 [] =
        cs_gem_print_loop [0x80000000, 0xC0001000, 7] 3 0 [] :=
  ⟨((print_stops_at_unknown [0xC0001E00, 0x80000000, 7] 3 0 0xC0001E00 [] (by decide) rfl).1
      (by decide) (by decide) [0xC0001E00, 0x80000000, 7] 3 (by decide) rfl).1,
    ((print_stops_at_unknown [0xC0001E00, 0x80000000, 7] 3 0 0xC0001E00 [] (by decide) rfl).1
      (by decide) (by decide) [0xC0001E00, 0, 0, 0, 0] 5 (by decide) rfl).2,
    ((print_stops_at_unknown [0x80000000, 0xC0001000, 7] 3 0 0x80000000 [] (by decide) rfl).2
      (by decide) [0x80000000, 0xC0001000, 7] 3 (by decide) rfl).1,
    ((print_stops_at_unknown [0x80000000, 0xC0001000, 7] 3 0 0x80000000 [] (by decide) rfl).2
      (by decide) [0x80000000] 1 (by decide) rfl).2⟩

/-! ## C19: words read by cs_gem_print -/

/-- C19: `cs_gem_print` reads words at indices that are not below `cdw`. On the stream
`create; write_dword(0x3FFF0000)`, which holds one word, the loop of lines 353-357
reads the 16384 words that the count field announces: the words at indices 1..16383
were never written, and the read at index 16384 is outside the storage, a memory
fault (the function has no result). On the stream `stale_stream`, which holds the one
word 0, the function returns and shows the word 7 of the erased batch, read at
index 1. -/
theorem print_reads_past_cdw :
    cs_gem_write_dword true fresh_stream 0x3FFF0000 = some (header_stream, 0) ∧
      words header_stream = [0x3FFF0000] ∧ header_stream.cdw = 1 ∧
      header_stream.packets.length = 16384 ∧
      cs_gem_print header_stream = none ∧
      cs_gem_run fresh_stream [cs_call.write_dword true 0, cs_call.write_dword true 7,
        cs_call.erase, cs_call.write_dword true 0] = some stale_stream ∧
      words stale_stream = [0] ∧ stale_stream.cdw = 1 ∧
      cs_gem_print stale_stream =
        some [print_line.pkt0 0 1, print_line.reg_write 7 0] := by
  have hlen : fresh_stream.packets.length = 16384 := List.length_replicate _ _
  have hp0 : header_stream.packets[0]? = some 0x3FFF0000 := by
    show (fresh_stream.packets.set 0 0x3FFF0000)[0]? = _
    rw [List.getElem?_set_self (by rw [hlen]; decide)]
  have hl0 : header_stream.packets.length = 16384 := by
    show (fresh_stream.packets.set 0 0x3FFF0000).length = _
    rw [List.length_set, hlen]
  have hs0 : stale_stream.packets[0]? = some 0 := by
    show (((fresh_stream.packets.set 0 0).set (1 % U32) 7).set 0 0)[0]? = _
    rw [List.getElem?_set_self (by rw [List.length_set, List.length_set, hlen]; decide)]
  have hl1 : stale_stream.packets.length = 16384 := by
    show (((fresh_stream.packets.set 0 0).set (1 % U32) 7).set 0 0).length = _
    rw [List.length_set, List.length_set, List.length_set, hlen]
  have hs1 : stale_stream.packets.getD 1 0 = 7 := by
    show (((fresh_stream.packets.set 0 0).set (1 % U32) 7).set 0 0).getD 1 0 = _
    rw [List.getD_eq_getElem?_getD, List.getElem?_set_ne (by decide),
      show 1 % U32 = 1 by decide,
      List.getElem?_set_self (by rw [List.length_set, hlen]; decide)]
    rfl
  refine ⟨write_dword_header_stream, ?_, rfl, hl0, ?_, run_stale_stream, ?_, rfl, ?_⟩
  · show (fresh_stream.packets.set 0 0x3FFF0000).take 1 = _
    rw [take_set_same _ _ _ (by rw [hlen]; decide)]
    rfl
  · show cs_gem_print_loop header_stream.packets 1 0 [] = none
    rw [print_loop_packet0 _ _ _ _ _ (by decide) hp0 (by decide),
      print_packet0_fault _ _ _ _ _ (by rw [hl0]; decide) (by rw [hl0]; decide)]
    rfl
  · show (((fresh_stream.packets.set 0 0).set (1 % U32) 7).set 0 0).take 1 = _
    rw [take_set_same _ _ _ (by rw [List.length_set, List.length_set, hlen]; decide)]
    rfl
  · show cs_gem_print_loop stale_stream.packets 1 0 [] = _
    rw [print_loop_packet0 _ _ _ _ _ (by decide) hs0 (by decide)]
    unfold cs_gem_print_packet0
    rw [if_neg (by decide),
      print_regs_spec _ _ _ _ _ (by rw [hl1]; decide) (by decide)]
    simp only [Option.some_bind]
    rw [print_loop_end _ _ _ _ (by decide)]
    show some ([print_line.pkt0 0 1] ++ [print_line.reg_write (stale_stream.packets.getD 1 0)
      (CP_PACKET0_GET_REG 0 + 4 * 0)]) = _
    rw [hs1]
    rfl

/-! ## C20: room for a new entry -/

/-- C20: the stream after the 170 registrations of the run holds 170 entries in a
storage of 4096 bytes, which has room for them (4080 bytes), and is reachable. The
table is not full for the code (`crelocs = 170 < nrelocs = 256`), so it is not grown,
and the six words of a further entry, at word indices 1020..1025, do not lie inside the
storage of 1024 words: every registration of a new handle with valid arguments on
this stream writes outside the storage, a memory fault. -/
theorem new_entry_outside_storage :
    ∃ cs, cs_gem_run fresh_stream (registrations 170) = some cs ∧ reachable cs ∧
      cs.crelocs = 170 ∧ cs.nrelocs = 256 ∧ 4 * cs.relocs.length = 4096 ∧
      24 * cs.crelocs ≤ 4 * cs.relocs.length ∧ cs.crelocs ≤ cs.relocs_bo.length ∧
      cs.crelocs < cs.nrelocs ∧ cs.relocs.length ≤ 6 * cs.crelocs + 5 ∧
      ∀ (a : reloc_allocs) (bo : radeon_bo) (so eo rd wd fl : Nat),
        ¬ reloc_invalid bo so eo rd wd → bo.handle ∉ handles cs →
        cs_gem_write_reloc a cs bo so eo rd wd fl = none := by
  obtain ⟨cs, hr, h1, h2, h3, h4, h5, h6, h7, h8⟩ := registered_run 170 (le_refl _)
  have hlen : ((List.range 170).map (fun i => i + 1)).length = 170 := by simp
  rw [hlen] at h1
  have hre : reachable cs := reachable_run _ _ _ reachable_fresh_stream hr
  refine ⟨cs, hr, hre, h1, h2, by omega, by omega, by omega, by omega, by omega, ?_⟩
  intro a bo so eo rd wd fl hv hn
  exact write_reloc_new_fault a cs bo so eo rd wd fl hv (inv_reachable cs hre).1 hn
    (by omega) (by omega)

end RadeonCsGem
